import Mathlib

/-!
# XR30256 (rule30.crypt.c): a shallow embedding

The 64-bit build of `rule30.crypt.c` is embedded here.  Every C variable of type
`unsigned long int` is a natural number; operations that can leave the 64-bit
range in C (`<<`, `+`, `*`) are reduced modulo `2^64` explicitly.  The `for`
loops of the source keep their packed counter register `mp` and are run by a
fuel-bounded `while` combinator, so the number of iterations is a consequence of
the code and not an assumption of the model.
-/

namespace XR30256

/-! ## Masks and constants (rule30.crypt.c, lines 215-241) -/

def WORDSIZE : Nat := 64
def RULE30 : Nat := 0x000000000000001E
def CELL_MASK : Nat := 0x0000000000000007
def RHS_ONE : Nat := 0x0000000000000001
def LHS_ONE : Nat := 0x8000000000000000
def LHS_ZERO : Nat := 0x7FFFFFFFFFFFFFFF
def INNER_COUNT : Nat := 0x00000000000000FF
def INNER_ONE : Nat := 0x0000000000000001
def INNER_ZERO : Nat := 0xFFFFFFFFFFFFFF00
def OUTER_COUNT : Nat := 0x0000000000FFFF00
def OUTER_ONE : Nat := 0x0000000000000100
def OUTER_ZERO : Nat := 0xFFFFFFFFFF0000FF
def DELTA_COUNT : Nat := 0x0000000000000008
def DELTA_ROUNDS : Nat := 0x0000000000000018
def ROUNDS_COUNT : Nat := 0x000000FFFF000000
def ROUNDS_ZERO : Nat := 0xFFFFFF0000FFFFFF
def ROUNDS_ONE : Nat := 0x0000000001000000
def CA256 : Nat := 0x00000000000000FF
def ROUNDS : Nat := 0x0000000000000010

/-! ## 64-bit machine arithmetic -/

/-- The modulus of `unsigned long int` on the 64-bit target. -/
def WORD : Nat := 2 ^ 64

/-- C `a << n` on a 64-bit word: bits shifted past bit 63 are dropped. -/
def shl (a n : Nat) : Nat := (a <<< n) % WORD

/-- C `a + b` on 64-bit words. -/
def add64 (a b : Nat) : Nat := (a + b) % WORD

/-- C `a * b` on 64-bit words. -/
def mul64 (a b : Nat) : Nat := (a * b) % WORD

/-! ## Data -/

/-- Four 64-bit words: a key, a block, or one scheduled subkey (`unsigned long int [4]`). -/
structure Block where
  w0 : Nat
  w1 : Nat
  w2 : Nat
  w3 : Nat
deriving DecidableEq, Repr

/-- The `struct scheduled_key` of the source. -/
structure scheduled_key where
  key_1 : Block
  key_2 : Block
  key_3 : Block
  key_4 : Block
deriving DecidableEq, Repr

/-- The register variables shared by the three functions of the source: the CA input
registers, the CA output registers and the packed counter/carry register `mp`. -/
structure Regs where
  key_in_reg1 : Nat
  key_in_reg2 : Nat
  key_in_reg3 : Nat
  key_in_reg4 : Nat
  key_out_reg1 : Nat
  key_out_reg2 : Nat
  key_out_reg3 : Nat
  key_out_reg4 : Nat
  mp : Nat
deriving DecidableEq, Repr

/-- The local state of `xr30256_encrypt` / `xr30256_decrypt`: the registers plus the four
block words `plain_1..4` (named `cipher_1..4` in the decryption routine). -/
structure CipherState where
  r : Regs
  plain_1 : Nat
  plain_2 : Nat
  plain_3 : Nat
  plain_4 : Nat
deriving DecidableEq, Repr

/-- Every word of a block fits in 64 bits. -/
def Block.wf (b : Block) : Prop :=
  b.w0 < WORD ∧ b.w1 < WORD ∧ b.w2 < WORD ∧ b.w3 < WORD

instance (b : Block) : Decidable b.wf := by
  unfold Block.wf; exact inferInstance

/-- Every word of every subkey fits in 64 bits. -/
def scheduled_key.wf (k : scheduled_key) : Prop :=
  k.key_1.wf ∧ k.key_2.wf ∧ k.key_3.wf ∧ k.key_4.wf

instance (k : scheduled_key) : Decidable k.wf := by
  unfold scheduled_key.wf; exact inferInstance

/-- The four CA input registers read as a block. -/
def Regs.input (s : Regs) : Block :=
  ⟨s.key_in_reg1, s.key_in_reg2, s.key_in_reg3, s.key_in_reg4⟩

/-! ## Loops -/

/-- A C loop `while (cond) body` with a fuel bound: `none` when the fuel runs out before the
condition turns false or when the body itself fails. -/
def whileLoop {σ : Type} (cond : σ → Bool) (body : σ → Option σ) : Nat → σ → Option σ
  | 0, _ => none
  | fuel + 1, s => if cond s then (body s).bind (whileLoop cond body fuel) else some s

/-! ## The CA256 loop (lines 323-369, and its eleven textually identical copies) -/

/-- The body of the inner loop (lines 330-347): one rule lookup per register, then the
rotation of the four input registers one bit to the right with the carry kept in the
top bit of `mp`. -/
def inner_body (rule : Nat) (s : Regs) : Regs :=
  let key_out_reg1 := s.key_out_reg1 ||| shl ((rule >>> (s.key_in_reg1 &&& CELL_MASK)) &&& RHS_ONE) (s.mp &&& INNER_COUNT)
  let key_out_reg2 := s.key_out_reg2 ||| shl ((rule >>> (s.key_in_reg2 &&& CELL_MASK)) &&& RHS_ONE) (s.mp &&& INNER_COUNT)
  let key_out_reg3 := s.key_out_reg3 ||| shl ((rule >>> (s.key_in_reg3 &&& CELL_MASK)) &&& RHS_ONE) (s.mp &&& INNER_COUNT)
  let key_out_reg4 := s.key_out_reg4 ||| shl ((rule >>> (s.key_in_reg4 &&& CELL_MASK)) &&& RHS_ONE) (s.mp &&& INNER_COUNT)
  let mp := s.mp &&& LHS_ZERO
  let mp := mp ||| shl (s.key_in_reg4 &&& RHS_ONE) (WORDSIZE - 1)
  let key_in_reg4 := s.key_in_reg4 >>> RHS_ONE
  let key_in_reg4 := key_in_reg4 ||| shl (s.key_in_reg3 &&& RHS_ONE) (WORDSIZE - 1)
  let key_in_reg3 := s.key_in_reg3 >>> RHS_ONE
  let key_in_reg3 := key_in_reg3 ||| shl (s.key_in_reg2 &&& RHS_ONE) (WORDSIZE - 1)
  let key_in_reg2 := s.key_in_reg2 >>> RHS_ONE
  let key_in_reg2 := key_in_reg2 ||| shl (s.key_in_reg1 &&& RHS_ONE) (WORDSIZE - 1)
  let key_in_reg1 := s.key_in_reg1 >>> RHS_ONE
  let key_in_reg1 := key_in_reg1 ||| (mp &&& LHS_ONE)
  { key_in_reg1 := key_in_reg1, key_in_reg2 := key_in_reg2,
    key_in_reg3 := key_in_reg3, key_in_reg4 := key_in_reg4,
    key_out_reg1 := key_out_reg1, key_out_reg2 := key_out_reg2,
    key_out_reg3 := key_out_reg3, key_out_reg4 := key_out_reg4,
    mp := mp }

/-- The inner loop (line 328):
`for((mp &= INNER_ZERO); (mp & INNER_COUNT) < WORDSIZE; mp += INNER_ONE)`. -/
def inner_loop (rule fuel : Nat) (s : Regs) : Option Regs :=
  whileLoop (fun t => decide ((t.mp &&& INNER_COUNT) < WORDSIZE))
    (fun t => let u := inner_body rule t
              some { u with mp := add64 u.mp INNER_ONE })
    fuel { s with mp := s.mp &&& INNER_ZERO }

/-- The rotation of the four output registers one bit to the left followed by the copy of
the output registers into the input registers (lines 351-367). -/
def rotate_and_swap (s : Regs) : Regs :=
  let mp := s.mp &&& LHS_ZERO
  let mp := mp ||| (s.key_out_reg1 &&& LHS_ONE)
  let key_out_reg1 := shl s.key_out_reg1 RHS_ONE
  let key_out_reg1 := key_out_reg1 ||| ((s.key_out_reg2 &&& LHS_ONE) >>> (WORDSIZE - 1))
  let key_out_reg2 := shl s.key_out_reg2 RHS_ONE
  let key_out_reg2 := key_out_reg2 ||| ((s.key_out_reg3 &&& LHS_ONE) >>> (WORDSIZE - 1))
  let key_out_reg3 := shl s.key_out_reg3 RHS_ONE
  let key_out_reg3 := key_out_reg3 ||| ((s.key_out_reg4 &&& LHS_ONE) >>> (WORDSIZE - 1))
  let key_out_reg4 := shl s.key_out_reg4 RHS_ONE
  let key_out_reg4 := key_out_reg4 ||| ((mp &&& LHS_ONE) >>> (WORDSIZE - 1))
  { key_in_reg1 := key_out_reg1, key_in_reg2 := key_out_reg2,
    key_in_reg3 := key_out_reg3, key_in_reg4 := key_out_reg4,
    key_out_reg1 := key_out_reg1, key_out_reg2 := key_out_reg2,
    key_out_reg3 := key_out_reg3, key_out_reg4 := key_out_reg4,
    mp := mp }

/-- The body of the generation loop (lines 325-367): clear the output registers, run the
inner loop, rotate the output left and copy it to the input registers. -/
def generation (rule fuel : Nat) (s : Regs) : Option Regs :=
  let s0 : Regs := { s with key_out_reg1 := 0, key_out_reg2 := 0, key_out_reg3 := 0, key_out_reg4 := 0 }
  (inner_loop rule fuel s0).bind (fun s1 => some (rotate_and_swap s1))

/-- The generation loop (line 323) with its bound as a parameter:
`for((mp &= OUTER_ZERO); ((mp & OUTER_COUNT) >> DELTA_COUNT) < bound; mp += OUTER_ONE)`.
The source always writes the bound `CA256`. -/
def ca_loop (rule bound fuel : Nat) (s : Regs) : Option Regs :=
  whileLoop (fun t => decide (((t.mp &&& OUTER_COUNT) >>> DELTA_COUNT) < bound))
    (fun t => (generation rule fuel t).bind
      (fun u => some { u with mp := add64 u.mp OUTER_ONE }))
    fuel { s with mp := s.mp &&& OUTER_ZERO }

/-- The `KX/CA256` loop exactly as the source writes it twelve times. -/
def ca256_loop (rule fuel : Nat) (s : Regs) : Option Regs :=
  ca_loop rule CA256 fuel s

/-! ## Key schedule (lines 295-578) -/

/-- The registers as the three functions declare them: all zero. -/
def Regs.init : Regs :=
  { key_in_reg1 := 0, key_in_reg2 := 0, key_in_reg3 := 0, key_in_reg4 := 0,
    key_out_reg1 := 0, key_out_reg2 := 0, key_out_reg3 := 0, key_out_reg4 := 0, mp := 0 }

/-- Lines 316-320: load the 1st key segment. -/
def load_segment_1 (key : Block) (s : Regs) : Regs :=
  { s with key_in_reg1 := key.w0,
           key_in_reg2 := add64 key.w0 (mul64 key.w0 key.w1),
           key_in_reg3 := add64 key.w0 (mul64 key.w0 key.w2),
           key_in_reg4 := add64 key.w0 (mul64 key.w0 key.w3) }

/-- Lines 381-385: load the 2nd key segment. -/
def load_segment_2 (key : Block) (s : Regs) : Regs :=
  { s with key_in_reg1 := add64 key.w1 (mul64 key.w1 key.w0),
           key_in_reg2 := key.w1,
           key_in_reg3 := add64 key.w1 (mul64 key.w1 key.w2),
           key_in_reg4 := add64 key.w1 (mul64 key.w1 key.w3) }

/-- Lines 446-450: load the 3rd key segment. -/
def load_segment_3 (key : Block) (s : Regs) : Regs :=
  { s with key_in_reg1 := add64 key.w2 (mul64 key.w2 key.w0),
           key_in_reg2 := add64 key.w2 (mul64 key.w2 key.w1),
           key_in_reg3 := key.w2,
           key_in_reg4 := add64 key.w2 (mul64 key.w2 key.w3) }

/-- Lines 511-515: load the 4th key segment. -/
def load_segment_4 (key : Block) (s : Regs) : Regs :=
  { s with key_in_reg1 := add64 key.w3 (mul64 key.w3 key.w0),
           key_in_reg2 := add64 key.w3 (mul64 key.w3 key.w1),
           key_in_reg3 := add64 key.w3 (mul64 key.w3 key.w2),
           key_in_reg4 := key.w3 }

/-- The function `xr30256_key_schedule`: the registers and `mp` are threaded from one
subkey computation into the next, as in the source. -/
def xr30256_key_schedule (fuel : Nat) (key : Block) : Option scheduled_key :=
  let rule := RULE30
  (ca256_loop rule fuel (load_segment_1 key Regs.init)).bind fun s1 =>
  (ca256_loop rule fuel (load_segment_2 key s1)).bind fun s2 =>
  (ca256_loop rule fuel (load_segment_3 key s2)).bind fun s3 =>
  (ca256_loop rule fuel (load_segment_4 key s3)).bind fun s4 =>
  some { key_1 := s1.input, key_2 := s2.input, key_3 := s3.input, key_4 := s4.input }

/-! ## Encryption and decryption (lines 581-1271) -/

/-- Load a scheduled subkey: `key_in_regN ^= key->key_X[N-1]` (e.g. lines 621-624). -/
def load_subkey (k : Block) (s : Regs) : Regs :=
  { s with key_in_reg1 := s.key_in_reg1 ^^^ k.w0,
           key_in_reg2 := s.key_in_reg2 ^^^ k.w1,
           key_in_reg3 := s.key_in_reg3 ^^^ k.w2,
           key_in_reg4 := s.key_in_reg4 ^^^ k.w3 }

/-- XOR right and left half together and replicate the result in both halves
(e.g. lines 676-679). -/
def fold_halves (s : Regs) : Regs :=
  let key_in_reg1 := s.key_in_reg1 ^^^ s.key_in_reg3
  let key_in_reg2 := s.key_in_reg2 ^^^ s.key_in_reg4
  { s with key_in_reg1 := key_in_reg1, key_in_reg2 := key_in_reg2,
           key_in_reg3 := key_in_reg1, key_in_reg4 := key_in_reg2 }

/-- One F-function block of the source, between the START and END banners: load the
subkey, run the CA256 loop, fold. -/
def f_function (k : Block) (fuel : Nat) (s : Regs) : Option Regs :=
  (ca256_loop RULE30 fuel (load_subkey k s)).bind fun t => some (fold_halves t)

/-- Feistel XOR with the left half (e.g. lines 685-690). -/
def feistel_left (c : CipherState) : CipherState :=
  let key_in_reg1 := c.r.key_in_reg1 ^^^ c.plain_1
  let key_in_reg2 := c.r.key_in_reg2 ^^^ c.plain_2
  { c with r := { c.r with key_in_reg1 := key_in_reg1, key_in_reg2 := key_in_reg2,
                           key_in_reg3 := key_in_reg1, key_in_reg4 := key_in_reg2 },
           plain_1 := key_in_reg1, plain_2 := key_in_reg2 }

/-- Feistel XOR with the right half (e.g. lines 759-764). -/
def feistel_right (c : CipherState) : CipherState :=
  let key_in_reg1 := c.r.key_in_reg1 ^^^ c.plain_3
  let key_in_reg2 := c.r.key_in_reg2 ^^^ c.plain_4
  { c with r := { c.r with key_in_reg1 := key_in_reg1, key_in_reg2 := key_in_reg2,
                           key_in_reg3 := key_in_reg1, key_in_reg4 := key_in_reg2 },
           plain_3 := key_in_reg1, plain_4 := key_in_reg2 }

/-- Run an F-function block on the registers of a cipher state. -/
def f_step (k : Block) (fuel : Nat) (c : CipherState) : Option CipherState :=
  (f_function k fuel c.r).bind fun t => some { c with r := t }

/-- Lines 603-613 (and 949-959): load the block and initialise the CA input with the
right half. -/
def load_block (b : Block) : CipherState :=
  let key_in_reg1 := 0 ^^^ b.w2
  let key_in_reg2 := 0 ^^^ b.w3
  { r := { Regs.init with key_in_reg1 := key_in_reg1, key_in_reg2 := key_in_reg2,
                          key_in_reg3 := key_in_reg1, key_in_reg4 := key_in_reg2 },
    plain_1 := b.w0, plain_2 := b.w1, plain_3 := b.w2, plain_4 := b.w3 }

/-- The rounds loop header shared by both routines (lines 615 and 961):
`for(mp &= ROUNDS_ZERO; ((mp & ROUNDS_COUNT) >> DELTA_ROUNDS) < ROUNDS; mp += ROUNDS_ONE)`. -/
def rounds_loop (body : CipherState → Option CipherState) (fuel : Nat) (c : CipherState) :
    Option CipherState :=
  whileLoop (fun t => decide (((t.r.mp &&& ROUNDS_COUNT) >>> DELTA_ROUNDS) < ROUNDS))
    (fun t => (body t).bind
      (fun u => some { u with r := { u.r with mp := add64 u.r.mp ROUNDS_ONE } }))
    fuel { c with r := { c.r with mp := c.r.mp &&& ROUNDS_ZERO } }

/-- The body of the rounds loop of `xr30256_encrypt` (lines 617-913). -/
def encrypt_round (key : scheduled_key) (fuel : Nat) (c : CipherState) : Option CipherState :=
  (f_step key.key_1 fuel c).bind fun c1 =>
  (f_step key.key_2 fuel (feistel_left c1)).bind fun c2 =>
  (f_step key.key_3 fuel (feistel_right c2)).bind fun c3 =>
  (f_step key.key_4 fuel (feistel_left c3)).bind fun c4 =>
  some (feistel_right c4)

/-- The body of the rounds loop of `xr30256_decrypt` (lines 963-1260). -/
def decrypt_round (key : scheduled_key) (fuel : Nat) (c : CipherState) : Option CipherState :=
  (f_step key.key_4 fuel c).bind fun c1 =>
  (f_step key.key_3 fuel (feistel_left c1)).bind fun c2 =>
  (f_step key.key_2 fuel (feistel_right c2)).bind fun c3 =>
  (f_step key.key_1 fuel (feistel_left c3)).bind fun c4 =>
  some (feistel_right c4)

/-- Lines 918-922 (and 1265-1269): the stored result, right half first. -/
def store_block (c : CipherState) : Block :=
  ⟨c.plain_3, c.plain_4, c.plain_1, c.plain_2⟩

/-- The function `xr30256_encrypt`. -/
def xr30256_encrypt (fuel : Nat) (key : scheduled_key) (plaintext : Block) : Option Block :=
  (rounds_loop (encrypt_round key fuel) fuel (load_block plaintext)).bind fun c =>
  some (store_block c)

/-- The function `xr30256_decrypt`. -/
def xr30256_decrypt (fuel : Nat) (key : scheduled_key) (ciphertext : Block) : Option Block :=
  (rounds_loop (decrypt_round key fuel) fuel (load_block ciphertext)).bind fun c =>
  some (store_block c)

/-- The key set in `main` (lines 1286-1289). -/
def main_key : Block :=
  ⟨0xa59535d07e192f12, 0x82734fb3084c5e05, 0x385b8a038d28e669, 0xd2bc44a82c395d8e⟩

/-- The plaintext set in `main` (lines 1291-1294). -/
def main_plaintext : Block :=
  ⟨0x0101010101010101, 0x0202020202020202, 0x0303030303030303, 0x0404040404040404⟩

/-! ## The same computation without the packed register

The functions below restate the data flow of the loops with an ordinary counter and an
ordinary carry; the lemmas further down prove that the loops of the source compute them. -/

/-- The four CA output registers read as a block. -/
def Regs.output (s : Regs) : Block :=
  ⟨s.key_out_reg1, s.key_out_reg2, s.key_out_reg3, s.key_out_reg4⟩

/-- The rule lookup of the source, `(rule >> n) & RHS_ONE`. -/
def rule_table (rule n : Nat) : Nat := (rule >>> n) &&& RHS_ONE

/-- Rotation of the four limbs one bit to the right, the carry being an ordinary value. -/
def rotate_right (b : Block) : Block :=
  ⟨b.w0 >>> RHS_ONE ||| shl (b.w3 &&& RHS_ONE) (WORDSIZE - 1),
   b.w1 >>> RHS_ONE ||| shl (b.w0 &&& RHS_ONE) (WORDSIZE - 1),
   b.w2 >>> RHS_ONE ||| shl (b.w1 &&& RHS_ONE) (WORDSIZE - 1),
   b.w3 >>> RHS_ONE ||| shl (b.w2 &&& RHS_ONE) (WORDSIZE - 1)⟩

/-- Rotation of the four limbs one bit to the left, the carry being an ordinary value. -/
def rotate_left (b : Block) : Block :=
  ⟨shl b.w0 RHS_ONE ||| ((b.w1 &&& LHS_ONE) >>> (WORDSIZE - 1)),
   shl b.w1 RHS_ONE ||| ((b.w2 &&& LHS_ONE) >>> (WORDSIZE - 1)),
   shl b.w2 RHS_ONE ||| ((b.w3 &&& LHS_ONE) >>> (WORDSIZE - 1)),
   shl b.w3 RHS_ONE ||| ((b.w0 &&& LHS_ONE) >>> (WORDSIZE - 1))⟩

/-- The data part of one inner iteration with counter value `c`, on the pair
(input registers, output registers). -/
def inner_data (rule c : Nat) (p : Block × Block) : Block × Block :=
  (rotate_right p.1,
   ⟨p.2.w0 ||| shl (rule_table rule (p.1.w0 &&& CELL_MASK)) c,
    p.2.w1 ||| shl (rule_table rule (p.1.w1 &&& CELL_MASK)) c,
    p.2.w2 ||| shl (rule_table rule (p.1.w2 &&& CELL_MASK)) c,
    p.2.w3 ||| shl (rule_table rule (p.1.w3 &&& CELL_MASK)) c⟩)

/-- The data part of the first `c` inner iterations. -/
def inner_pure (rule : Nat) : Nat → Block × Block → Block × Block
  | 0, p => p
  | c + 1, p => inner_data rule c (inner_pure rule c p)

/-- One generation as a function of the input register alone. -/
def ca_step (rule : Nat) (R : Block) : Block :=
  rotate_left (inner_pure rule WORDSIZE (R, ⟨0, 0, 0, 0⟩)).2

/-- The CA engine: `n` generations. -/
def evolve (rule n : Nat) (R : Block) : Block := (ca_step rule)^[n] R

/-- One pass of the inner loop including the `mp += INNER_ONE` of the loop header. -/
def inner_iter (rule : Nat) (t : Regs) : Regs :=
  { inner_body rule t with mp := add64 (inner_body rule t).mp INNER_ONE }

/-- One pass of the generation loop including the `mp += OUTER_ONE` of the loop header. -/
def generation_iter (rule fuel : Nat) (t : Regs) : Regs :=
  ((generation rule fuel t).bind (fun u => some { u with mp := add64 u.mp OUTER_ONE })).getD t

/-- Bit `j` of the 128-bit window made of a limb `lo` and the limb `hi` on its left. -/
def win (hi lo j : Nat) : Bool := if j < 64 then lo.testBit j else hi.testBit (j - 64)

/-- The neighbourhood value read at bit `e` of the window: three consecutive bits. -/
def nbhd (hi lo e : Nat) : Nat :=
  4 * (win hi lo (e + 2)).toNat + 2 * (win hi lo (e + 1)).toNat + (win hi lo e).toNat

/-- After `c` inner iterations an input register holds the window shifted by `c`. -/
def LimbIn (hi lo c x : Nat) : Prop :=
  x < 2 ^ 64 ∧ ∀ e, e < 64 → x.testBit e = win hi lo (e + c)

/-- After `c` inner iterations an output register holds the first `c` rule lookups. -/
def LimbOut (rule hi lo c o : Nat) : Prop :=
  o < 2 ^ c ∧ ∀ e, e < c → o.testBit e = rule.testBit (nbhd hi lo e)

/-- The neighbourhood of bit `e` of a limb `mid` between its neighbour limbs: the left
neighbour of bit 63 is bit 0 of the limb `hi`, the right neighbour of bit 0 is bit 63 of
the limb `lo`. -/
def cell (hi mid lo e : Nat) : Nat :=
  4 * (if e = 63 then hi.testBit 0 else mid.testBit (e + 1)).toNat
    + 2 * (mid.testBit e).toNat
    + (if e = 0 then lo.testBit 63 else mid.testBit (e - 1)).toNat

/-- Limb `k` of a block, `k = 0` the most significant. -/
def Block.limb (b : Block) (k : Nat) : Nat :=
  match k with
  | 0 => b.w0
  | 1 => b.w1
  | 2 => b.w2
  | _ => b.w3

/-- The cell at position `i` of the 256-bit register: position 0 is the most significant
bit of limb 0 and position 255 the least significant bit of limb 3. -/
def Block.bit (b : Block) (i : Nat) : Bool :=
  (b.limb (i / 64)).testBit (63 - i % 64)

/-! ## Reference definitions the claims are stated against -/

/-- The round function as the header draws it: the half `V` is duplicated, XORed with the
subkey `K`, evolved through `CA256` generations of rule 30, and the two 128-bit halves of
the result are XORed together. -/
def round_function (K : Block) (V : Nat × Nat) : Nat × Nat :=
  let e := evolve RULE30 CA256 ⟨V.1 ^^^ K.w0, V.2 ^^^ K.w1, V.1 ^^^ K.w2, V.2 ^^^ K.w3⟩
  (e.w0 ^^^ e.w2, e.w1 ^^^ e.w3)

/-- XOR of two 128-bit halves. -/
def xor_half (a b : Nat × Nat) : Nat × Nat := (a.1 ^^^ b.1, a.2 ^^^ b.2)

/-- One outer round of the reference Feistel network on the pair (left half, right half):
`L := L xor F(K1,R); R := R xor F(K2,L); L := L xor F(K3,R); R := R xor F(K4,L)`. -/
def feistel_round (sk : scheduled_key) (p : (Nat × Nat) × (Nat × Nat)) :
    (Nat × Nat) × (Nat × Nat) :=
  let L1 := xor_half p.1 (round_function sk.key_1 p.2)
  let R1 := xor_half p.2 (round_function sk.key_2 L1)
  let L2 := xor_half L1 (round_function sk.key_3 R1)
  let R2 := xor_half R1 (round_function sk.key_4 L2)
  (L2, R2)

/-- The reference cipher: 16 outer rounds, then the halves are output swapped. -/
def feistel_encrypt (sk : scheduled_key) (P : Block) : Block :=
  let q := (feistel_round sk)^[16] ((P.w0, P.w1), (P.w2, P.w3))
  ⟨q.2.1, q.2.2, q.1.1, q.1.2⟩

/-- The scheduled key with the order of its subkeys reversed. -/
def scheduled_key.reversed (sk : scheduled_key) : scheduled_key :=
  { key_1 := sk.key_4, key_2 := sk.key_3, key_3 := sk.key_2, key_4 := sk.key_1 }

/-- The two halves held in the block words of a cipher state. -/
def CipherState.halves (c : CipherState) : (Nat × Nat) × (Nat × Nat) :=
  ((c.plain_1, c.plain_2), (c.plain_3, c.plain_4))

/-- The CA input registers hold the half `V` in both 128-bit positions. -/
def CipherState.source (c : CipherState) (V : Nat × Nat) : Prop :=
  c.r.input = ⟨V.1, V.2, V.1, V.2⟩

/-- One pass of the rounds loop including the `mp += ROUNDS_ONE` of the loop header. -/
def rounds_iter (body : CipherState → Option CipherState) (t : CipherState) : CipherState :=
  ((body t).bind
    (fun u => some { u with r := { u.r with mp := add64 u.r.mp ROUNDS_ONE } })).getD t

/-- The mixing vector as the specification words it: limb `j` is the raw word `k[j-1]` and
every other limb `i` is `k[i-1] + k[i-1] * k[j-1]` modulo `2^64` (limbs numbered from 1). -/
def spec_mixing_limb (key : Block) (j i : Nat) : Nat :=
  if i = j then key.limb (j - 1)
  else (key.limb (i - 1) + key.limb (i - 1) * key.limb (j - 1)) % 2 ^ 64

/-- The mixing vector as the source header draws it: limb `j` is the raw word `k[j-1]` and
every other limb `i` is `k[j-1] + k[j-1] * k[i-1]` modulo `2^64` (limbs numbered from 1). -/
def header_mixing_limb (key : Block) (j i : Nat) : Nat :=
  if i = j then key.limb (j - 1)
  else (key.limb (j - 1) + key.limb (j - 1) * key.limb (i - 1)) % 2 ^ 64

/-! ## Definitions for iteration counts, 256-bit values, bit distances and calls -/

/-- The number of times the body of `whileLoop cond body` runs before the condition turns
false; `none` exactly when `whileLoop` gives `none`. -/
def whileCount {σ : Type} (cond : σ → Bool) (body : σ → Option σ) : Nat → σ → Option Nat
  | 0, _ => none
  | fuel + 1, s =>
    if cond s then (body s).bind (fun t => (whileCount cond body fuel t).map (fun n => n + 1))
    else some 0

/-- The number of passes through the body of the inner loop (line 328). -/
def inner_loop_count (rule fuel : Nat) (s : Regs) : Option Nat :=
  whileCount (fun t => decide ((t.mp &&& INNER_COUNT) < WORDSIZE))
    (fun t => let u := inner_body rule t
              some { u with mp := add64 u.mp INNER_ONE })
    fuel { s with mp := s.mp &&& INNER_ZERO }

/-- The number of passes through the body of the generation loop (line 323). -/
def ca_loop_count (rule bound fuel : Nat) (s : Regs) : Option Nat :=
  whileCount (fun t => decide (((t.mp &&& OUTER_COUNT) >>> DELTA_COUNT) < bound))
    (fun t => (generation rule fuel t).bind
      (fun u => some { u with mp := add64 u.mp OUTER_ONE }))
    fuel { s with mp := s.mp &&& OUTER_ZERO }

/-- The number of passes through the body of the rounds loop (lines 615 and 961). -/
def rounds_loop_count (body : CipherState → Option CipherState) (fuel : Nat)
    (c : CipherState) : Option Nat :=
  whileCount (fun t => decide (((t.r.mp &&& ROUNDS_COUNT) >>> DELTA_ROUNDS) < ROUNDS))
    (fun t => (body t).bind
      (fun u => some { u with r := { u.r with mp := add64 u.r.mp ROUNDS_ONE } }))
    fuel { c with r := { c.r with mp := c.r.mp &&& ROUNDS_ZERO } }

/-- The four limbs read as one 256-bit number, limb `w0` the most significant. -/
def Block.value (b : Block) : Nat :=
  b.w0 * 2 ^ 192 + b.w1 * 2 ^ 128 + b.w2 * 2 ^ 64 + b.w3

/-- Circular rotation of a 256-bit number one bit to the right. -/
def rotr256 (N : Nat) : Nat := N / 2 + (N % 2) * 2 ^ 255

/-- Circular rotation of a 256-bit number one bit to the left. -/
def rotl256 (N : Nat) : Nat := (2 * N) % 2 ^ 256 + N / 2 ^ 255

/-- Rule 30 on a whole 256-bit number: `ROTR1(N) XOR (N OR ROTL1(N))`. -/
def step256 (N : Nat) : Nat := rotr256 N ^^^ (N ||| rotl256 N)

/-- The two 128-bit halves of a block are equal. -/
def Block.halves_equal (b : Block) : Prop := b.w0 = b.w2 ∧ b.w1 = b.w3

/-- Every subkey is made of 64-bit words and has equal 128-bit halves. -/
def scheduled_key.degenerate (sk : scheduled_key) : Prop :=
  (sk.key_1.wf ∧ sk.key_1.halves_equal) ∧ (sk.key_2.wf ∧ sk.key_2.halves_equal) ∧
  (sk.key_3.wf ∧ sk.key_3.halves_equal) ∧ (sk.key_4.wf ∧ sk.key_4.halves_equal)

/-- The number of set bits among the 64 bits of a word. -/
def popcount (x : Nat) : Nat := (List.range 64).countP (fun e => x.testBit e)

/-- The number of bit positions at which two blocks of 64-bit words differ. -/
def hamming (a b : Block) : Nat :=
  popcount (a.w0 ^^^ b.w0) + popcount (a.w1 ^^^ b.w1) + popcount (a.w2 ^^^ b.w2)
    + popcount (a.w3 ^^^ b.w3)

/-- The block with the bit at position `i` flipped (position 0 is the most significant bit
of word 0). -/
def flip_bit (P : Block) (i : Nat) : Block :=
  match i / 64 with
  | 0 => { P with w0 := P.w0 ^^^ 2 ^ (63 - i % 64) }
  | 1 => { P with w1 := P.w1 ^^^ 2 ^ (63 - i % 64) }
  | 2 => { P with w2 := P.w2 ^^^ 2 ^ (63 - i % 64) }
  | _ => { P with w3 := P.w3 ^^^ 2 ^ (63 - i % 64) }

instance (b : Block) : Decidable b.halves_equal := by
  unfold Block.halves_equal; exact inferInstance

instance (sk : scheduled_key) : Decidable sk.degenerate := by
  unfold scheduled_key.degenerate; exact inferInstance

/-- The memory the pointer arguments of the functions point into: the 64-bit word held at
every address, addresses counting words.  Two pointers may be equal or overlap. -/
structure Heap where
  word : Nat → Nat

/-- The store `*(p) = v`. -/
def Heap.store (h : Heap) (p v : Nat) : Heap :=
  { word := fun a => if a = p then v else h.word a }

/-- The four words `*(p + 0) .. *(p + 3)`. -/
def Heap.block (h : Heap) (p : Nat) : Block :=
  ⟨h.word (p + 0), h.word (p + 1), h.word (p + 2), h.word (p + 3)⟩

/-- The `struct scheduled_key` at address `k` (lines 264-271): the arrays `key_1`, `key_2`,
`key_3` and `key_4` of four words each, one after the other, sixteen words in all. -/
def Heap.skey (h : Heap) (k : Nat) : scheduled_key :=
  ⟨h.block k, h.block (k + 4), h.block (k + 8), h.block (k + 12)⟩

/-- A call `xr30256_encrypt(key, plaintext, ciphertext)` on a memory, the three pointers
being any addresses: the block is loaded from `plaintext` (lines 604-607), the subkeys are
read from `key` in every round, and the only stores are the four of lines 919-922, which
come after the rounds loop, so that every read sees the memory of entry. -/
def xr30256_encrypt_call (fuel : Nat) (h : Heap) (key plaintext ciphertext : Nat) :
    Option Heap :=
  (rounds_loop (encrypt_round (h.skey key) fuel) fuel (load_block (h.block plaintext))).bind
    fun c =>
  let h1 := h.store (ciphertext + 0) c.plain_3
  let h2 := h1.store (ciphertext + 1) c.plain_4
  let h3 := h2.store (ciphertext + 2) c.plain_1
  let h4 := h3.store (ciphertext + 3) c.plain_2
  some h4

/-- A call `xr30256_decrypt(key, ciphertext, plaintext)` on a memory, the three pointers
being any addresses: the block is loaded from `ciphertext` (lines 950-953) and the only
stores are the four of lines 1266-1269, into `plaintext`, after the rounds loop. -/
def xr30256_decrypt_call (fuel : Nat) (h : Heap) (key ciphertext plaintext : Nat) :
    Option Heap :=
  (rounds_loop (decrypt_round (h.skey key) fuel) fuel (load_block (h.block ciphertext))).bind
    fun c =>
  let h1 := h.store (plaintext + 0) c.plain_3
  let h2 := h1.store (plaintext + 1) c.plain_4
  let h3 := h2.store (plaintext + 2) c.plain_1
  let h4 := h3.store (plaintext + 3) c.plain_2
  some h4

/-- A memory with an all-zero scheduled key at addresses 0..15 and the block `(1,2,3,4)` at
addresses 16..19. -/
def test_heap : Heap :=
  { word := fun a => if a = 16 then 1 else if a = 17 then 2 else if a = 18 then 3
      else if a = 19 then 4 else 0 }

/-- The four words `*(p + 0) .. *(p + 3)` read through a pointer `p` into an array of
words; no value when the array has fewer than four words, since C gives the read no
meaning then. -/
def read_block (p : List Nat) : Option Block :=
  match p with
  | a :: b :: c :: d :: _ => some ⟨a, b, c, d⟩
  | _ => none

/-- The function `xr30256_key_schedule` called on an array of any length. -/
def xr30256_key_schedule_words (fuel : Nat) (key : List Nat) : Option scheduled_key :=
  (read_block key).bind (xr30256_key_schedule fuel)

/-- The function `xr30256_encrypt` called on an array of any length. -/
def xr30256_encrypt_words (fuel : Nat) (key : scheduled_key) (plaintext : List Nat) :
    Option Block :=
  (read_block plaintext).bind (xr30256_encrypt fuel key)

/-- The function `xr30256_decrypt` called on an array of any length. -/
def xr30256_decrypt_words (fuel : Nat) (key : scheduled_key) (ciphertext : List Nat) :
    Option Block :=
  (read_block ciphertext).bind (xr30256_decrypt fuel key)

/-! ## Definitions for rotations by limbs, subkeys with swapped halves and the packed register -/

/-- The cyclic permutation of the four limbs: the register rotated by one whole limb to
the right. -/
def rotate_limbs (b : Block) : Block := ⟨b.w3, b.w0, b.w1, b.w2⟩

/-- A block with its two 128-bit halves swapped: `(a,b,c,d)` becomes `(c,d,a,b)`. -/
def swap_halves (b : Block) : Block := ⟨b.w2, b.w3, b.w0, b.w1⟩

/-- A scheduled key in which the subkeys selected by the four flags have their halves
swapped. -/
def scheduled_key.swap_some (b1 b2 b3 b4 : Bool) (sk : scheduled_key) : scheduled_key :=
  { key_1 := if b1 then swap_halves sk.key_1 else sk.key_1,
    key_2 := if b2 then swap_halves sk.key_2 else sk.key_2,
    key_3 := if b3 then swap_halves sk.key_3 else sk.key_3,
    key_4 := if b4 then swap_halves sk.key_4 else sk.key_4 }

/-- Both halves of a pair of halves are made of 64-bit words. -/
def halves_wf (p : (Nat × Nat) × (Nat × Nat)) : Prop :=
  (p.1.1 < 2 ^ 64 ∧ p.1.2 < 2 ^ 64) ∧ (p.2.1 < 2 ^ 64 ∧ p.2.2 < 2 ^ 64)

/-! ## The fields of the packed register and a version of the code without it

The readers below are the expressions by which the source reads the four fields of `mp`.
The `sep_` functions restate the three functions of the source with three separate loop
counters and a separate boolean carry in place of `mp`; everything else is kept word for
word. -/

/-- The inner counter as the source reads it: `mp & INNER_COUNT`. -/
def mp_inner (mp : Nat) : Nat := mp &&& INNER_COUNT

/-- The generation counter as the source reads it: `(mp & OUTER_COUNT) >> DELTA_COUNT`. -/
def mp_outer (mp : Nat) : Nat := (mp &&& OUTER_COUNT) >>> DELTA_COUNT

/-- The rounds counter as the source reads it: `(mp & ROUNDS_COUNT) >> DELTA_ROUNDS`. -/
def mp_rounds (mp : Nat) : Nat := (mp &&& ROUNDS_COUNT) >>> DELTA_ROUNDS

/-- The carry as the source reads it, `mp & LHS_ONE`, as a truth value. -/
def mp_carry (mp : Nat) : Bool := decide (mp &&& LHS_ONE ≠ 0)

/-- The registers of the version with separate counters: the eight CA registers, the three
loop counters and the carry. -/
structure SepRegs where
  key_in_reg1 : Nat
  key_in_reg2 : Nat
  key_in_reg3 : Nat
  key_in_reg4 : Nat
  key_out_reg1 : Nat
  key_out_reg2 : Nat
  key_out_reg3 : Nat
  key_out_reg4 : Nat
  inner : Nat
  outer : Nat
  rounds : Nat
  carry : Bool
deriving DecidableEq, Repr

/-- The local state of encryption and decryption in the version with separate counters. -/
structure SepCipherState where
  r : SepRegs
  plain_1 : Nat
  plain_2 : Nat
  plain_3 : Nat
  plain_4 : Nat
deriving DecidableEq, Repr

/-- The registers of the source seen as registers with separate counters: each field of
`mp` is read the way the source reads it. -/
def Regs.sep (s : Regs) : SepRegs :=
  { key_in_reg1 := s.key_in_reg1, key_in_reg2 := s.key_in_reg2,
    key_in_reg3 := s.key_in_reg3, key_in_reg4 := s.key_in_reg4,
    key_out_reg1 := s.key_out_reg1, key_out_reg2 := s.key_out_reg2,
    key_out_reg3 := s.key_out_reg3, key_out_reg4 := s.key_out_reg4,
    inner := mp_inner s.mp, outer := mp_outer s.mp, rounds := mp_rounds s.mp,
    carry := mp_carry s.mp }

/-- The cipher state of the source seen as a state with separate counters. -/
def CipherState.sep (c : CipherState) : SepCipherState :=
  { r := c.r.sep, plain_1 := c.plain_1, plain_2 := c.plain_2, plain_3 := c.plain_3,
    plain_4 := c.plain_4 }

/-- The four CA input registers read as a block. -/
def SepRegs.input (s : SepRegs) : Block :=
  ⟨s.key_in_reg1, s.key_in_reg2, s.key_in_reg3, s.key_in_reg4⟩

/-- The body of the inner loop with a counter `inner` and a boolean `carry`. -/
def sep_inner_body (rule : Nat) (s : SepRegs) : SepRegs :=
  let key_out_reg1 := s.key_out_reg1 ||| shl ((rule >>> (s.key_in_reg1 &&& CELL_MASK)) &&& RHS_ONE) s.inner
  let key_out_reg2 := s.key_out_reg2 ||| shl ((rule >>> (s.key_in_reg2 &&& CELL_MASK)) &&& RHS_ONE) s.inner
  let key_out_reg3 := s.key_out_reg3 ||| shl ((rule >>> (s.key_in_reg3 &&& CELL_MASK)) &&& RHS_ONE) s.inner
  let key_out_reg4 := s.key_out_reg4 ||| shl ((rule >>> (s.key_in_reg4 &&& CELL_MASK)) &&& RHS_ONE) s.inner
  let carry := decide (s.key_in_reg4 &&& RHS_ONE ≠ 0)
  let key_in_reg4 := s.key_in_reg4 >>> RHS_ONE
  let key_in_reg4 := key_in_reg4 ||| shl (s.key_in_reg3 &&& RHS_ONE) (WORDSIZE - 1)
  let key_in_reg3 := s.key_in_reg3 >>> RHS_ONE
  let key_in_reg3 := key_in_reg3 ||| shl (s.key_in_reg2 &&& RHS_ONE) (WORDSIZE - 1)
  let key_in_reg2 := s.key_in_reg2 >>> RHS_ONE
  let key_in_reg2 := key_in_reg2 ||| shl (s.key_in_reg1 &&& RHS_ONE) (WORDSIZE - 1)
  let key_in_reg1 := s.key_in_reg1 >>> RHS_ONE
  let key_in_reg1 := key_in_reg1 ||| (if carry then LHS_ONE else 0)
  { s with key_in_reg1 := key_in_reg1, key_in_reg2 := key_in_reg2,
           key_in_reg3 := key_in_reg3, key_in_reg4 := key_in_reg4,
           key_out_reg1 := key_out_reg1, key_out_reg2 := key_out_reg2,
           key_out_reg3 := key_out_reg3, key_out_reg4 := key_out_reg4,
           carry := carry }

/-- The inner loop as `for (inner = 0; inner < WORDSIZE; inner += 1)`. -/
def sep_inner_loop (rule fuel : Nat) (s : SepRegs) : Option SepRegs :=
  whileLoop (fun t => decide (t.inner < WORDSIZE))
    (fun t => let u := sep_inner_body rule t
              some { u with inner := u.inner + 1 })
    fuel { s with inner := 0 }

/-- The rotation of the output registers and the copy into the input registers, with a
boolean `carry`. -/
def sep_rotate_and_swap (s : SepRegs) : SepRegs :=
  let carry := decide (s.key_out_reg1 &&& LHS_ONE ≠ 0)
  let key_out_reg1 := shl s.key_out_reg1 RHS_ONE
  let key_out_reg1 := key_out_reg1 ||| ((s.key_out_reg2 &&& LHS_ONE) >>> (WORDSIZE - 1))
  let key_out_reg2 := shl s.key_out_reg2 RHS_ONE
  let key_out_reg2 := key_out_reg2 ||| ((s.key_out_reg3 &&& LHS_ONE) >>> (WORDSIZE - 1))
  let key_out_reg3 := shl s.key_out_reg3 RHS_ONE
  let key_out_reg3 := key_out_reg3 ||| ((s.key_out_reg4 &&& LHS_ONE) >>> (WORDSIZE - 1))
  let key_out_reg4 := shl s.key_out_reg4 RHS_ONE
  let key_out_reg4 := key_out_reg4 ||| (if carry then RHS_ONE else 0)
  { s with key_in_reg1 := key_out_reg1, key_in_reg2 := key_out_reg2,
           key_in_reg3 := key_out_reg3, key_in_reg4 := key_out_reg4,
           key_out_reg1 := key_out_reg1, key_out_reg2 := key_out_reg2,
           key_out_reg3 := key_out_reg3, key_out_reg4 := key_out_reg4,
           carry := carry }

/-- The body of the generation loop in the version with separate counters. -/
def sep_generation (rule fuel : Nat) (s : SepRegs) : Option SepRegs :=
  let s0 : SepRegs := { s with key_out_reg1 := 0, key_out_reg2 := 0, key_out_reg3 := 0, key_out_reg4 := 0 }
  (sep_inner_loop rule fuel s0).bind (fun s1 => some (sep_rotate_and_swap s1))

/-- The generation loop as `for (outer = 0; outer < bound; outer += 1)`. -/
def sep_ca_loop (rule bound fuel : Nat) (s : SepRegs) : Option SepRegs :=
  whileLoop (fun t => decide (t.outer < bound))
    (fun t => (sep_generation rule fuel t).bind
      (fun u => some { u with outer := u.outer + 1 }))
    fuel { s with outer := 0 }

/-- The `CA256` loop in the version with separate counters. -/
def sep_ca256_loop (rule fuel : Nat) (s : SepRegs) : Option SepRegs :=
  sep_ca_loop rule CA256 fuel s

/-- All registers, counters and the carry zero. -/
def SepRegs.init : SepRegs :=
  { key_in_reg1 := 0, key_in_reg2 := 0, key_in_reg3 := 0, key_in_reg4 := 0,
    key_out_reg1 := 0, key_out_reg2 := 0, key_out_reg3 := 0, key_out_reg4 := 0,
    inner := 0, outer := 0, rounds := 0, carry := false }

/-- Load the 1st key segment. -/
def sep_load_segment_1 (key : Block) (s : SepRegs) : SepRegs :=
  { s with key_in_reg1 := key.w0,
           key_in_reg2 := add64 key.w0 (mul64 key.w0 key.w1),
           key_in_reg3 := add64 key.w0 (mul64 key.w0 key.w2),
           key_in_reg4 := add64 key.w0 (mul64 key.w0 key.w3) }

/-- Load the 2nd key segment. -/
def sep_load_segment_2 (key : Block) (s : SepRegs) : SepRegs :=
  { s with key_in_reg1 := add64 key.w1 (mul64 key.w1 key.w0),
           key_in_reg2 := key.w1,
           key_in_reg3 := add64 key.w1 (mul64 key.w1 key.w2),
           key_in_reg4 := add64 key.w1 (mul64 key.w1 key.w3) }

/-- Load the 3rd key segment. -/
def sep_load_segment_3 (key : Block) (s : SepRegs) : SepRegs :=
  { s with key_in_reg1 := add64 key.w2 (mul64 key.w2 key.w0),
           key_in_reg2 := add64 key.w2 (mul64 key.w2 key.w1),
           key_in_reg3 := key.w2,
           key_in_reg4 := add64 key.w2 (mul64 key.w2 key.w3) }

/-- Load the 4th key segment. -/
def sep_load_segment_4 (key : Block) (s : SepRegs) : SepRegs :=
  { s with key_in_reg1 := add64 key.w3 (mul64 key.w3 key.w0),
           key_in_reg2 := add64 key.w3 (mul64 key.w3 key.w1),
           key_in_reg3 := add64 key.w3 (mul64 key.w3 key.w2),
           key_in_reg4 := key.w3 }

/-- The key schedule in the version with separate counters. -/
def sep_key_schedule (fuel : Nat) (key : Block) : Option scheduled_key :=
  let rule := RULE30
  (sep_ca256_loop rule fuel (sep_load_segment_1 key SepRegs.init)).bind fun s1 =>
  (sep_ca256_loop rule fuel (sep_load_segment_2 key s1)).bind fun s2 =>
  (sep_ca256_loop rule fuel (sep_load_segment_3 key s2)).bind fun s3 =>
  (sep_ca256_loop rule fuel (sep_load_segment_4 key s3)).bind fun s4 =>
  some { key_1 := s1.input, key_2 := s2.input, key_3 := s3.input, key_4 := s4.input }

/-- Load a scheduled subkey. -/
def sep_load_subkey (k : Block) (s : SepRegs) : SepRegs :=
  { s with key_in_reg1 := s.key_in_reg1 ^^^ k.w0,
           key_in_reg2 := s.key_in_reg2 ^^^ k.w1,
           key_in_reg3 := s.key_in_reg3 ^^^ k.w2,
           key_in_reg4 := s.key_in_reg4 ^^^ k.w3 }

/-- XOR right and left half together and replicate the result in both halves. -/
def sep_fold_halves (s : SepRegs) : SepRegs :=
  let key_in_reg1 := s.key_in_reg1 ^^^ s.key_in_reg3
  let key_in_reg2 := s.key_in_reg2 ^^^ s.key_in_reg4
  { s with key_in_reg1 := key_in_reg1, key_in_reg2 := key_in_reg2,
           key_in_reg3 := key_in_reg1, key_in_reg4 := key_in_reg2 }

/-- One F-function block in the version with separate counters. -/
def sep_f_function (k : Block) (fuel : Nat) (s : SepRegs) : Option SepRegs :=
  (sep_ca256_loop RULE30 fuel (sep_load_subkey k s)).bind fun t => some (sep_fold_halves t)

/-- Feistel XOR with the left half. -/
def sep_feistel_left (c : SepCipherState) : SepCipherState :=
  let key_in_reg1 := c.r.key_in_reg1 ^^^ c.plain_1
  let key_in_reg2 := c.r.key_in_reg2 ^^^ c.plain_2
  { c with r := { c.r with key_in_reg1 := key_in_reg1, key_in_reg2 := key_in_reg2,
                           key_in_reg3 := key_in_reg1, key_in_reg4 := key_in_reg2 },
           plain_1 := key_in_reg1, plain_2 := key_in_reg2 }

/-- Feistel XOR with the right half. -/
def sep_feistel_right (c : SepCipherState) : SepCipherState :=
  let key_in_reg1 := c.r.key_in_reg1 ^^^ c.plain_3
  let key_in_reg2 := c.r.key_in_reg2 ^^^ c.plain_4
  { c with r := { c.r with key_in_reg1 := key_in_reg1, key_in_reg2 := key_in_reg2,
                           key_in_reg3 := key_in_reg1, key_in_reg4 := key_in_reg2 },
           plain_3 := key_in_reg1, plain_4 := key_in_reg2 }

/-- Run an F-function block on the registers of a cipher state. -/
def sep_f_step (k : Block) (fuel : Nat) (c : SepCipherState) : Option SepCipherState :=
  (sep_f_function k fuel c.r).bind fun t => some { c with r := t }

/-- Load the block and initialise the CA input with the right half. -/
def sep_load_block (b : Block) : SepCipherState :=
  let key_in_reg1 := 0 ^^^ b.w2
  let key_in_reg2 := 0 ^^^ b.w3
  { r := { SepRegs.init with key_in_reg1 := key_in_reg1, key_in_reg2 := key_in_reg2,
                             key_in_reg3 := key_in_reg1, key_in_reg4 := key_in_reg2 },
    plain_1 := b.w0, plain_2 := b.w1, plain_3 := b.w2, plain_4 := b.w3 }

/-- The rounds loop as `for (rounds = 0; rounds < ROUNDS; rounds += 1)`. -/
def sep_rounds_loop (body : SepCipherState → Option SepCipherState) (fuel : Nat)
    (c : SepCipherState) : Option SepCipherState :=
  whileLoop (fun t => decide (t.r.rounds < ROUNDS))
    (fun t => (body t).bind
      (fun u => some { u with r := { u.r with rounds := u.r.rounds + 1 } }))
    fuel { c with r := { c.r with rounds := 0 } }

/-- The body of the rounds loop of encryption. -/
def sep_encrypt_round (key : scheduled_key) (fuel : Nat) (c : SepCipherState) :
    Option SepCipherState :=
  (sep_f_step key.key_1 fuel c).bind fun c1 =>
  (sep_f_step key.key_2 fuel (sep_feistel_left c1)).bind fun c2 =>
  (sep_f_step key.key_3 fuel (sep_feistel_right c2)).bind fun c3 =>
  (sep_f_step key.key_4 fuel (sep_feistel_left c3)).bind fun c4 =>
  some (sep_feistel_right c4)

/-- The body of the rounds loop of decryption. -/
def sep_decrypt_round (key : scheduled_key) (fuel : Nat) (c : SepCipherState) :
    Option SepCipherState :=
  (sep_f_step key.key_4 fuel c).bind fun c1 =>
  (sep_f_step key.key_3 fuel (sep_feistel_left c1)).bind fun c2 =>
  (sep_f_step key.key_2 fuel (sep_feistel_right c2)).bind fun c3 =>
  (sep_f_step key.key_1 fuel (sep_feistel_left c3)).bind fun c4 =>
  some (sep_feistel_right c4)

/-- The stored result, right half first. -/
def sep_store_block (c : SepCipherState) : Block :=
  ⟨c.plain_3, c.plain_4, c.plain_1, c.plain_2⟩

/-- Encryption in the version with separate counters. -/
def sep_encrypt (fuel : Nat) (key : scheduled_key) (plaintext : Block) : Option Block :=
  (sep_rounds_loop (sep_encrypt_round key fuel) fuel (sep_load_block plaintext)).bind fun c =>
  some (sep_store_block c)

/-- Decryption in the version with separate counters. -/
def sep_decrypt (fuel : Nat) (key : scheduled_key) (ciphertext : Block) : Option Block :=
  (sep_rounds_loop (sep_decrypt_round key fuel) fuel (sep_load_block ciphertext)).bind fun c =>
  some (sep_store_block c)

/-! ## Shifts with the range requirement of C, and the states the inner loop passes through -/

/-- C `a << n` on a 64-bit word as the language defines it: no value when the shift
amount is `WORDSIZE` or more. -/
def shl_checked (a n : Nat) : Option Nat := if n < WORDSIZE then some (shl a n) else none

/-- C `a >> n` on a 64-bit word as the language defines it: no value when the shift
amount is `WORDSIZE` or more. -/
def shr_checked (a n : Nat) : Option Nat := if n < WORDSIZE then some (a >>> n) else none

/-- The rule lookup and its placement in an output register,
`((rule >> (reg & CELL_MASK)) & RHS_ONE) << (mp & INNER_COUNT)` (lines 332-335), with both
shifts checked. -/
def lookup_checked (rule reg mp : Nat) : Option Nat :=
  (shr_checked rule (reg &&& CELL_MASK)).bind fun l =>
  shl_checked (l &&& RHS_ONE) (mp &&& INNER_COUNT)

/-- The two statements `reg >>= RHS_ONE; reg |= ((next & RHS_ONE) << (WORDSIZE - 1));`
(lines 340-345), with both shifts checked. -/
def shift_in_checked (reg next : Nat) : Option Nat :=
  (shr_checked reg RHS_ONE).bind fun r =>
  (shl_checked (next &&& RHS_ONE) (WORDSIZE - 1)).bind fun c =>
  some (r ||| c)

/-- The body of the inner loop (lines 330-347) with every shift of the source checked, in
the order of the source: it has no value as soon as one shift amount is out of range. -/
def inner_body_checked (rule : Nat) (s : Regs) : Option Regs :=
  (lookup_checked rule s.key_in_reg1 s.mp).bind fun o1 =>
  (lookup_checked rule s.key_in_reg2 s.mp).bind fun o2 =>
  (lookup_checked rule s.key_in_reg3 s.mp).bind fun o3 =>
  (lookup_checked rule s.key_in_reg4 s.mp).bind fun o4 =>
  (shl_checked (s.key_in_reg4 &&& RHS_ONE) (WORDSIZE - 1)).bind fun carry =>
  (shift_in_checked s.key_in_reg4 s.key_in_reg3).bind fun r4 =>
  (shift_in_checked s.key_in_reg3 s.key_in_reg2).bind fun r3 =>
  (shift_in_checked s.key_in_reg2 s.key_in_reg1).bind fun r2 =>
  (shr_checked s.key_in_reg1 RHS_ONE).bind fun r1 =>
  let mp := (s.mp &&& LHS_ZERO) ||| carry
  some { key_in_reg1 := r1 ||| (mp &&& LHS_ONE), key_in_reg2 := r2,
         key_in_reg3 := r3, key_in_reg4 := r4,
         key_out_reg1 := s.key_out_reg1 ||| o1, key_out_reg2 := s.key_out_reg2 ||| o2,
         key_out_reg3 := s.key_out_reg3 ||| o3, key_out_reg4 := s.key_out_reg4 ||| o4,
         mp := mp }

/-- The inner loop (line 328) run with the checked body. -/
def inner_loop_checked (rule fuel : Nat) (s : Regs) : Option Regs :=
  whileLoop (fun t => decide ((t.mp &&& INNER_COUNT) < WORDSIZE))
    (fun t => (inner_body_checked rule t).bind
      (fun u => some { u with mp := add64 u.mp INNER_ONE }))
    fuel { s with mp := s.mp &&& INNER_ZERO }

/-- The states at which the body of `whileLoop cond body` is entered, in order; `none`
when the fuel runs out or the body fails. -/
def whileStates {σ : Type} (cond : σ → Bool) (body : σ → Option σ) : Nat → σ → Option (List σ)
  | 0, _ => none
  | fuel + 1, s =>
    if cond s then (body s).bind (fun t => (whileStates cond body fuel t).map (fun l => s :: l))
    else some []

/-- The register states at which the body of the inner loop (line 328) is entered. -/
def inner_loop_states (rule fuel : Nat) (s : Regs) : Option (List Regs) :=
  whileStates (fun t => decide ((t.mp &&& INNER_COUNT) < WORDSIZE))
    (fun t => let u := inner_body rule t
              some { u with mp := add64 u.mp INNER_ONE })
    fuel { s with mp := s.mp &&& INNER_ZERO }

/-! ## Lemmas: the packed register `mp` -/

theorem and_mask (m lo len : Nat) :
    m &&& ((2 ^ len - 1) <<< lo) = (m / 2 ^ lo % 2 ^ len) * 2 ^ lo := by
  apply Nat.eq_of_testBit_eq
  intro i
  rw [← Nat.shiftLeft_eq, ← Nat.shiftRight_eq_div_pow]
  simp only [Nat.testBit_and, Nat.testBit_shiftLeft, Nat.testBit_two_pow_sub_one,
    Nat.testBit_mod_two_pow, Nat.testBit_shiftRight]
  by_cases h : lo ≤ i
  · have : lo + (i - lo) = i := by omega
    simp [h, this, Bool.and_comm]
  · simp [h]

theorem or_disjoint (a b k : Nat) (h : a < 2 ^ k) : a ||| b * 2 ^ k = a + b * 2 ^ k := by
  rw [Nat.or_comm, Nat.add_comm, Nat.mul_comm]
  exact (Nat.mul_add_lt_is_or h b).symm

theorem and_INNER_COUNT (m : Nat) : m &&& INNER_COUNT = m % 256 := by
  have := and_mask m 0 8
  simpa [INNER_COUNT] using this

theorem and_LHS_ZERO (m : Nat) : m &&& LHS_ZERO = m % 9223372036854775808 := by
  have := and_mask m 0 63
  simpa [LHS_ZERO] using this

theorem and_LHS_ONE (m : Nat) :
    m &&& LHS_ONE = (m / 9223372036854775808 % 2) * 9223372036854775808 := by
  have := and_mask m 63 1
  simpa [LHS_ONE] using this

theorem and_INNER_ZERO (m : Nat) :
    m &&& INNER_ZERO = (m / 256 % 72057594037927936) * 256 := by
  have := and_mask m 8 56
  simpa [INNER_ZERO] using this

theorem and_OUTER_COUNT (m : Nat) :
    (m &&& OUTER_COUNT) >>> DELTA_COUNT = m / 256 % 65536 := by
  have := and_mask m 8 16
  have h : OUTER_COUNT = (2 ^ 16 - 1) <<< 8 := by decide
  rw [h, this, DELTA_COUNT, Nat.shiftRight_eq_div_pow]
  norm_num

theorem and_ROUNDS_COUNT (m : Nat) :
    (m &&& ROUNDS_COUNT) >>> DELTA_ROUNDS = m / 16777216 % 65536 := by
  have := and_mask m 24 16
  have h : ROUNDS_COUNT = (2 ^ 16 - 1) <<< 24 := by decide
  rw [h, this, DELTA_ROUNDS, Nat.shiftRight_eq_div_pow]
  norm_num

theorem and_OUTER_ZERO (m : Nat) :
    m &&& OUTER_ZERO = m % 256 + (m / 16777216 % 1099511627776) * 16777216 := by
  have h : OUTER_ZERO = ((2 ^ 8 - 1) <<< 0) ||| ((2 ^ 40 - 1) <<< 24) := by decide
  rw [h, Nat.and_or_distrib_left, and_mask, and_mask]
  have := or_disjoint (m % 256) (m / 16777216 % 1099511627776) 24 (by omega)
  norm_num at this ⊢
  exact this

theorem and_ROUNDS_ZERO (m : Nat) :
    m &&& ROUNDS_ZERO = m % 16777216 + (m / 1099511627776 % 16777216) * 1099511627776 := by
  have h : ROUNDS_ZERO = ((2 ^ 24 - 1) <<< 0) ||| ((2 ^ 24 - 1) <<< 40) := by decide
  rw [h, Nat.and_or_distrib_left, and_mask, and_mask]
  have := or_disjoint (m % 16777216) (m / 1099511627776 % 16777216) 40 (by omega)
  norm_num at this ⊢
  exact this

/-- The carry written into the top bit of `mp`. -/
theorem shl_and_one (b : Nat) :
    shl (b &&& RHS_ONE) (WORDSIZE - 1) = (b % 2) * 9223372036854775808 := by
  have h : b % 2 = 0 ∨ b % 2 = 1 := by omega
  rw [RHS_ONE, Nat.and_one_is_mod]
  rcases h with h | h <;> rw [h] <;> decide

theorem set_carry (m c : Nat) :
    (m &&& LHS_ZERO) ||| c * 9223372036854775808
      = m % 9223372036854775808 + c * 9223372036854775808 := by
  rw [and_LHS_ZERO]
  have := or_disjoint (m % 9223372036854775808) c 63 (by omega)
  norm_num at this ⊢
  exact this

theorem whileLoop_count {σ : Type} (cond : σ → Bool) (body : σ → Option σ) (f : σ → σ)
    (P : Nat → σ → Prop) (n : Nat)
    (hstep : ∀ i s, i < n → P i s → cond s = true ∧ body s = some (f s) ∧ P (i + 1) (f s))
    (hexit : ∀ s, P n s → cond s = false) :
    ∀ (k i : Nat) (s : σ) (fuel : Nat), i + k = n → P i s → k < fuel →
      whileLoop cond body fuel s = some (f^[k] s) ∧ P n (f^[k] s) := by
  intro k
  induction k with
  | zero =>
    intro i s fuel hik hP hf
    have hi : i = n := by omega
    subst hi
    obtain ⟨fuel, rfl⟩ : ∃ g, fuel = g + 1 := ⟨fuel - 1, by omega⟩
    simp [whileLoop, hexit s hP, hP]
  | succ k ih =>
    intro i s fuel hik hP hf
    obtain ⟨fuel, rfl⟩ : ∃ g, fuel = g + 1 := ⟨fuel - 1, by omega⟩
    obtain ⟨hc, hb, hP1⟩ := hstep i s (by omega) hP
    have := ih (i + 1) (f s) fuel (by omega) hP1 (by omega)
    simp [whileLoop, hc, hb, this, Function.iterate_succ_apply]

theorem inner_iter_spec (rule : Nat) (t : Regs) (h : t.mp % 256 < 255) :
    (inner_iter rule t).mp % 256 = t.mp % 256 + 1 ∧
    (inner_iter rule t).mp < 2 ^ 64 ∧
    (inner_iter rule t).mp / 256 % 36028797018963968 = t.mp / 256 % 36028797018963968 ∧
    ((inner_iter rule t).input, (inner_iter rule t).output)
      = inner_data rule (t.mp % 256) (t.input, t.output) := by
  have hmp : (inner_body rule t).mp
      = t.mp % 9223372036854775808 + (t.key_in_reg4 % 2) * 9223372036854775808 := by
    simp only [inner_body, shl_and_one, set_carry]
  have hcar : (inner_body rule t).mp &&& LHS_ONE = shl (t.key_in_reg4 &&& RHS_ONE) (WORDSIZE - 1) := by
    rw [and_LHS_ONE, hmp, shl_and_one]
    omega
  refine ⟨?_, ?_, ?_, ?_⟩
  · simp only [inner_iter, add64, WORD, INNER_ONE, hmp]; omega
  · simp only [inner_iter, add64, WORD, INNER_ONE, hmp]; omega
  · simp only [inner_iter, add64, WORD, INNER_ONE, hmp]; omega
  · have h1 : (inner_iter rule t).key_in_reg1 = t.key_in_reg1 >>> RHS_ONE ||| ((inner_body rule t).mp &&& LHS_ONE) := rfl
    simp only [Regs.input, Regs.output, inner_data, rotate_right, rule_table, h1, hcar,
      ← and_INNER_COUNT]
    rfl

theorem inner_loop_spec (rule fuel : Nat) (s : Regs) (hf : 64 < fuel) :
    ∃ t, inner_loop rule fuel s = some t ∧
      t = (inner_iter rule)^[64] { s with mp := s.mp &&& INNER_ZERO } ∧
      t.mp % 256 = 64 ∧ t.mp < 2 ^ 64 ∧
      t.mp / 256 % 36028797018963968 = s.mp / 256 % 36028797018963968 ∧
      (t.input, t.output) = inner_pure rule 64 (s.input, s.output) := by
  have key := whileLoop_count (fun t : Regs => decide ((t.mp &&& INNER_COUNT) < WORDSIZE))
    (fun t => some (inner_iter rule t)) (inner_iter rule)
    (fun c t => t.mp % 256 = c ∧ t.mp < 2 ^ 64 ∧
      t.mp / 256 % 36028797018963968 = s.mp / 256 % 36028797018963968 ∧
      (t.input, t.output) = inner_pure rule c (s.input, s.output)) 64
    (by
      rintro i t hi ⟨h1, h2, h3, h4⟩
      obtain ⟨a1, a2, a3, a4⟩ := inner_iter_spec rule t (by omega)
      refine ⟨?_, rfl, ?_, a2, ?_, ?_⟩
      · simp only [and_INNER_COUNT, WORDSIZE, decide_eq_true_eq]; omega
      · omega
      · omega
      · rw [a4, h4, h1]; rfl)
    (by
      rintro t ⟨h1, -⟩
      simp only [and_INNER_COUNT, WORDSIZE, decide_eq_false_iff_not]; omega)
    64 0 { s with mp := s.mp &&& INNER_ZERO } fuel (by omega)
    (by
      simp only [and_INNER_ZERO]
      refine ⟨by omega, by omega, by omega, rfl⟩)
    hf
  exact ⟨_, key.1, rfl, key.2⟩

theorem rotate_and_swap_spec (s : Regs) :
    (rotate_and_swap s).input = rotate_left s.output ∧
    (rotate_and_swap s).mp % 9223372036854775808 = s.mp % 9223372036854775808 ∧
    (rotate_and_swap s).mp < 2 ^ 64 := by
  have hmp : (rotate_and_swap s).mp
      = s.mp % 9223372036854775808 + (s.key_out_reg1 / 9223372036854775808 % 2) * 9223372036854775808 := by
    simp only [rotate_and_swap, and_LHS_ONE, set_carry]
  have hcar : (rotate_and_swap s).mp &&& LHS_ONE = s.key_out_reg1 &&& LHS_ONE := by
    rw [and_LHS_ONE, hmp, and_LHS_ONE]
    omega
  refine ⟨?_, by omega, by omega⟩
  have h4 : (rotate_and_swap s).key_in_reg4
      = shl s.key_out_reg4 RHS_ONE ||| (((rotate_and_swap s).mp &&& LHS_ONE) >>> (WORDSIZE - 1)) := rfl
  simp only [Regs.input, Regs.output, rotate_left, h4, hcar]
  rfl

theorem generation_spec (rule fuel : Nat) (s : Regs) (hf : 64 < fuel) :
    ∃ t, generation rule fuel s = some t ∧ t.input = ca_step rule s.input ∧
      t.mp % 256 = 64 ∧ t.mp < 2 ^ 64 ∧
      t.mp / 256 % 36028797018963968 = s.mp / 256 % 36028797018963968 := by
  obtain ⟨u, hu, -, h1, h2, h3, h4⟩ := inner_loop_spec rule fuel
    { s with key_out_reg1 := 0, key_out_reg2 := 0, key_out_reg3 := 0, key_out_reg4 := 0 } hf
  obtain ⟨r1, r2, r3⟩ := rotate_and_swap_spec u
  refine ⟨rotate_and_swap u, ?_, ?_, ?_, r3, ?_⟩
  · simp [generation, hu]
  · have : u.output = (inner_pure rule 64 (s.input, ⟨0, 0, 0, 0⟩)).2 := by
      have := congrArg Prod.snd h4
      simpa [Regs.input, Regs.output] using this
    rw [r1, this]; rfl
  · omega
  · have : (s.mp / 256 % 36028797018963968) = u.mp / 256 % 36028797018963968 := h3.symm
    omega

theorem ca_loop_spec (rule bound fuel : Nat) (s : Regs) (hb : bound ≤ 65535)
    (hf : 64 < fuel) (hf2 : bound < fuel) :
    ∃ t, ca_loop rule bound fuel s = some t ∧
      t = (generation_iter rule fuel)^[bound] { s with mp := s.mp &&& OUTER_ZERO } ∧
      t.input = (ca_step rule)^[bound] s.input ∧
      t.mp / 256 % 65536 = bound ∧ t.mp < 2 ^ 64 ∧
      t.mp / 16777216 % 549755813888 = s.mp / 16777216 % 549755813888 := by
  have key := whileLoop_count
    (fun t : Regs => decide (((t.mp &&& OUTER_COUNT) >>> DELTA_COUNT) < bound))
    (fun t => (generation rule fuel t).bind
      (fun u => some { u with mp := add64 u.mp OUTER_ONE }))
    (generation_iter rule fuel)
    (fun i t => t.input = (ca_step rule)^[i] s.input ∧
      t.mp / 256 % 65536 = i ∧ t.mp < 2 ^ 64 ∧
      t.mp / 16777216 % 549755813888 = s.mp / 16777216 % 549755813888) bound
    (by
      rintro i t hi ⟨h1, h2, h3, h4⟩
      obtain ⟨u, hu, g1, g2, g3, g4⟩ := generation_spec rule fuel t hf
      have hit : generation_iter rule fuel t = { u with mp := add64 u.mp OUTER_ONE } := by
        simp [generation_iter, hu]
      refine ⟨?_, ?_, ?_, ?_, ?_, ?_⟩
      · simp only [and_OUTER_COUNT, decide_eq_true_eq]; omega
      · simp [hu, hit]
      · rw [hit, Function.iterate_succ_apply', ← h1]; exact g1
      · rw [hit]; simp only [add64, WORD, OUTER_ONE]; omega
      · rw [hit]; simp only [add64, WORD, OUTER_ONE]; omega
      · rw [hit]; simp only [add64, WORD, OUTER_ONE]; omega)
    (by
      rintro t ⟨-, h2, -⟩
      simp only [and_OUTER_COUNT, decide_eq_false_iff_not]; omega)
    bound 0 { s with mp := s.mp &&& OUTER_ZERO } fuel (by omega)
    (by
      simp only [and_OUTER_ZERO]
      refine ⟨rfl, by omega, by omega, by omega⟩)
    hf2
  exact ⟨_, key.1, rfl, key.2⟩

/-! ## Lemmas: one generation, bit by bit -/

theorem toNat_decide_mod_two (y : Nat) : (decide (y % 2 = 1)).toNat = y % 2 := by
  have h : y % 2 = 0 ∨ y % 2 = 1 := by omega
  rcases h with h | h <;> simp [h]

theorem mod_eight_bits (x : Nat) :
    x % 8 = 4 * (x.testBit 2).toNat + 2 * (x.testBit 1).toNat + (x.testBit 0).toNat := by
  simp only [Nat.testBit_to_div_mod, toNat_decide_mod_two]
  norm_num
  omega

theorem rule_table_eq (rule n : Nat) : rule_table rule n = (rule.testBit n).toNat := by
  simp only [rule_table, RHS_ONE, Nat.and_one_is_mod, Nat.testBit_to_div_mod,
    Nat.shiftRight_eq_div_pow]
  have h : rule / 2 ^ n % 2 = 0 ∨ rule / 2 ^ n % 2 = 1 := by omega
  rcases h with h | h <;> simp [h]

theorem shl_bool_testBit (b : Bool) (c e : Nat) (hc : c < 64) :
    (shl b.toNat c).testBit e = (decide (e = c) && b) := by
  cases b
  · simp [shl]
  · simp only [shl, WORD, Bool.toNat_true, Nat.testBit_mod_two_pow, Nat.testBit_shiftLeft,
      Bool.and_true]
    by_cases h : e = c
    · subst h; simp [hc]
    · by_cases h2 : c ≤ e
      · have h3 : e - c ≠ 0 := by omega
        have h4 : Nat.testBit 1 (e - c) = false := by
          rw [Bool.eq_false_iff]
          intro h5
          exact h3 (Nat.testBit_one_eq_true_iff_self_eq_zero.mp h5)
        simp [h, h4]
      · simp [h, h2]

theorem rot_limb (hi lo x left c : Nat) (hx : x < 2 ^ 64)
    (hw : ∀ e, e < 64 → x.testBit e = win hi lo (e + c)) (hc : c < 64)
    (hl : left.testBit 0 = hi.testBit c) :
    (x >>> RHS_ONE ||| shl (left &&& RHS_ONE) (WORDSIZE - 1)) < 2 ^ 64 ∧
    ∀ e, e < 64 → (x >>> RHS_ONE ||| shl (left &&& RHS_ONE) (WORDSIZE - 1)).testBit e
      = win hi lo (e + (c + 1)) := by
  have hb : left &&& RHS_ONE = (left.testBit 0).toNat := by
    simp only [RHS_ONE, Nat.and_one_is_mod, Nat.testBit_zero]
    have h : left % 2 = 0 ∨ left % 2 = 1 := by omega
    rcases h with h | h <;> simp [h]
  constructor
  · apply Nat.or_lt_two_pow
    · simp only [RHS_ONE, Nat.shiftRight_eq_div_pow]; omega
    · simp only [shl, WORD]; exact Nat.mod_lt _ (by norm_num)
  · intro e he
    rw [Nat.testBit_or, hb, shl_bool_testBit _ _ _ (by simp [WORDSIZE]), Nat.testBit_shiftRight, RHS_ONE,
      WORDSIZE, hl]
    by_cases h : e = 63
    · subst h
      have : x.testBit (1 + 63) = false := Nat.testBit_lt_two_pow (by simpa using hx)
      simp only [this, win]
      have h2 : ¬ (63 + (c + 1) < 64) := by omega
      have h3 : 63 + (c + 1) - 64 = c := by omega
      simp [h2, h3]
    · have h1 : (1 + e) < 64 := by omega
      have := hw (1 + e) h1
      rw [this]
      have h2 : 1 + e + c = e + (c + 1) := by omega
      simp [h, h2]

theorem out_limb (rule hi lo x o c : Nat) (ho : o < 2 ^ c)
    (hob : ∀ e, e < c → o.testBit e = rule.testBit (nbhd hi lo e))
    (hw : ∀ e, e < 64 → x.testBit e = win hi lo (e + c)) (hc : c < 64) :
    (o ||| shl (rule_table rule (x &&& CELL_MASK)) c) < 2 ^ (c + 1) ∧
    ∀ e, e < c + 1 → (o ||| shl (rule_table rule (x &&& CELL_MASK)) c).testBit e
      = rule.testBit (nbhd hi lo e) := by
  have hn : x &&& CELL_MASK = nbhd hi lo c := by
    have : CELL_MASK = 2 ^ 3 - 1 := by decide
    rw [this, Nat.and_pow_two_sub_one_eq_mod, nbhd]
    have := mod_eight_bits x
    rw [hw 0 (by omega), hw 1 (by omega), hw 2 (by omega)] at this
    have e0 : 0 + c = c := by omega
    have e1 : 1 + c = c + 1 := by omega
    have e2 : 2 + c = c + 2 := by omega
    rw [e0, e1, e2] at this
    simpa using this
  rw [hn, rule_table_eq]
  have hbit : ∀ e, (o ||| shl (rule.testBit (nbhd hi lo c)).toNat c).testBit e
      = (o.testBit e || (decide (e = c) && rule.testBit (nbhd hi lo c))) := by
    intro e
    rw [Nat.testBit_or, shl_bool_testBit _ _ _ hc]
  constructor
  · apply Nat.lt_pow_two_of_testBit
    intro i hi
    rw [hbit]
    have h1 : o.testBit i = false :=
      Nat.testBit_lt_two_pow (lt_of_lt_of_le ho (Nat.pow_le_pow_right (by norm_num) (by omega)))
    have h2 : i ≠ c := by omega
    simp [h1, h2]
  · intro e he
    rw [hbit]
    by_cases h : e = c
    · subst h
      have : o.testBit e = false := Nat.testBit_lt_two_pow ho
      simp [this]
    · simp [h, hob e (by omega)]

theorem LimbIn.low {hi lo c x : Nat} (h : LimbIn hi lo c x) (hc : c < 64) :
    x.testBit 0 = lo.testBit c := by
  have := h.2 0 (by omega)
  simpa [win, hc] using this

theorem inner_pure_inv (rule : Nat) (A : Block) (hA : A.wf) :
    ∀ c, c ≤ 64 →
      LimbIn A.w3 A.w0 c (inner_pure rule c (A, ⟨0, 0, 0, 0⟩)).1.w0 ∧
      LimbIn A.w0 A.w1 c (inner_pure rule c (A, ⟨0, 0, 0, 0⟩)).1.w1 ∧
      LimbIn A.w1 A.w2 c (inner_pure rule c (A, ⟨0, 0, 0, 0⟩)).1.w2 ∧
      LimbIn A.w2 A.w3 c (inner_pure rule c (A, ⟨0, 0, 0, 0⟩)).1.w3 ∧
      LimbOut rule A.w3 A.w0 c (inner_pure rule c (A, ⟨0, 0, 0, 0⟩)).2.w0 ∧
      LimbOut rule A.w0 A.w1 c (inner_pure rule c (A, ⟨0, 0, 0, 0⟩)).2.w1 ∧
      LimbOut rule A.w1 A.w2 c (inner_pure rule c (A, ⟨0, 0, 0, 0⟩)).2.w2 ∧
      LimbOut rule A.w2 A.w3 c (inner_pure rule c (A, ⟨0, 0, 0, 0⟩)).2.w3 := by
  obtain ⟨h0, h1, h2, h3⟩ := hA
  simp only [WORD] at h0 h1 h2 h3
  intro c
  induction c with
  | zero =>
    intro _
    have base : ∀ hi lo, lo < 2 ^ 64 → LimbIn hi lo 0 lo := by
      intro hi lo hlo
      refine ⟨hlo, ?_⟩
      intro e he
      simp [win, he]
    have baseo : ∀ hi lo, LimbOut rule hi lo 0 0 := by
      intro hi lo
      refine ⟨by norm_num, ?_⟩
      intro e he
      omega
    exact ⟨base _ _ h0, base _ _ h1, base _ _ h2, base _ _ h3,
      baseo _ _, baseo _ _, baseo _ _, baseo _ _⟩
  | succ c ih =>
    intro hc
    have hc1 : c < 64 := by omega
    obtain ⟨i0, i1, i2, i3, o0, o1, o2, o3⟩ := ih (by omega)
    simp only [inner_pure, inner_data, rotate_right]
    exact ⟨rot_limb _ _ _ _ c i0.1 i0.2 hc1 (i3.low hc1),
      rot_limb _ _ _ _ c i1.1 i1.2 hc1 (i0.low hc1),
      rot_limb _ _ _ _ c i2.1 i2.2 hc1 (i1.low hc1),
      rot_limb _ _ _ _ c i3.1 i3.2 hc1 (i2.low hc1),
      out_limb rule _ _ _ _ c o0.1 o0.2 i0.2 hc1,
      out_limb rule _ _ _ _ c o1.1 o1.2 i1.2 hc1,
      out_limb rule _ _ _ _ c o2.1 o2.2 i2.2 hc1,
      out_limb rule _ _ _ _ c o3.1 o3.2 i3.2 hc1⟩

theorem rotl_limb (rule hi mid lo o onext : Nat) (ho : LimbOut rule hi mid 64 o)
    (hn : LimbOut rule mid lo 64 onext) :
    (shl o RHS_ONE ||| ((onext &&& LHS_ONE) >>> (WORDSIZE - 1))) < 2 ^ 64 ∧
    ∀ e, e < 64 → (shl o RHS_ONE ||| ((onext &&& LHS_ONE) >>> (WORDSIZE - 1))).testBit e
      = rule.testBit (cell hi mid lo e) := by
  have hL : LHS_ONE = 2 ^ 63 := by decide
  have hbit : ∀ e, e < 64 → (shl o RHS_ONE ||| ((onext &&& LHS_ONE) >>> (WORDSIZE - 1))).testBit e
      = if e = 0 then onext.testBit 63 else o.testBit (e - 1) := by
    intro e he
    simp only [shl, WORD, RHS_ONE, WORDSIZE, hL, Nat.testBit_or, Nat.testBit_mod_two_pow,
      Nat.testBit_shiftLeft, Nat.testBit_shiftRight, Nat.testBit_and, Nat.testBit_two_pow]
    by_cases h : e = 0
    · subst h; simp
    · have h1 : 1 ≤ e := by omega
      have h2 : ¬ (63 = 64 - 1 + e) := by omega
      simp [he, h, h1, h2]
  constructor
  · apply Nat.or_lt_two_pow
    · simp only [shl, WORD]; exact Nat.mod_lt _ (by norm_num)
    · simp only [WORDSIZE, hL, Nat.shiftRight_eq_div_pow, Nat.and_pow_two_sub_one_eq_mod]
      have : onext &&& 2 ^ 63 ≤ 2 ^ 63 := Nat.and_le_right
      omega
  · intro e he
    rw [hbit e he]
    by_cases h : e = 0
    · subst h
      simp only [if_true, hn.2 63 (by omega), nbhd, cell, win]
      simp
    · have h1 : e - 1 < 64 := by omega
      simp only [h, if_false, ho.2 (e - 1) h1, nbhd, cell, win]
      by_cases h63 : e = 63
      · subst h63; simp
      · have a1 : e - 1 + 2 = e + 1 := by omega
        have a2 : e - 1 + 1 = e := by omega
        have a3 : e + 1 < 64 := by omega
        simp [h63, a1, a2, a3, he, h1]

theorem ca_step_limbs (rule : Nat) (A : Block) (hA : A.wf) :
    (ca_step rule A).wf ∧
    ∀ e, e < 64 →
      (ca_step rule A).w0.testBit e = rule.testBit (cell A.w3 A.w0 A.w1 e) ∧
      (ca_step rule A).w1.testBit e = rule.testBit (cell A.w0 A.w1 A.w2 e) ∧
      (ca_step rule A).w2.testBit e = rule.testBit (cell A.w1 A.w2 A.w3 e) ∧
      (ca_step rule A).w3.testBit e = rule.testBit (cell A.w2 A.w3 A.w0 e) := by
  obtain ⟨-, -, -, -, o0, o1, o2, o3⟩ := inner_pure_inv rule A hA 64 (le_refl _)
  have r0 := rotl_limb rule _ _ _ _ _ o0 o1
  have r1 := rotl_limb rule _ _ _ _ _ o1 o2
  have r2 := rotl_limb rule _ _ _ _ _ o2 o3
  have r3 := rotl_limb rule _ _ _ _ _ o3 o0
  constructor
  · exact ⟨r0.1, r1.1, r2.1, r3.1⟩
  · intro e he
    exact ⟨r0.2 e he, r1.2 e he, r2.2 e he, r3.2 e he⟩

theorem Block.bit_left (A : Block) (k r : Nat) (hk : k < 4) (hr : r < 64) :
    A.bit ((64 * k + r + 255) % 256)
      = if 63 - r = 63 then (A.limb ((k + 3) % 4)).testBit 0
        else (A.limb k).testBit (63 - r + 1) := by
  unfold Block.bit
  by_cases h : r = 0
  · subst h
    have h1 : (64 * k + 0 + 255) % 256 / 64 = (k + 3) % 4 := by omega
    have h2 : 63 - (64 * k + 0 + 255) % 256 % 64 = 0 := by omega
    rw [h1, h2]; simp
  · have h1 : (64 * k + r + 255) % 256 / 64 = k := by omega
    have h2 : 63 - (64 * k + r + 255) % 256 % 64 = 63 - r + 1 := by omega
    have h3 : ¬ (63 - r = 63) := by omega
    rw [h1, h2, if_neg h3]

theorem Block.bit_right (A : Block) (k r : Nat) (hk : k < 4) (hr : r < 64) :
    A.bit ((64 * k + r + 1) % 256)
      = if 63 - r = 0 then (A.limb ((k + 1) % 4)).testBit 63
        else (A.limb k).testBit (63 - r - 1) := by
  unfold Block.bit
  by_cases h : r = 63
  · subst h
    have h1 : (64 * k + 63 + 1) % 256 / 64 = (k + 1) % 4 := by omega
    have h2 : 63 - (64 * k + 63 + 1) % 256 % 64 = 63 := by omega
    rw [h1, h2]; simp
  · have h1 : (64 * k + r + 1) % 256 / 64 = k := by omega
    have h2 : 63 - (64 * k + r + 1) % 256 % 64 = 63 - r - 1 := by omega
    have h3 : ¬ (63 - r = 0) := by omega
    rw [h1, h2, if_neg h3]

theorem Block.bit_mid (A : Block) (k r : Nat) (hr : r < 64) :
    A.bit (64 * k + r) = (A.limb k).testBit (63 - r) := by
  unfold Block.bit
  have h1 : (64 * k + r) / 64 = k := by omega
  have h2 : (64 * k + r) % 64 = r := by omega
  rw [h1, h2]

theorem ca_step_bit (rule : Nat) (A : Block) (hA : A.wf) (i : Nat) (hi : i < 256) :
    (ca_step rule A).bit i
      = rule.testBit (4 * (A.bit ((i + 255) % 256)).toNat + 2 * (A.bit i).toNat
          + (A.bit ((i + 1) % 256)).toNat) := by
  obtain ⟨k, r, hk, hr, rfl⟩ : ∃ k r, k < 4 ∧ r < 64 ∧ i = 64 * k + r :=
    ⟨i / 64, i % 64, by omega, by omega, by omega⟩
  have hl := (ca_step_limbs rule A hA).2 (63 - r) (by omega)
  rw [Block.bit_left A k r hk hr, Block.bit_right A k r hk hr, Block.bit_mid A k r hr,
    Block.bit_mid _ k r hr]
  obtain ⟨l0, l1, l2, l3⟩ := hl
  interval_cases k
  · simpa [Block.limb, cell] using l0
  · simpa [Block.limb, cell] using l1
  · simpa [Block.limb, cell] using l2
  · simpa [Block.limb, cell] using l3

/-! ## Lemmas: the Feistel network and the key schedule -/

theorem ca256_loop_spec (rule fuel : Nat) (s : Regs) (hf : 255 < fuel) :
    ∃ t, ca256_loop rule fuel s = some t ∧
      t.input = evolve rule CA256 s.input ∧ t.mp < 2 ^ 64 ∧
      t.mp / 16777216 % 549755813888 = s.mp / 16777216 % 549755813888 := by
  obtain ⟨t, h1, -, h2, -, h3, h4⟩ :=
    ca_loop_spec rule CA256 fuel s (by decide) (by omega) (by simpa [CA256] using hf)
  exact ⟨t, h1, h2, h3, h4⟩

theorem f_function_spec (K : Block) (fuel : Nat) (s : Regs) (V : Nat × Nat) (hf : 255 < fuel)
    (hs : s.input = ⟨V.1, V.2, V.1, V.2⟩) :
    ∃ t, f_function K fuel s = some t ∧
      t.input = ⟨(round_function K V).1, (round_function K V).2,
                 (round_function K V).1, (round_function K V).2⟩ ∧
      t.mp < 2 ^ 64 ∧
      t.mp / 16777216 % 549755813888 = s.mp / 16777216 % 549755813888 := by
  obtain ⟨u, hu, h1, h2, h3⟩ := ca256_loop_spec RULE30 fuel (load_subkey K s) hf
  have hin : (load_subkey K s).input = ⟨V.1 ^^^ K.w0, V.2 ^^^ K.w1, V.1 ^^^ K.w2, V.2 ^^^ K.w3⟩ := by
    simp only [Regs.input, Block.mk.injEq] at hs
    obtain ⟨a, b, c, d⟩ := hs
    simp [load_subkey, Regs.input, a, b, c, d]
  refine ⟨fold_halves u, ?_, ?_, h2, h3⟩
  · simp [f_function, hu]
  · rw [hin] at h1
    simp only [round_function]
    generalize evolve RULE30 CA256 _ = E at h1 ⊢
    have a : u.key_in_reg1 = E.w0 := congrArg Block.w0 h1
    have b : u.key_in_reg2 = E.w1 := congrArg Block.w1 h1
    have c : u.key_in_reg3 = E.w2 := congrArg Block.w2 h1
    have d : u.key_in_reg4 = E.w3 := congrArg Block.w3 h1
    simp [fold_halves, Regs.input, a, b, c, d]

theorem f_step_spec (K : Block) (fuel : Nat) (c : CipherState) (V : Nat × Nat) (hf : 255 < fuel)
    (hs : c.source V) :
    ∃ c1, f_step K fuel c = some c1 ∧
      c1.r.input = ⟨(round_function K V).1, (round_function K V).2,
                    (round_function K V).1, (round_function K V).2⟩ ∧
      c1.halves = c.halves ∧ c1.r.mp < 2 ^ 64 ∧
      c1.r.mp / 16777216 % 549755813888 = c.r.mp / 16777216 % 549755813888 := by
  obtain ⟨t, ht, h1, h2, h3⟩ := f_function_spec K fuel c.r V hf hs
  exact ⟨{ c with r := t }, by simp [f_step, ht], h1, rfl, h2, h3⟩

theorem feistel_left_spec (c : CipherState) (F : Nat × Nat)
    (h : c.r.input = ⟨F.1, F.2, F.1, F.2⟩) :
    (feistel_left c).halves = (xor_half c.halves.1 F, c.halves.2) ∧
    (feistel_left c).source (xor_half c.halves.1 F) ∧
    (feistel_left c).r.mp = c.r.mp := by
  simp only [Regs.input, Block.mk.injEq] at h
  obtain ⟨a, b, -, -⟩ := h
  simp [feistel_left, CipherState.halves, CipherState.source, xor_half, Regs.input, a, b,
    Nat.xor_comm]

theorem feistel_right_spec (c : CipherState) (F : Nat × Nat)
    (h : c.r.input = ⟨F.1, F.2, F.1, F.2⟩) :
    (feistel_right c).halves = (c.halves.1, xor_half c.halves.2 F) ∧
    (feistel_right c).source (xor_half c.halves.2 F) ∧
    (feistel_right c).r.mp = c.r.mp := by
  simp only [Regs.input, Block.mk.injEq] at h
  obtain ⟨a, b, -, -⟩ := h
  simp [feistel_right, CipherState.halves, CipherState.source, xor_half, Regs.input, a, b,
    Nat.xor_comm]

theorem encrypt_round_spec (sk : scheduled_key) (fuel : Nat) (c : CipherState) (hf : 255 < fuel)
    (hs : c.source c.halves.2) :
    ∃ c1, encrypt_round sk fuel c = some c1 ∧ c1.source c1.halves.2 ∧
      c1.halves = feistel_round sk c.halves ∧ c1.r.mp < 2 ^ 64 ∧
      c1.r.mp / 16777216 % 549755813888 = c.r.mp / 16777216 % 549755813888 := by
  obtain ⟨a1, e1, i1, p1, -, m1⟩ := f_step_spec sk.key_1 fuel c _ hf hs
  obtain ⟨l1, s1, q1⟩ := feistel_left_spec a1 _ i1
  obtain ⟨a2, e2, i2, p2, -, m2⟩ := f_step_spec sk.key_2 fuel (feistel_left a1) _ hf s1
  obtain ⟨l2, s2, q2⟩ := feistel_right_spec a2 _ i2
  obtain ⟨a3, e3, i3, p3, -, m3⟩ := f_step_spec sk.key_3 fuel (feistel_right a2) _ hf s2
  obtain ⟨l3, s3, q3⟩ := feistel_left_spec a3 _ i3
  obtain ⟨a4, e4, i4, p4, b4, m4⟩ := f_step_spec sk.key_4 fuel (feistel_left a3) _ hf s3
  obtain ⟨l4, s4, q4⟩ := feistel_right_spec a4 _ i4
  refine ⟨feistel_right a4, ?_, ?_, ?_, ?_, ?_⟩
  · simp [encrypt_round, e1, e2, e3, e4]
  · rw [l4]; exact s4
  · rw [l4, p4, l3, p3, l2, p2, l1, p1]; rfl
  · rw [q4]; exact b4
  · rw [q4, m4, q3, m3, q2, m2, q1, m1]

theorem CipherState.halves_set_mp (u : CipherState) (m : Nat) :
    ({ u with r := { u.r with mp := m } } : CipherState).halves = u.halves := rfl

theorem CipherState.source_set_mp (u : CipherState) (m : Nat) (V : Nat × Nat) :
    ({ u with r := { u.r with mp := m } } : CipherState).source V ↔ u.source V := Iff.rfl

theorem rounds_loop_spec (body : CipherState → Option CipherState)
    (rf : (Nat × Nat) × (Nat × Nat) → (Nat × Nat) × (Nat × Nat))
    (hbody : ∀ c : CipherState, c.source c.halves.2 →
      ∃ c1, body c = some c1 ∧ c1.source c1.halves.2 ∧ c1.halves = rf c.halves ∧
        c1.r.mp < 2 ^ 64 ∧
        c1.r.mp / 16777216 % 549755813888 = c.r.mp / 16777216 % 549755813888)
    (fuel : Nat) (c : CipherState) (hf : 16 < fuel) (hs : c.source c.halves.2) :
    ∃ c1, rounds_loop body fuel c = some c1 ∧
      c1 = (rounds_iter body)^[16] { c with r := { c.r with mp := c.r.mp &&& ROUNDS_ZERO } } ∧
      c1.halves = rf^[16] c.halves := by
  have key := whileLoop_count
    (fun t : CipherState => decide (((t.r.mp &&& ROUNDS_COUNT) >>> DELTA_ROUNDS) < ROUNDS))
    (fun t => (body t).bind
      (fun u => some { u with r := { u.r with mp := add64 u.r.mp ROUNDS_ONE } }))
    (rounds_iter body)
    (fun i t => t.source t.halves.2 ∧ t.halves = rf^[i] c.halves ∧
      t.r.mp / 16777216 % 65536 = i ∧ t.r.mp < 2 ^ 64) 16
    (by
      rintro i t hi ⟨h1, h2, h3, h4⟩
      obtain ⟨u, hu, g1, g2, g3, g4⟩ := hbody t h1
      have hit : rounds_iter body t
          = { u with r := { u.r with mp := add64 u.r.mp ROUNDS_ONE } } := by
        simp [rounds_iter, hu]
      refine ⟨?_, ?_, ?_, ?_, ?_, ?_⟩
      · simp only [and_ROUNDS_COUNT, ROUNDS, decide_eq_true_eq]; omega
      · simp [hu, hit]
      · rw [hit, CipherState.halves_set_mp, CipherState.source_set_mp]; exact g1
      · rw [hit, Function.iterate_succ_apply', ← h2, ← g2, CipherState.halves_set_mp]
      · rw [hit]; simp only [add64, WORD, ROUNDS_ONE]; omega
      · rw [hit]; simp only [add64, WORD, ROUNDS_ONE]; omega)
    (by
      rintro t ⟨-, -, h3, -⟩
      simp only [and_ROUNDS_COUNT, ROUNDS, decide_eq_false_iff_not]; omega)
    16 0 { c with r := { c.r with mp := c.r.mp &&& ROUNDS_ZERO } } fuel (by omega)
    (by
      refine ⟨(CipherState.source_set_mp c _ _).mpr hs, rfl, ?_, ?_⟩
      · simp only [and_ROUNDS_ZERO]; omega
      · simp only [and_ROUNDS_ZERO]; omega)
    hf
  exact ⟨_, key.1, rfl, key.2.2.1⟩

theorem load_block_source (b : Block) :
    (load_block b).source (load_block b).halves.2 ∧
    (load_block b).halves = ((b.w0, b.w1), (b.w2, b.w3)) := by
  simp [load_block, CipherState.source, CipherState.halves, Regs.input, Regs.init]

theorem xr30256_encrypt_spec (fuel : Nat) (sk : scheduled_key) (P : Block) (hf : 255 < fuel) :
    xr30256_encrypt fuel sk P = some (feistel_encrypt sk P) := by
  obtain ⟨h1, h2⟩ := load_block_source P
  obtain ⟨c, hc, -, hh⟩ := rounds_loop_spec (encrypt_round sk fuel) (feistel_round sk)
    (fun c hs => encrypt_round_spec sk fuel c hf hs) fuel (load_block P) (by omega) h1
  rw [h2] at hh
  simp only [xr30256_encrypt, hc, Option.some_bind, feistel_encrypt, store_block, ← hh,
    CipherState.halves]

theorem xr30256_decrypt_reversed (fuel : Nat) (sk : scheduled_key) (C : Block) :
    xr30256_decrypt fuel sk C = xr30256_encrypt fuel sk.reversed C := rfl

theorem xor_half_cancel (a b : Nat × Nat) : xor_half (xor_half a b) b = a := by
  simp [xor_half, Nat.xor_assoc]

theorem feistel_round_reversed (sk : scheduled_key) (p : (Nat × Nat) × (Nat × Nat)) :
    feistel_round sk.reversed (Prod.swap (feistel_round sk p)) = Prod.swap p := by
  obtain ⟨L, R⟩ := p
  simp only [feistel_round, scheduled_key.reversed, Prod.swap, xor_half_cancel]

theorem feistel_rounds_reversed (sk : scheduled_key) (n : Nat)
    (p : (Nat × Nat) × (Nat × Nat)) :
    (feistel_round sk.reversed)^[n] (Prod.swap ((feistel_round sk)^[n] p)) = Prod.swap p := by
  induction n generalizing p with
  | zero => rfl
  | succ n ih =>
    rw [Function.iterate_succ_apply' (feistel_round sk), Function.iterate_succ_apply,
      feistel_round_reversed, ih]

theorem feistel_roundtrip (sk : scheduled_key) (P : Block) :
    feistel_encrypt sk.reversed (feistel_encrypt sk P) = P := by
  have h := feistel_rounds_reversed sk 16 ((P.w0, P.w1), (P.w2, P.w3))
  simp only [feistel_encrypt]
  have e : ∀ q : (Nat × Nat) × (Nat × Nat), ((q.2.1, q.2.2), (q.1.1, q.1.2)) = Prod.swap q := by
    intro q; rfl
  rw [e, h]
  rfl

theorem add64_mul64 (a b : Nat) : add64 a (mul64 a b) = (a + a * b) % 2 ^ 64 := by
  simp only [add64, mul64, WORD]
  omega

theorem xr30256_key_schedule_spec (fuel : Nat) (key : Block) (hf : 255 < fuel) :
    xr30256_key_schedule fuel key = some
      { key_1 := evolve RULE30 CA256 (load_segment_1 key Regs.init).input,
        key_2 := evolve RULE30 CA256 (load_segment_2 key Regs.init).input,
        key_3 := evolve RULE30 CA256 (load_segment_3 key Regs.init).input,
        key_4 := evolve RULE30 CA256 (load_segment_4 key Regs.init).input } := by
  obtain ⟨s1, e1, i1, -⟩ := ca256_loop_spec RULE30 fuel (load_segment_1 key Regs.init) hf
  obtain ⟨s2, e2, i2, -⟩ := ca256_loop_spec RULE30 fuel (load_segment_2 key s1) hf
  obtain ⟨s3, e3, i3, -⟩ := ca256_loop_spec RULE30 fuel (load_segment_3 key s2) hf
  obtain ⟨s4, e4, i4, -⟩ := ca256_loop_spec RULE30 fuel (load_segment_4 key s3) hf
  simp only [xr30256_key_schedule, e1, e2, e3, e4, Option.some_bind, i1, i2, i3, i4]
  rfl

theorem rule30_one_neighbour (a b c : Bool) (hab : ¬ (a = true ∧ b = true))
    (hac : ¬ (a = true ∧ c = true)) (hbc : ¬ (b = true ∧ c = true)) :
    RULE30.testBit (4 * a.toNat + 2 * b.toNat + c.toNat) = (a || b || c) := by
  cases a <;> cases b <;> cases c <;> simp_all <;> decide

/-! ## The claims -/

/-- C1 (round trip). For every master key `K` and every plaintext `P` (four words each),
with enough fuel for the loops, the key schedule returns a scheduled key, encryption
under it returns a ciphertext, and decryption of that ciphertext under the same
scheduled key returns `P` word for word. -/
theorem round_trip (fuel : Nat) (K P : Block) (hf : 255 < fuel) :
    ∃ sk C, xr30256_key_schedule fuel K = some sk ∧
      xr30256_encrypt fuel sk P = some C ∧
      xr30256_decrypt fuel sk C = some P := by
  refine ⟨_, _, xr30256_key_schedule_spec fuel K hf, xr30256_encrypt_spec fuel _ P hf, ?_⟩
  rw [xr30256_decrypt_reversed, xr30256_encrypt_spec fuel _ _ hf, feistel_roundtrip]

/-- Witness of C1 at the key and the plaintext hard-coded in `main`. -/
theorem round_trip_main :
    255 < 256 ∧ ∃ sk C, xr30256_key_schedule 256 main_key = some sk ∧
      xr30256_encrypt 256 sk main_plaintext = some C ∧
      xr30256_decrypt 256 sk C = some main_plaintext :=
  ⟨by decide, round_trip 256 main_key main_plaintext (by decide)⟩

/-- C2 (encrypt is the reference Feistel network). For every scheduled key and block,
`xr30256_encrypt` returns the block obtained by applying 16 times the sequence
`L := L xor F(K1,R); R := R xor F(K2,L); L := L xor F(K3,R); R := R xor F(K4,L)` to
`L = (p0,p1)`, `R = (p2,p3)` and then writing the final `R` to words 0,1 and the final `L`
to words 2,3. -/
theorem encrypt_eq_feistel (fuel : Nat) (sk : scheduled_key) (P : Block) (hf : 255 < fuel) :
    xr30256_encrypt fuel sk P = some
      (let q := (fun p : (Nat × Nat) × (Nat × Nat) =>
          let L1 := xor_half p.1 (round_function sk.key_1 p.2)
          let R1 := xor_half p.2 (round_function sk.key_2 L1)
          let L2 := xor_half L1 (round_function sk.key_3 R1)
          let R2 := xor_half R1 (round_function sk.key_4 L2)
          (L2, R2))^[16] ((P.w0, P.w1), (P.w2, P.w3))
       ⟨q.2.1, q.2.2, q.1.1, q.1.2⟩) :=
  xr30256_encrypt_spec fuel sk P hf

/-- Witness of C2 at the plaintext of `main`, under a scheduled key made of the words set in
`main`. -/
theorem encrypt_eq_feistel_main :
    255 < 256 ∧ xr30256_encrypt 256 ⟨main_key, main_plaintext, main_key, main_plaintext⟩
      main_plaintext = some
      (let q := (fun p : (Nat × Nat) × (Nat × Nat) =>
          let L1 := xor_half p.1 (round_function main_key p.2)
          let R1 := xor_half p.2 (round_function main_plaintext L1)
          let L2 := xor_half L1 (round_function main_key R1)
          let R2 := xor_half R1 (round_function main_plaintext L2)
          (L2, R2))^[16]
            ((main_plaintext.w0, main_plaintext.w1), (main_plaintext.w2, main_plaintext.w3))
       ⟨q.2.1, q.2.2, q.1.1, q.1.2⟩) :=
  ⟨by decide,
    encrypt_eq_feistel 256 ⟨main_key, main_plaintext, main_key, main_plaintext⟩ main_plaintext
      (by decide)⟩

/-- C3 (decryption is encryption with the subkeys reversed). For every scheduled key
`sk = {K1,K2,K3,K4}` and every block `C`, `xr30256_decrypt sk C` and
`xr30256_encrypt {K4,K3,K2,K1} C` are the same computation, and with enough fuel it
returns a block. -/
theorem decrypt_eq_encrypt_reversed (fuel : Nat) (sk : scheduled_key) (C : Block)
    (hf : 255 < fuel) :
    ∃ B, xr30256_decrypt fuel sk C = some B ∧
      xr30256_encrypt fuel
        { key_1 := sk.key_4, key_2 := sk.key_3, key_3 := sk.key_2, key_4 := sk.key_1 } C
        = some B :=
  ⟨_, (xr30256_decrypt_reversed fuel sk C).trans (xr30256_encrypt_spec fuel _ C hf),
    xr30256_encrypt_spec fuel sk.reversed C hf⟩

/-- Witness of C3 at the plaintext of `main`. -/
theorem decrypt_eq_encrypt_reversed_main :
    255 < 256 ∧ ∃ B,
      xr30256_decrypt 256 ⟨main_key, main_plaintext, main_key, main_plaintext⟩ main_plaintext
        = some B ∧
      xr30256_encrypt 256
        { key_1 := main_plaintext, key_2 := main_key, key_3 := main_plaintext,
          key_4 := main_key } main_plaintext = some B :=
  ⟨by decide,
    decrypt_eq_encrypt_reversed 256 ⟨main_key, main_plaintext, main_key, main_plaintext⟩
      main_plaintext (by decide)⟩

/-- C4 (round function). Let the CA input registers hold the half `V = (v0,v1)` in both
128-bit positions.  The F-function block under the subkey `K` then runs the CA256 loop on
the register `(v0,v1,v0,v1)` XORed limb-wise with `K`, folds the evolved register
`(e0,e1,e2,e3)` to `(e0 xor e2, e1 xor e3)`, and that value is what the following Feistel
step XORs into the other half, the half it does not touch being unchanged. -/
theorem round_function_step (K : Block) (V : Nat × Nat) (fuel : Nat) (c : CipherState)
    (hf : 255 < fuel) (hc : c.r.input = ⟨V.1, V.2, V.1, V.2⟩) :
    ∃ u c1,
      (load_subkey K c.r).input = ⟨V.1 ^^^ K.w0, V.2 ^^^ K.w1, V.1 ^^^ K.w2, V.2 ^^^ K.w3⟩ ∧
      ca256_loop RULE30 fuel (load_subkey K c.r) = some u ∧
      u.input = evolve RULE30 CA256 ⟨V.1 ^^^ K.w0, V.2 ^^^ K.w1, V.1 ^^^ K.w2, V.2 ^^^ K.w3⟩ ∧
      round_function K V = (u.input.w0 ^^^ u.input.w2, u.input.w1 ^^^ u.input.w3) ∧
      f_step K fuel c = some c1 ∧
      c1.r.input = ⟨(round_function K V).1, (round_function K V).2,
                    (round_function K V).1, (round_function K V).2⟩ ∧
      (feistel_left c1).halves
        = ((c.plain_1 ^^^ (round_function K V).1, c.plain_2 ^^^ (round_function K V).2),
           (c.plain_3, c.plain_4)) ∧
      (feistel_right c1).halves
        = ((c.plain_1, c.plain_2),
           (c.plain_3 ^^^ (round_function K V).1, c.plain_4 ^^^ (round_function K V).2)) := by
  obtain ⟨u, hu, h1, -, -⟩ := ca256_loop_spec RULE30 fuel (load_subkey K c.r) hf
  have hin : (load_subkey K c.r).input
      = ⟨V.1 ^^^ K.w0, V.2 ^^^ K.w1, V.1 ^^^ K.w2, V.2 ^^^ K.w3⟩ := by
    have a : c.r.key_in_reg1 = V.1 := congrArg Block.w0 hc
    have b : c.r.key_in_reg2 = V.2 := congrArg Block.w1 hc
    have c' : c.r.key_in_reg3 = V.1 := congrArg Block.w2 hc
    have d : c.r.key_in_reg4 = V.2 := congrArg Block.w3 hc
    simp [load_subkey, Regs.input, a, b, c', d]
  obtain ⟨c1, e1, i1, p1, -, -⟩ := f_step_spec K fuel c V hf hc
  obtain ⟨l1, -, -⟩ := feistel_left_spec c1 _ i1
  obtain ⟨r1, -, -⟩ := feistel_right_spec c1 _ i1
  rw [hin] at h1
  refine ⟨u, c1, hin, hu, h1, ?_, e1, i1, ?_, ?_⟩
  · rw [h1]; rfl
  · rw [l1, p1]; rfl
  · rw [r1, p1]; rfl

/-- Witness of C4: the first F-function block of an encryption of the plaintext of
`main`, whose source half is the right half of the plaintext. -/
theorem round_function_step_main :
    255 < 256 ∧ (load_block main_plaintext).r.input
      = ⟨(main_plaintext.w2, main_plaintext.w3).1, (main_plaintext.w2, main_plaintext.w3).2,
         (main_plaintext.w2, main_plaintext.w3).1, (main_plaintext.w2, main_plaintext.w3).2⟩ ∧
    ∃ u c1,
      (load_subkey main_key (load_block main_plaintext).r).input
        = ⟨(main_plaintext.w2, main_plaintext.w3).1 ^^^ main_key.w0,
           (main_plaintext.w2, main_plaintext.w3).2 ^^^ main_key.w1,
           (main_plaintext.w2, main_plaintext.w3).1 ^^^ main_key.w2,
           (main_plaintext.w2, main_plaintext.w3).2 ^^^ main_key.w3⟩ ∧
      ca256_loop RULE30 256 (load_subkey main_key (load_block main_plaintext).r) = some u ∧
      u.input = evolve RULE30 CA256
        ⟨(main_plaintext.w2, main_plaintext.w3).1 ^^^ main_key.w0,
         (main_plaintext.w2, main_plaintext.w3).2 ^^^ main_key.w1,
         (main_plaintext.w2, main_plaintext.w3).1 ^^^ main_key.w2,
         (main_plaintext.w2, main_plaintext.w3).2 ^^^ main_key.w3⟩ ∧
      round_function main_key (main_plaintext.w2, main_plaintext.w3)
        = (u.input.w0 ^^^ u.input.w2, u.input.w1 ^^^ u.input.w3) ∧
      f_step main_key 256 (load_block main_plaintext) = some c1 ∧
      c1.r.input
        = ⟨(round_function main_key (main_plaintext.w2, main_plaintext.w3)).1,
           (round_function main_key (main_plaintext.w2, main_plaintext.w3)).2,
           (round_function main_key (main_plaintext.w2, main_plaintext.w3)).1,
           (round_function main_key (main_plaintext.w2, main_plaintext.w3)).2⟩ ∧
      (feistel_left c1).halves
        = (((load_block main_plaintext).plain_1
              ^^^ (round_function main_key (main_plaintext.w2, main_plaintext.w3)).1,
            (load_block main_plaintext).plain_2
              ^^^ (round_function main_key (main_plaintext.w2, main_plaintext.w3)).2),
           ((load_block main_plaintext).plain_3, (load_block main_plaintext).plain_4)) ∧
      (feistel_right c1).halves
        = (((load_block main_plaintext).plain_1, (load_block main_plaintext).plain_2),
           ((load_block main_plaintext).plain_3
              ^^^ (round_function main_key (main_plaintext.w2, main_plaintext.w3)).1,
            (load_block main_plaintext).plain_4
              ^^^ (round_function main_key (main_plaintext.w2, main_plaintext.w3)).2)) :=
  ⟨by decide, by decide,
    round_function_step main_key (main_plaintext.w2, main_plaintext.w3) 256
      (load_block main_plaintext) (by decide) (by decide)⟩

/-- C5 (one generation is the table rule on a circular 256-bit register). For every state
whose four input registers are 64-bit words, whatever the output registers and `mp` hold,
one pass of the generation-loop body returns, and the new input register has at every
position `i` of `0..255` the bit `rule_table[4*bit(i-1) + 2*bit(i) + bit(i+1)]` of the old
input register, indices modulo 256; the right-hand side reads the old register only. -/
theorem generation_table_rule (rule fuel : Nat) (s : Regs) (hf : 64 < fuel)
    (hs : s.input.wf) :
    ∃ t, generation rule fuel s = some t ∧ t.input.wf ∧
      ∀ i, i < 256 →
        (t.input.bit i).toNat
          = rule_table rule (4 * (s.input.bit ((i + 255) % 256)).toNat
              + 2 * (s.input.bit i).toNat + (s.input.bit ((i + 1) % 256)).toNat) := by
  obtain ⟨t, ht, h1, -⟩ := generation_spec rule fuel s hf
  refine ⟨t, ht, ?_, ?_⟩
  · rw [h1]; exact (ca_step_limbs rule s.input hs).1
  · intro i hi
    rw [h1, ca_step_bit rule s.input hs i hi, rule_table_eq]

/-- Witness of C5 at the first mixing vector of the key of `main`, with rule 30. -/
theorem generation_table_rule_main :
    64 < 65 ∧ (load_segment_1 main_key Regs.init).input.wf ∧
    ∃ t, generation RULE30 65 (load_segment_1 main_key Regs.init) = some t ∧ t.input.wf ∧
      ∀ i, i < 256 →
        (t.input.bit i).toNat
          = rule_table RULE30
              (4 * ((load_segment_1 main_key Regs.init).input.bit ((i + 255) % 256)).toNat
                + 2 * ((load_segment_1 main_key Regs.init).input.bit i).toNat
                + ((load_segment_1 main_key Regs.init).input.bit ((i + 1) % 256)).toNat) :=
  ⟨by decide, by decide,
    generation_table_rule RULE30 65 (load_segment_1 main_key Regs.init) (by decide) (by decide)⟩

/-- C6 (a CA256 pass is 255 generations). For every state on entry (any input register,
any left-over output registers and `mp`), with enough fuel the CA256 loop returns after
exactly 255 passes of its body, and the input register on exit is the single-generation
step iterated 255 times on the input register on entry, where the single-generation step
is the function the generation-loop body computes on the input register. -/
theorem ca256_is_255_generations (rule fuel : Nat) (s : Regs) (hf : 255 < fuel) :
    ∃ t, ca256_loop rule fuel s = some t ∧
      t = (generation_iter rule fuel)^[255] { s with mp := s.mp &&& OUTER_ZERO } ∧
      t.input = (ca_step rule)^[255] s.input ∧
      ∀ u : Regs, ∃ v, generation rule fuel u = some v ∧ v.input = ca_step rule u.input := by
  obtain ⟨t, h1, h2, h3, -⟩ :=
    ca_loop_spec rule CA256 fuel s (by decide) (by omega) (by simpa [CA256] using hf)
  refine ⟨t, h1, h2, h3, ?_⟩
  intro u
  obtain ⟨v, hv, hi, -⟩ := generation_spec rule fuel u (by omega)
  exact ⟨v, hv, hi⟩

/-- Witness of C6 at the first mixing vector of the key of `main`, with rule 30. -/
theorem ca256_is_255_generations_main :
    255 < 256 ∧ ∃ t, ca256_loop RULE30 256 (load_segment_1 main_key Regs.init) = some t ∧
      t = (generation_iter RULE30 256)^[255]
        { load_segment_1 main_key Regs.init with
          mp := (load_segment_1 main_key Regs.init).mp &&& OUTER_ZERO } ∧
      t.input = (ca_step RULE30)^[255] (load_segment_1 main_key Regs.init).input ∧
      ∀ u : Regs, ∃ v, generation RULE30 256 u = some v ∧ v.input = ca_step RULE30 u.input :=
  ⟨by decide, ca256_is_255_generations RULE30 256 (load_segment_1 main_key Regs.init)
    (by decide)⟩

/-- Counterexample to C7 as the specification words it: for the key of `main` and subkey
index 1, limb 2 of the register loaded for the CA is `k[0] + k[0]*k[1]`, which differs from
the value `k[1] + k[1]*k[0]` the specification gives. -/
theorem spec_mixing_vector_fails :
    (load_segment_1 main_key Regs.init).input.limb 1 ≠ spec_mixing_limb main_key 1 2 := by
  decide

/-- C7 as amended (the mixing vector the code loads). For every master key and every
subkey index `j` in `1..4`, the register loaded for the CA has limb `j` equal to `k[j-1]`
and every other limb `i` equal to `k[j-1] + k[j-1]*k[i-1]` modulo `2^64`. -/
theorem mixing_vector_loaded (key : Block) (s : Regs) (i : Nat) (h1 : 1 ≤ i) (h4 : i ≤ 4) :
    (load_segment_1 key s).input.limb (i - 1) = header_mixing_limb key 1 i ∧
    (load_segment_2 key s).input.limb (i - 1) = header_mixing_limb key 2 i ∧
    (load_segment_3 key s).input.limb (i - 1) = header_mixing_limb key 3 i ∧
    (load_segment_4 key s).input.limb (i - 1) = header_mixing_limb key 4 i := by
  have hi : i = 1 ∨ i = 2 ∨ i = 3 ∨ i = 4 := by omega
  rcases hi with h | h | h | h <;> subst h <;>
    simp [load_segment_1, load_segment_2, load_segment_3, load_segment_4, Regs.input,
      Block.limb, header_mixing_limb, add64_mul64]

/-- Witness of the amended C7 at the key of `main`, limb 2. -/
theorem mixing_vector_loaded_main :
    1 ≤ 2 ∧ 2 ≤ 4 ∧
    (load_segment_1 main_key Regs.init).input.limb (2 - 1) = header_mixing_limb main_key 1 2 ∧
    (load_segment_2 main_key Regs.init).input.limb (2 - 1) = header_mixing_limb main_key 2 2 ∧
    (load_segment_3 main_key Regs.init).input.limb (2 - 1) = header_mixing_limb main_key 3 2 ∧
    (load_segment_4 main_key Regs.init).input.limb (2 - 1) = header_mixing_limb main_key 4 2 :=
  ⟨by decide, by decide, mixing_vector_loaded main_key Regs.init 2 (by decide) (by decide)⟩

/-- C8 (key schedule as the source header documents it). For every master key
`k1|k2|k3|k4`, with enough fuel `xr30256_key_schedule` returns the four subkeys
`K1 = CA256(k1 | k1+k1*k2 | k1+k1*k3 | k1+k1*k4)`,
`K2 = CA256(k2+k2*k1 | k2 | k2+k2*k3 | k2+k2*k4)`, `K3` and `K4` likewise, arithmetic modulo
`2^64`, where CA256 is 255 generations of rule 30; and the CA256 loop started on any of the
four mixing vectors gives the same subkey whatever the registers and `mp` held before. -/
theorem key_schedule_as_documented (fuel : Nat) (key : Block) (hf : 255 < fuel) :
    xr30256_key_schedule fuel key = some
      { key_1 := evolve RULE30 255
          ⟨key.w0, (key.w0 + key.w0 * key.w1) % 2 ^ 64,
           (key.w0 + key.w0 * key.w2) % 2 ^ 64, (key.w0 + key.w0 * key.w3) % 2 ^ 64⟩,
        key_2 := evolve RULE30 255
          ⟨(key.w1 + key.w1 * key.w0) % 2 ^ 64, key.w1,
           (key.w1 + key.w1 * key.w2) % 2 ^ 64, (key.w1 + key.w1 * key.w3) % 2 ^ 64⟩,
        key_3 := evolve RULE30 255
          ⟨(key.w2 + key.w2 * key.w0) % 2 ^ 64, (key.w2 + key.w2 * key.w1) % 2 ^ 64,
           key.w2, (key.w2 + key.w2 * key.w3) % 2 ^ 64⟩,
        key_4 := evolve RULE30 255
          ⟨(key.w3 + key.w3 * key.w0) % 2 ^ 64, (key.w3 + key.w3 * key.w1) % 2 ^ 64,
           (key.w3 + key.w3 * key.w2) % 2 ^ 64, key.w3⟩ } ∧
    ∀ s : Regs, ∃ t1 t2 t3 t4,
      ca256_loop RULE30 fuel (load_segment_1 key s) = some t1 ∧
      ca256_loop RULE30 fuel (load_segment_2 key s) = some t2 ∧
      ca256_loop RULE30 fuel (load_segment_3 key s) = some t3 ∧
      ca256_loop RULE30 fuel (load_segment_4 key s) = some t4 ∧
      xr30256_key_schedule fuel key = some
        { key_1 := t1.input, key_2 := t2.input, key_3 := t3.input, key_4 := t4.input } := by
  have hk := xr30256_key_schedule_spec fuel key hf
  constructor
  · rw [hk]
    simp only [load_segment_1, load_segment_2, load_segment_3, load_segment_4, Regs.input,
      add64_mul64, CA256]
  · intro s
    obtain ⟨t1, e1, i1, -⟩ := ca256_loop_spec RULE30 fuel (load_segment_1 key s) hf
    obtain ⟨t2, e2, i2, -⟩ := ca256_loop_spec RULE30 fuel (load_segment_2 key s) hf
    obtain ⟨t3, e3, i3, -⟩ := ca256_loop_spec RULE30 fuel (load_segment_3 key s) hf
    obtain ⟨t4, e4, i4, -⟩ := ca256_loop_spec RULE30 fuel (load_segment_4 key s) hf
    refine ⟨t1, t2, t3, t4, e1, e2, e3, e4, ?_⟩
    rw [hk, i1, i2, i3, i4]
    rfl

/-- Witness of C8 at the key of `main`. -/
theorem key_schedule_as_documented_main :
    255 < 256 ∧
    (xr30256_key_schedule 256 main_key = some
      { key_1 := evolve RULE30 255
          ⟨main_key.w0, (main_key.w0 + main_key.w0 * main_key.w1) % 2 ^ 64,
           (main_key.w0 + main_key.w0 * main_key.w2) % 2 ^ 64,
           (main_key.w0 + main_key.w0 * main_key.w3) % 2 ^ 64⟩,
        key_2 := evolve RULE30 255
          ⟨(main_key.w1 + main_key.w1 * main_key.w0) % 2 ^ 64, main_key.w1,
           (main_key.w1 + main_key.w1 * main_key.w2) % 2 ^ 64,
           (main_key.w1 + main_key.w1 * main_key.w3) % 2 ^ 64⟩,
        key_3 := evolve RULE30 255
          ⟨(main_key.w2 + main_key.w2 * main_key.w0) % 2 ^ 64,
           (main_key.w2 + main_key.w2 * main_key.w1) % 2 ^ 64,
           main_key.w2, (main_key.w2 + main_key.w2 * main_key.w3) % 2 ^ 64⟩,
        key_4 := evolve RULE30 255
          ⟨(main_key.w3 + main_key.w3 * main_key.w0) % 2 ^ 64,
           (main_key.w3 + main_key.w3 * main_key.w1) % 2 ^ 64,
           (main_key.w3 + main_key.w3 * main_key.w2) % 2 ^ 64, main_key.w3⟩ } ∧
    ∀ s : Regs, ∃ t1 t2 t3 t4,
      ca256_loop RULE30 256 (load_segment_1 main_key s) = some t1 ∧
      ca256_loop RULE30 256 (load_segment_2 main_key s) = some t2 ∧
      ca256_loop RULE30 256 (load_segment_3 main_key s) = some t3 ∧
      ca256_loop RULE30 256 (load_segment_4 main_key s) = some t4 ∧
      xr30256_key_schedule 256 main_key = some
        { key_1 := t1.input, key_2 := t2.input, key_3 := t3.input, key_4 := t4.input }) :=
  ⟨by decide, key_schedule_as_documented 256 main_key (by decide)⟩

/-- C9 (single-cell step). For every position `p` of `0..255`, if the input register has
exactly one bit set, at position `p`, then one rule-30 generation returns a register whose
bits are set exactly at the positions `p-1`, `p` and `p+1` modulo 256. -/
theorem single_cell_generation (fuel : Nat) (s : Regs) (p : Nat) (hf : 64 < fuel)
    (hwf : s.input.wf) (hp : p < 256)
    (h1 : ∀ i, i < 256 → s.input.bit i = decide (i = p)) :
    ∃ t, generation RULE30 fuel s = some t ∧ t.input.wf ∧
      ∀ i, i < 256 →
        t.input.bit i = decide (i = (p + 255) % 256 ∨ i = p ∨ i = (p + 1) % 256) := by
  obtain ⟨t, ht, hin, -⟩ := generation_spec RULE30 fuel s hf
  refine ⟨t, ht, ?_, ?_⟩
  · rw [hin]; exact (ca_step_limbs RULE30 s.input hwf).1
  · intro i hi
    rw [hin, ca_step_bit RULE30 s.input hwf i hi, h1 _ (Nat.mod_lt _ (by norm_num)), h1 i hi,
      h1 _ (Nat.mod_lt _ (by norm_num)),
      rule30_one_neighbour _ _ _ (by simp; omega) (by simp; omega) (by simp; omega)]
    have e1 : ((i + 255) % 256 = p) ↔ i = (p + 1) % 256 := by omega
    have e2 : ((i + 1) % 256 = p) ↔ i = (p + 255) % 256 := by omega
    simp only [e1, e2, ← Bool.decide_or]
    congr 1
    apply propext
    constructor
    · rintro ((h | h) | h) <;> simp [h]
    · rintro (h | h | h) <;> simp [h]

set_option maxRecDepth 100000

/-- Witness of C9 at position 0, the most significant bit of limb 0: the neighbours are
positions 255 (across the wrap) and 1. -/
theorem single_cell_generation_zero :
    64 < 65 ∧ ({ Regs.init with key_in_reg1 := 2 ^ 63 } : Regs).input.wf ∧ 0 < 256 ∧
    (∀ i, i < 256 →
      ({ Regs.init with key_in_reg1 := 2 ^ 63 } : Regs).input.bit i = decide (i = 0)) ∧
    ∃ t, generation RULE30 65 { Regs.init with key_in_reg1 := 2 ^ 63 } = some t ∧
      t.input.wf ∧
      ∀ i, i < 256 →
        t.input.bit i = decide (i = (0 + 255) % 256 ∨ i = 0 ∨ i = (0 + 1) % 256) :=
  ⟨by decide, by decide, by decide, by decide,
    single_cell_generation 65 { Regs.init with key_in_reg1 := 2 ^ 63 } 0 (by decide)
      (by decide) (by decide) (by decide)⟩

/-- C10 (CA identity). For every state, the generation loop run with bound 0 returns at
once and leaves the input register (and the output registers) unchanged. -/
theorem zero_generations_identity (rule fuel : Nat) (s : Regs) (hf : 0 < fuel) :
    ∃ t, ca_loop rule 0 fuel s = some t ∧ t.input = s.input ∧ t.output = s.output := by
  obtain ⟨g, rfl⟩ : ∃ g, fuel = g + 1 := ⟨fuel - 1, by omega⟩
  exact ⟨{ s with mp := s.mp &&& OUTER_ZERO }, by simp [ca_loop, whileLoop], rfl, rfl⟩

/-- Witness of C10 at the first mixing vector of the key of `main`. -/
theorem zero_generations_identity_main :
    0 < 1 ∧ ∃ t, ca_loop RULE30 0 1 (load_segment_1 main_key Regs.init) = some t ∧
      t.input = (load_segment_1 main_key Regs.init).input ∧
      t.output = (load_segment_1 main_key Regs.init).output :=
  ⟨by decide, zero_generations_identity RULE30 1 (load_segment_1 main_key Regs.init)
    (by decide)⟩

/-! ## Lemmas: iteration counts, rotations and the word-level generation -/

theorem whileCount_count {σ : Type} (cond : σ → Bool) (body : σ → Option σ) (f : σ → σ)
    (P : Nat → σ → Prop) (n : Nat)
    (hstep : ∀ i s, i < n → P i s → cond s = true ∧ body s = some (f s) ∧ P (i + 1) (f s))
    (hexit : ∀ s, P n s → cond s = false) :
    ∀ (k i : Nat) (s : σ) (fuel : Nat), i + k = n → P i s → k < fuel →
      whileCount cond body fuel s = some k := by
  intro k
  induction k with
  | zero =>
    intro i s fuel hik hP hf
    have hi : i = n := by omega
    subst hi
    obtain ⟨fuel, rfl⟩ : ∃ g, fuel = g + 1 := ⟨fuel - 1, by omega⟩
    simp [whileCount, hexit s hP]
  | succ k ih =>
    intro i s fuel hik hP hf
    obtain ⟨fuel, rfl⟩ : ∃ g, fuel = g + 1 := ⟨fuel - 1, by omega⟩
    obtain ⟨hc, hb, hP1⟩ := hstep i s (by omega) hP
    have := ih (i + 1) (f s) fuel (by omega) hP1 (by omega)
    simp [whileCount, hc, hb, this]

/-- The counting loop returns a count exactly when the loop itself returns a state. -/
theorem whileCount_isSome {σ : Type} (cond : σ → Bool) (body : σ → Option σ) :
    ∀ (fuel : Nat) (s : σ),
      (whileCount cond body fuel s).isSome = (whileLoop cond body fuel s).isSome := by
  intro fuel
  induction fuel with
  | zero => intro s; rfl
  | succ fuel ih =>
    intro s
    by_cases hc : cond s = true
    · cases hb : body s with
      | none => simp [whileCount, whileLoop, hc, hb]
      | some t =>
        have := ih t
        simp [whileCount, whileLoop, hc, hb, this]
    · simp [whileCount, whileLoop, hc]

theorem inner_loop_count_spec (rule fuel : Nat) (s : Regs) (hf : 64 < fuel) :
    inner_loop_count rule fuel s = some 64 :=
  whileCount_count (fun t : Regs => decide ((t.mp &&& INNER_COUNT) < WORDSIZE))
    (fun t => some (inner_iter rule t)) (inner_iter rule)
    (fun c t => t.mp % 256 = c) 64
    (by
      rintro i t hi h1
      obtain ⟨a1, -⟩ := inner_iter_spec rule t (by omega)
      refine ⟨?_, rfl, ?_⟩
      · simp only [and_INNER_COUNT, WORDSIZE, decide_eq_true_eq]; omega
      · omega)
    (by
      rintro t h1
      simp only [and_INNER_COUNT, WORDSIZE, decide_eq_false_iff_not]; omega)
    64 0 { s with mp := s.mp &&& INNER_ZERO } fuel (by omega)
    (by simp only [and_INNER_ZERO]; omega)
    hf

theorem ca_loop_count_spec (rule bound fuel : Nat) (s : Regs) (hb : bound ≤ 65535)
    (hf : 64 < fuel) (hf2 : bound < fuel) :
    ca_loop_count rule bound fuel s = some bound :=
  whileCount_count
    (fun t : Regs => decide (((t.mp &&& OUTER_COUNT) >>> DELTA_COUNT) < bound))
    (fun t => (generation rule fuel t).bind
      (fun u => some { u with mp := add64 u.mp OUTER_ONE }))
    (generation_iter rule fuel)
    (fun i t => t.mp / 256 % 65536 = i ∧ t.mp < 2 ^ 64) bound
    (by
      rintro i t hi ⟨h2, h3⟩
      obtain ⟨u, hu, g1, g2, g3, g4⟩ := generation_spec rule fuel t hf
      have hit : generation_iter rule fuel t = { u with mp := add64 u.mp OUTER_ONE } := by
        simp [generation_iter, hu]
      refine ⟨?_, ?_, ?_, ?_⟩
      · simp only [and_OUTER_COUNT, decide_eq_true_eq]; omega
      · simp [hu, hit]
      · rw [hit]; simp only [add64, WORD, OUTER_ONE]; omega
      · rw [hit]; simp only [add64, WORD, OUTER_ONE]; omega)
    (by
      rintro t ⟨h2, -⟩
      simp only [and_OUTER_COUNT, decide_eq_false_iff_not]; omega)
    bound 0 { s with mp := s.mp &&& OUTER_ZERO } fuel (by omega)
    (by
      simp only [and_OUTER_ZERO]
      refine ⟨by omega, by omega⟩)
    hf2

theorem f_step_total (K : Block) (fuel : Nat) (c : CipherState) (hf : 255 < fuel) :
    ∃ c1, f_step K fuel c = some c1 ∧ c1.r.mp < 2 ^ 64 ∧
      c1.r.mp / 16777216 % 549755813888 = c.r.mp / 16777216 % 549755813888 := by
  obtain ⟨u, hu, -, h2, h3⟩ := ca256_loop_spec RULE30 fuel (load_subkey K c.r) hf
  exact ⟨{ c with r := fold_halves u }, by simp [f_step, f_function, hu], h2, h3⟩

theorem feistel_left_mp (c : CipherState) : (feistel_left c).r.mp = c.r.mp := rfl

theorem feistel_right_mp (c : CipherState) : (feistel_right c).r.mp = c.r.mp := rfl

theorem encrypt_round_total (sk : scheduled_key) (fuel : Nat) (c : CipherState)
    (hf : 255 < fuel) :
    ∃ c1, encrypt_round sk fuel c = some c1 ∧ c1.r.mp < 2 ^ 64 ∧
      c1.r.mp / 16777216 % 549755813888 = c.r.mp / 16777216 % 549755813888 := by
  obtain ⟨a1, e1, -, m1⟩ := f_step_total sk.key_1 fuel c hf
  obtain ⟨a2, e2, -, m2⟩ := f_step_total sk.key_2 fuel (feistel_left a1) hf
  obtain ⟨a3, e3, -, m3⟩ := f_step_total sk.key_3 fuel (feistel_right a2) hf
  obtain ⟨a4, e4, b4, m4⟩ := f_step_total sk.key_4 fuel (feistel_left a3) hf
  refine ⟨feistel_right a4, by simp [encrypt_round, e1, e2, e3, e4], ?_, ?_⟩
  · rw [feistel_right_mp]; exact b4
  · rw [feistel_right_mp, m4, feistel_left_mp, m3, feistel_right_mp, m2, feistel_left_mp, m1]

theorem rounds_loop_count_spec (body : CipherState → Option CipherState)
    (hbody : ∀ c : CipherState, ∃ c1, body c = some c1 ∧ c1.r.mp < 2 ^ 64 ∧
      c1.r.mp / 16777216 % 549755813888 = c.r.mp / 16777216 % 549755813888)
    (fuel : Nat) (c : CipherState) (hf : 16 < fuel) :
    rounds_loop_count body fuel c = some 16 :=
  whileCount_count
    (fun t : CipherState => decide (((t.r.mp &&& ROUNDS_COUNT) >>> DELTA_ROUNDS) < ROUNDS))
    (fun t => (body t).bind
      (fun u => some { u with r := { u.r with mp := add64 u.r.mp ROUNDS_ONE } }))
    (rounds_iter body)
    (fun i t => t.r.mp / 16777216 % 65536 = i ∧ t.r.mp < 2 ^ 64) 16
    (by
      rintro i t hi ⟨h3, h4⟩
      obtain ⟨u, hu, g3, g4⟩ := hbody t
      have hit : rounds_iter body t
          = { u with r := { u.r with mp := add64 u.r.mp ROUNDS_ONE } } := by
        simp [rounds_iter, hu]
      refine ⟨?_, ?_, ?_, ?_⟩
      · simp only [and_ROUNDS_COUNT, ROUNDS, decide_eq_true_eq]; omega
      · simp [hu, hit]
      · rw [hit]; simp only [add64, WORD, ROUNDS_ONE]; omega
      · rw [hit]; simp only [add64, WORD, ROUNDS_ONE]; omega)
    (by
      rintro t ⟨h3, -⟩
      simp only [and_ROUNDS_COUNT, ROUNDS, decide_eq_false_iff_not]; omega)
    16 0 { c with r := { c.r with mp := c.r.mp &&& ROUNDS_ZERO } } fuel (by omega)
    (by
      refine ⟨?_, ?_⟩
      · simp only [and_ROUNDS_ZERO]; omega
      · simp only [and_ROUNDS_ZERO]; omega)
    hf

theorem ror_limb_value (a b : Nat) (ha : a < 2 ^ 64) :
    a >>> RHS_ONE ||| shl (b &&& RHS_ONE) (WORDSIZE - 1)
      = a / 2 + (b % 2) * 9223372036854775808 := by
  rw [shl_and_one, RHS_ONE, Nat.shiftRight_eq_div_pow]
  have := or_disjoint (a / 2 ^ 1) (b % 2) 63 (by omega)
  norm_num at this ⊢
  exact this

theorem rol_limb_value (a b : Nat) (hb : b < 2 ^ 64) :
    shl a RHS_ONE ||| ((b &&& LHS_ONE) >>> (WORDSIZE - 1))
      = (2 * a) % 18446744073709551616 + b / 9223372036854775808 := by
  have h1 : shl a RHS_ONE = ((a % 9223372036854775808)) * 2 ^ 1 := by
    simp only [shl, WORD, RHS_ONE, Nat.shiftLeft_eq]
    omega
  have h2 : (b &&& LHS_ONE) >>> (WORDSIZE - 1) = b / 9223372036854775808 := by
    rw [and_LHS_ONE, WORDSIZE, Nat.shiftRight_eq_div_pow]
    norm_num
    omega
  rw [h1, h2, Nat.or_comm, or_disjoint _ _ 1 (by omega)]
  omega

theorem rotate_right_value (b : Block) (hb : b.wf) :
    (rotate_right b).wf ∧ (rotate_right b).value = rotr256 b.value := by
  obtain ⟨h0, h1, h2, h3⟩ := hb
  simp only [WORD] at h0 h1 h2 h3
  simp only [rotate_right, Block.wf, Block.value, rotr256, WORD,
    ror_limb_value _ _ h0, ror_limb_value _ _ h1, ror_limb_value _ _ h2, ror_limb_value _ _ h3]
  refine ⟨⟨by omega, by omega, by omega, by omega⟩, ?_⟩
  omega

theorem rotate_left_value (b : Block) (hb : b.wf) :
    (rotate_left b).wf ∧ (rotate_left b).value = rotl256 b.value := by
  obtain ⟨h0, h1, h2, h3⟩ := hb
  simp only [WORD] at h0 h1 h2 h3
  simp only [rotate_left, Block.wf, Block.value, rotl256, WORD,
    rol_limb_value _ _ h0, rol_limb_value _ _ h1, rol_limb_value _ _ h2, rol_limb_value _ _ h3]
  refine ⟨⟨by omega, by omega, by omega, by omega⟩, ?_⟩
  omega

theorem Block.value_lt (b : Block) (hb : b.wf) : b.value < 2 ^ 256 := by
  obtain ⟨h0, h1, h2, h3⟩ := hb
  simp only [WORD] at h0 h1 h2 h3
  simp only [Block.value]
  omega

theorem Block.value_inj (a b : Block) (ha : a.wf) (hb : b.wf) (h : a.value = b.value) :
    a = b := by
  obtain ⟨a0, a1, a2, a3⟩ := ha
  obtain ⟨b0, b1, b2, b3⟩ := hb
  simp only [WORD] at a0 a1 a2 a3 b0 b1 b2 b3
  simp only [Block.value] at h
  cases a; cases b
  simp only [Block.mk.injEq]
  simp only at a0 a1 a2 a3 b0 b1 b2 b3 h
  refine ⟨by omega, by omega, by omega, by omega⟩

theorem rotl256_rotr256 (N : Nat) (h : N < 2 ^ 256) : rotl256 (rotr256 N) = N := by
  simp only [rotl256, rotr256]
  have hr : N % 2 = 0 ∨ N % 2 = 1 := by omega
  rcases hr with hr | hr <;> rw [hr] <;> omega

theorem rotr256_rotl256 (N : Nat) (h : N < 2 ^ 256) : rotr256 (rotl256 N) = N := by
  simp only [rotl256, rotr256]
  have hr : N / 2 ^ 255 = 0 ∨ N / 2 ^ 255 = 1 := by omega
  rcases hr with hr | hr <;> rw [hr] <;> omega

theorem rotate_left_right (b : Block) (hb : b.wf) : rotate_left (rotate_right b) = b := by
  obtain ⟨w1, v1⟩ := rotate_right_value b hb
  obtain ⟨w2, v2⟩ := rotate_left_value _ w1
  apply Block.value_inj _ _ w2 hb
  rw [v2, v1, rotl256_rotr256 _ (Block.value_lt b hb)]

theorem rotate_right_left (b : Block) (hb : b.wf) : rotate_right (rotate_left b) = b := by
  obtain ⟨w1, v1⟩ := rotate_left_value b hb
  obtain ⟨w2, v2⟩ := rotate_right_value _ w1
  apply Block.value_inj _ _ w2 hb
  rw [v2, v1, rotr256_rotl256 _ (Block.value_lt b hb)]

theorem inner_body_input (rule : Nat) (s : Regs) :
    (inner_body rule s).input = rotate_right s.input := by
  have hmp : (inner_body rule s).mp
      = s.mp % 9223372036854775808 + (s.key_in_reg4 % 2) * 9223372036854775808 := by
    simp only [inner_body, shl_and_one, set_carry]
  have hcar : (inner_body rule s).mp &&& LHS_ONE
      = shl (s.key_in_reg4 &&& RHS_ONE) (WORDSIZE - 1) := by
    rw [and_LHS_ONE, hmp, shl_and_one]
    omega
  have h1 : (inner_body rule s).key_in_reg1
      = s.key_in_reg1 >>> RHS_ONE ||| ((inner_body rule s).mp &&& LHS_ONE) := rfl
  simp only [Regs.input, rotate_right, h1, hcar]
  rfl

theorem Block.value_testBit (b : Block) (hb : b.wf) (j : Nat) :
    b.value.testBit j
      = if j < 64 then b.w3.testBit j
        else if j < 128 then b.w2.testBit (j - 64)
        else if j < 192 then b.w1.testBit (j - 128)
        else b.w0.testBit (j - 192) := by
  obtain ⟨h0, h1, h2, h3⟩ := hb
  simp only [WORD] at h0 h1 h2 h3
  have e : b.value = 2 ^ 64 * (2 ^ 64 * (2 ^ 64 * b.w0 + b.w1) + b.w2) + b.w3 := by
    simp only [Block.value]; ring
  rw [e, Nat.testBit_mul_pow_two_add _ h3]
  by_cases c1 : j < 64
  · simp [c1]
  · rw [if_neg c1, if_neg c1, Nat.testBit_mul_pow_two_add _ h2]
    by_cases c2 : j < 128
    · have : j - 64 < 64 := by omega
      simp [c2, this]
    · have n2 : ¬ (j - 64 < 64) := by omega
      rw [if_neg c2, if_neg n2, Nat.testBit_mul_pow_two_add _ h1]
      by_cases c3 : j < 192
      · have l3 : j - 64 - 64 < 64 := by omega
        have e2 : j - 64 - 64 = j - 128 := by omega
        rw [if_pos c3, if_pos l3, e2]
      · have n3 : ¬ (j - 64 - 64 < 64) := by omega
        have e3 : j - 64 - 64 - 64 = j - 192 := by omega
        rw [if_neg c3, if_neg n3, e3]

theorem Block.bit_eq_value_testBit (b : Block) (hb : b.wf) (i : Nat) (hi : i < 256) :
    b.bit i = b.value.testBit (255 - i) := by
  rw [Block.value_testBit b hb]
  unfold Block.bit
  obtain ⟨k, r, hk, hr, rfl⟩ : ∃ k r, k < 4 ∧ r < 64 ∧ i = 64 * k + r :=
    ⟨i / 64, i % 64, by omega, by omega, by omega⟩
  have h1 : (64 * k + r) / 64 = k := by omega
  have h2 : (64 * k + r) % 64 = r := by omega
  rw [h1, h2]
  interval_cases k
  · have a : ¬ (255 - (64 * 0 + r) < 64) := by omega
    have b' : ¬ (255 - (64 * 0 + r) < 128) := by omega
    have c : ¬ (255 - (64 * 0 + r) < 192) := by omega
    have d : 255 - (64 * 0 + r) - 192 = 63 - r := by omega
    simp only [Block.limb, if_neg a, if_neg b', if_neg c, d]
  · have a : ¬ (255 - (64 * 1 + r) < 64) := by omega
    have b' : ¬ (255 - (64 * 1 + r) < 128) := by omega
    have c : (255 - (64 * 1 + r) < 192) := by omega
    have d : 255 - (64 * 1 + r) - 128 = 63 - r := by omega
    simp only [Block.limb, if_neg a, if_neg b', if_pos c, d]
  · have a : ¬ (255 - (64 * 2 + r) < 64) := by omega
    have b' : (255 - (64 * 2 + r) < 128) := by omega
    have d : 255 - (64 * 2 + r) - 64 = 63 - r := by omega
    simp only [Block.limb, if_neg a, if_pos b', d]
  · have a : (255 - (64 * 3 + r) < 64) := by omega
    have d : 255 - (64 * 3 + r) = 63 - r := by omega
    simp only [Block.limb, if_pos a]
    rw [d]

theorem rotr256_testBit (N : Nat) (h : N < 2 ^ 256) (j : Nat) (hj : j < 256) :
    (rotr256 N).testBit j = N.testBit ((j + 1) % 256) := by
  have e : rotr256 N = 2 ^ 255 * (N % 2) + N / 2 := by
    simp only [rotr256]; ring
  rw [e, Nat.testBit_mul_pow_two_add _ (by omega : N / 2 < 2 ^ 255)]
  by_cases c : j < 255
  · have : (j + 1) % 256 = j + 1 := by omega
    rw [if_pos c, this, Nat.testBit_div_two]
  · have hj' : j = 255 := by omega
    subst hj'
    simp only [lt_self_iff_false, if_false, Nat.sub_self]
    have : (255 + 1) % 256 = 0 := by norm_num
    rw [this, Nat.testBit_zero, Nat.testBit_zero]
    simp

theorem rotl256_testBit (N : Nat) (h : N < 2 ^ 256) (j : Nat) (hj : j < 256) :
    (rotl256 N).testBit j = N.testBit ((j + 255) % 256) := by
  have e : rotl256 N = 2 ^ 1 * (N % 2 ^ 255) + N / 2 ^ 255 := by
    simp only [rotl256]; omega
  rw [e, Nat.testBit_mul_pow_two_add _ (by omega : N / 2 ^ 255 < 2 ^ 1)]
  by_cases c : j < 1
  · have hj' : j = 0 := by omega
    subst hj'
    have : (0 + 255) % 256 = 255 := by norm_num
    rw [if_pos c, this, ← Nat.shiftRight_eq_div_pow, Nat.testBit_shiftRight]
  · have : (j + 255) % 256 = j - 1 := by omega
    have l : j - 1 < 255 := by omega
    rw [if_neg c, this, Nat.testBit_mod_two_pow]
    simp [l]

theorem rule30_bits (a b c : Bool) :
    RULE30.testBit (4 * a.toNat + 2 * b.toNat + c.toNat) = Bool.xor a (b || c) := by
  cases a <;> cases b <;> cases c <;> decide

theorem rotr256_lt (N : Nat) (h : N < 2 ^ 256) : rotr256 N < 2 ^ 256 := by
  simp only [rotr256]; omega

theorem rotl256_lt (N : Nat) (h : N < 2 ^ 256) : rotl256 N < 2 ^ 256 := by
  simp only [rotl256]; omega

theorem step256_lt (N : Nat) (h : N < 2 ^ 256) : step256 N < 2 ^ 256 :=
  Nat.xor_lt_two_pow (rotr256_lt N h) (Nat.or_lt_two_pow h (rotl256_lt N h))

theorem ca_step_value (R : Block) (hR : R.wf) :
    (ca_step RULE30 R).wf ∧ (ca_step RULE30 R).value = step256 R.value := by
  have hw := (ca_step_limbs RULE30 R hR).1
  refine ⟨hw, ?_⟩
  have hN := Block.value_lt R hR
  apply Nat.eq_of_testBit_eq
  intro j
  by_cases hj : j < 256
  · have i1 : 255 - j < 256 := by omega
    have b1 := Block.bit_eq_value_testBit _ hw (255 - j) i1
    have e0 : 255 - (255 - j) = j := by omega
    rw [e0] at b1
    rw [← b1, ca_step_bit RULE30 R hR _ i1, rule30_bits,
      Block.bit_eq_value_testBit R hR _ (Nat.mod_lt _ (by norm_num)),
      Block.bit_eq_value_testBit R hR _ i1,
      Block.bit_eq_value_testBit R hR _ (Nat.mod_lt _ (by norm_num)), e0]
    simp only [step256, Nat.testBit_xor, Nat.testBit_or, rotr256_testBit _ hN j hj,
      rotl256_testBit _ hN j hj]
    have e1 : 255 - (255 - j + 255) % 256 = (j + 1) % 256 := by omega
    have e2 : 255 - (255 - j + 1) % 256 = (j + 255) % 256 := by omega
    rw [e1, e2]
  · have big : (2 : Nat) ^ 256 ≤ 2 ^ j := Nat.pow_le_pow_right (by norm_num) (by omega)
    rw [Nat.testBit_lt_two_pow (lt_of_lt_of_le (Block.value_lt _ hw) big),
      Nat.testBit_lt_two_pow (lt_of_lt_of_le (step256_lt _ hN) big)]

theorem evolve_value (n : Nat) (R : Block) (hR : R.wf) :
    (evolve RULE30 n R).wf ∧ (evolve RULE30 n R).value = step256^[n] R.value := by
  induction n with
  | zero => exact ⟨hR, rfl⟩
  | succ n ih =>
    have e : evolve RULE30 (n + 1) R = ca_step RULE30 (evolve RULE30 n R) := by
      simp only [evolve, Function.iterate_succ_apply']
    obtain ⟨w, v⟩ := ca_step_value _ ih.1
    rw [e]
    refine ⟨w, ?_⟩
    rw [v, ih.2, Function.iterate_succ_apply']

theorem eq_of_testBit_lt (x y : Nat) (hx : x < 2 ^ 64) (hy : y < 2 ^ 64)
    (h : ∀ e, e < 64 → x.testBit e = y.testBit e) : x = y := by
  apply Nat.eq_of_testBit_eq
  intro e
  by_cases he : e < 64
  · exact h e he
  · have big : (2 : Nat) ^ 64 ≤ 2 ^ e := Nat.pow_le_pow_right (by norm_num) (by omega)
    rw [Nat.testBit_lt_two_pow (lt_of_lt_of_le hx big),
      Nat.testBit_lt_two_pow (lt_of_lt_of_le hy big)]

theorem ca_step_halves_equal (rule : Nat) (A : Block) (hA : A.wf) (h : A.halves_equal) :
    (ca_step rule A).halves_equal := by
  obtain ⟨hw, hb⟩ := ca_step_limbs rule A hA
  obtain ⟨w0, w1, w2, w3⟩ := hw
  simp only [WORD] at w0 w1 w2 w3
  obtain ⟨e0, e1⟩ := h
  constructor
  · apply eq_of_testBit_lt _ _ w0 w2
    intro e he
    obtain ⟨b0, -, b2, -⟩ := hb e he
    rw [b0, b2, e0, e1]
  · apply eq_of_testBit_lt _ _ w1 w3
    intro e he
    obtain ⟨-, b1, -, b3⟩ := hb e he
    rw [b1, b3, e0, e1]

theorem evolve_halves_equal (rule n : Nat) (A : Block) (hA : A.wf) (h : A.halves_equal) :
    (evolve rule n A).wf ∧ (evolve rule n A).halves_equal := by
  induction n with
  | zero => exact ⟨hA, h⟩
  | succ n ih =>
    have e : evolve rule (n + 1) A = ca_step rule (evolve rule n A) := by
      simp only [evolve, Function.iterate_succ_apply']
    rw [e]
    exact ⟨(ca_step_limbs rule _ ih.1).1, ca_step_halves_equal rule _ ih.1 ih.2⟩

theorem round_function_degenerate (K : Block) (V : Nat × Nat) (hK : K.wf)
    (hKe : K.halves_equal) (h1 : V.1 < 2 ^ 64) (h2 : V.2 < 2 ^ 64) :
    round_function K V = (0, 0) := by
  obtain ⟨k0, k1, k2, k3⟩ := hK
  simp only [WORD] at k0 k1 k2 k3
  obtain ⟨e0, e1⟩ := hKe
  have hw : (⟨V.1 ^^^ K.w0, V.2 ^^^ K.w1, V.1 ^^^ K.w2, V.2 ^^^ K.w3⟩ : Block).wf :=
    ⟨Nat.xor_lt_two_pow h1 k0, Nat.xor_lt_two_pow h2 k1, Nat.xor_lt_two_pow h1 k2,
      Nat.xor_lt_two_pow h2 k3⟩
  have he : (⟨V.1 ^^^ K.w0, V.2 ^^^ K.w1, V.1 ^^^ K.w2, V.2 ^^^ K.w3⟩ : Block).halves_equal :=
    ⟨by simp only [e0], by simp only [e1]⟩
  obtain ⟨-, a, b⟩ := evolve_halves_equal RULE30 CA256 _ hw he
  simp only [round_function]
  rw [a, b, Nat.xor_self, Nat.xor_self]

theorem feistel_round_degenerate (sk : scheduled_key) (hsk : sk.degenerate)
    (p : (Nat × Nat) × (Nat × Nat)) (h1 : p.1.1 < 2 ^ 64) (h2 : p.1.2 < 2 ^ 64)
    (h3 : p.2.1 < 2 ^ 64) (h4 : p.2.2 < 2 ^ 64) :
    feistel_round sk p = p := by
  obtain ⟨⟨a1, b1⟩, ⟨a2, b2⟩, ⟨a3, b3⟩, ⟨a4, b4⟩⟩ := hsk
  have z : ∀ q : Nat × Nat, xor_half q (0, 0) = q := by
    intro q; simp [xor_half]
  simp only [feistel_round]
  rw [round_function_degenerate _ _ a1 b1 h3 h4, z,
    round_function_degenerate _ _ a2 b2 h1 h2, z,
    round_function_degenerate _ _ a3 b3 h3 h4, z,
    round_function_degenerate _ _ a4 b4 h1 h2, z]

theorem feistel_encrypt_degenerate (sk : scheduled_key) (hsk : sk.degenerate) (P : Block)
    (hP : P.wf) : feistel_encrypt sk P = ⟨P.w2, P.w3, P.w0, P.w1⟩ := by
  obtain ⟨p0, p1, p2, p3⟩ := hP
  simp only [WORD] at p0 p1 p2 p3
  have hfix : feistel_round sk ((P.w0, P.w1), (P.w2, P.w3)) = ((P.w0, P.w1), (P.w2, P.w3)) :=
    feistel_round_degenerate sk hsk _ p0 p1 p2 p3
  simp only [feistel_encrypt, Function.iterate_fixed hfix]

theorem popcount_zero : popcount 0 = 0 := by decide

theorem popcount_two_pow : ∀ e, e < 64 → popcount (2 ^ e) = 1 := by decide

theorem xor_xor_cancel (x y : Nat) : x ^^^ (x ^^^ y) = y := by
  rw [← Nat.xor_assoc, Nat.xor_self, Nat.zero_xor]

theorem hamming_flip_swapped (P : Block) (i : Nat) (hi : i < 256) :
    hamming ⟨P.w2, P.w3, P.w0, P.w1⟩
      ⟨(flip_bit P i).w2, (flip_bit P i).w3, (flip_bit P i).w0, (flip_bit P i).w1⟩ = 1 := by
  have he : 63 - i % 64 < 64 := by omega
  have hp := popcount_two_pow _ he
  have hk : i / 64 = 0 ∨ i / 64 = 1 ∨ i / 64 = 2 ∨ i / 64 = 3 := by omega
  rcases hk with hk | hk | hk | hk <;>
    simp only [flip_bit, hk, hamming, Nat.xor_self, xor_xor_cancel, popcount_zero, hp]

theorem flip_bit_wf (P : Block) (hP : P.wf) (i : Nat) : (flip_bit P i).wf := by
  obtain ⟨p0, p1, p2, p3⟩ := hP
  simp only [WORD] at p0 p1 p2 p3
  have hb : (2 : Nat) ^ (63 - i % 64) < 2 ^ 64 := Nat.pow_lt_pow_right (by norm_num) (by omega)
  unfold flip_bit
  split <;> simp only [Block.wf, WORD] <;>
    refine ⟨?_, ?_, ?_, ?_⟩ <;> first | assumption | exact Nat.xor_lt_two_pow (by assumption) hb

/-! ## The claims, continued -/

/-- C11 (rule table). For every neighbourhood value `n` of `0..7` the lookup
`(RULE30 >> n) & RHS_ONE` returns the rule-30 table `0,1,1,1,1,0,0,0` (for `n = 0..7`), and
that value is `left XOR (center OR right)` with `left`, `center`, `right` the bits 2, 1, 0
of `n`. -/
theorem rule30_table (n : Nat) (hn : n < 8) :
    rule_table RULE30 n = [0, 1, 1, 1, 1, 0, 0, 0].getD n 0 ∧
    rule_table RULE30 n
      = (Bool.xor (n.testBit 2) (n.testBit 1 || n.testBit 0)).toNat := by
  interval_cases n <;> decide

/-- Witness of C11 at the neighbourhood value 4 (left cell set only). -/
theorem rule30_table_four :
    4 < 8 ∧ rule_table RULE30 4 = [0, 1, 1, 1, 1, 0, 0, 0].getD 4 0 ∧
    rule_table RULE30 4
      = (Bool.xor (Nat.testBit 4 2) (Nat.testBit 4 1 || Nat.testBit 4 0)).toNat :=
  ⟨by decide, rule30_table 4 (by decide)⟩

/-- C14 (determinism of the key schedule). For every master key, any two runs of
`xr30256_key_schedule` with enough fuel return the same scheduled key, and that key is a
function of the four key words alone. -/
theorem key_schedule_deterministic (fuel1 fuel2 : Nat) (K : Block) (h1 : 255 < fuel1)
    (h2 : 255 < fuel2) :
    ∃ sk, xr30256_key_schedule fuel1 K = some sk ∧ xr30256_key_schedule fuel2 K = some sk ∧
      sk = { key_1 := evolve RULE30 CA256 (load_segment_1 ⟨K.w0, K.w1, K.w2, K.w3⟩ Regs.init).input,
             key_2 := evolve RULE30 CA256 (load_segment_2 ⟨K.w0, K.w1, K.w2, K.w3⟩ Regs.init).input,
             key_3 := evolve RULE30 CA256 (load_segment_3 ⟨K.w0, K.w1, K.w2, K.w3⟩ Regs.init).input,
             key_4 := evolve RULE30 CA256 (load_segment_4 ⟨K.w0, K.w1, K.w2, K.w3⟩ Regs.init).input } :=
  ⟨_, xr30256_key_schedule_spec fuel1 K h1, xr30256_key_schedule_spec fuel2 K h2, rfl⟩

/-- Witness of C14 at the key of `main`, with two different amounts of fuel. -/
theorem key_schedule_deterministic_main :
    255 < 256 ∧ 255 < 300 ∧
    ∃ sk, xr30256_key_schedule 256 main_key = some sk ∧
      xr30256_key_schedule 300 main_key = some sk ∧
      sk = { key_1 := evolve RULE30 CA256
               (load_segment_1 ⟨main_key.w0, main_key.w1, main_key.w2, main_key.w3⟩ Regs.init).input,
             key_2 := evolve RULE30 CA256
               (load_segment_2 ⟨main_key.w0, main_key.w1, main_key.w2, main_key.w3⟩ Regs.init).input,
             key_3 := evolve RULE30 CA256
               (load_segment_3 ⟨main_key.w0, main_key.w1, main_key.w2, main_key.w3⟩ Regs.init).input,
             key_4 := evolve RULE30 CA256
               (load_segment_4 ⟨main_key.w0, main_key.w1, main_key.w2, main_key.w3⟩ Regs.init).input } :=
  ⟨by decide, by decide, key_schedule_deterministic 256 300 main_key (by decide) (by decide)⟩

theorem scheduled_key.reversed_reversed (sk : scheduled_key) : sk.reversed.reversed = sk := rfl

/-- C18 (inverse bijections for any scheduled key). For every four subkeys `sk`, derived
from a master key or not, and every block `B`, encryption followed by decryption returns
`B`, and decryption followed by encryption returns `B`. -/
theorem encrypt_decrypt_inverse (fuel : Nat) (sk : scheduled_key) (B : Block)
    (hf : 255 < fuel) :
    (∃ C, xr30256_encrypt fuel sk B = some C ∧ xr30256_decrypt fuel sk C = some B) ∧
    (∃ P, xr30256_decrypt fuel sk B = some P ∧ xr30256_encrypt fuel sk P = some B) := by
  constructor
  · refine ⟨_, xr30256_encrypt_spec fuel sk B hf, ?_⟩
    rw [xr30256_decrypt_reversed, xr30256_encrypt_spec fuel _ _ hf, feistel_roundtrip]
  · refine ⟨_, (xr30256_decrypt_reversed fuel sk B).trans
      (xr30256_encrypt_spec fuel _ B hf), ?_⟩
    rw [xr30256_encrypt_spec fuel _ _ hf]
    have := feistel_roundtrip sk.reversed B
    rw [scheduled_key.reversed_reversed] at this
    rw [this]

/-- Witness of C18 at a scheduled key that no master key need produce, made of the words
set in `main`. -/
theorem encrypt_decrypt_inverse_main :
    255 < 256 ∧
    (∃ C, xr30256_encrypt 256 ⟨main_key, main_plaintext, main_key, main_plaintext⟩
        main_plaintext = some C ∧
      xr30256_decrypt 256 ⟨main_key, main_plaintext, main_key, main_plaintext⟩ C
        = some main_plaintext) ∧
    (∃ P, xr30256_decrypt 256 ⟨main_key, main_plaintext, main_key, main_plaintext⟩
        main_plaintext = some P ∧
      xr30256_encrypt 256 ⟨main_key, main_plaintext, main_key, main_plaintext⟩ P
        = some main_plaintext) :=
  ⟨by decide, encrypt_decrypt_inverse 256 ⟨main_key, main_plaintext, main_key, main_plaintext⟩
    main_plaintext (by decide)⟩

theorem decrypt_round_total (sk : scheduled_key) (fuel : Nat) (c : CipherState)
    (hf : 255 < fuel) :
    ∃ c1, decrypt_round sk fuel c = some c1 ∧ c1.r.mp < 2 ^ 64 ∧
      c1.r.mp / 16777216 % 549755813888 = c.r.mp / 16777216 % 549755813888 :=
  encrypt_round_total sk.reversed fuel c hf

/-- C19 (carry threading). Read the four limbs as one 256-bit number, limb 1 most
significant.  For every state whose input and output registers are 64-bit words: the
rotate-right sequence of the inner loop maps the input register `N` to `N/2 + (N mod 2) *
2^255`, whose bit `j` is bit `j+1` of `N` modulo 256 (a circular right rotation by one
bit); the rotate-left sequence maps the output register `M` to `2M mod 2^256 + M / 2^255`,
whose bit `j` is bit `j-1` of `M` modulo 256 (a circular left rotation by one bit); and
each sequence undoes the other. -/
theorem carry_threading (rule : Nat) (s : Regs) (hin : s.input.wf) (hout : s.output.wf) :
    (inner_body rule s).input.wf ∧
    (inner_body rule s).input.value = s.input.value / 2 + (s.input.value % 2) * 2 ^ 255 ∧
    (∀ j, j < 256 →
      (inner_body rule s).input.value.testBit j = s.input.value.testBit ((j + 1) % 256)) ∧
    (rotate_and_swap s).input.wf ∧
    (rotate_and_swap s).input.value
      = (2 * s.output.value) % 2 ^ 256 + s.output.value / 2 ^ 255 ∧
    (∀ j, j < 256 →
      (rotate_and_swap s).input.value.testBit j
        = s.output.value.testBit ((j + 255) % 256)) ∧
    (∀ t : Regs, t.output = (inner_body rule s).input →
      (rotate_and_swap t).input = s.input) ∧
    (∀ t : Regs, t.input = (rotate_and_swap s).input →
      (inner_body rule t).input = s.output) := by
  obtain ⟨w1, v1⟩ := rotate_right_value s.input hin
  obtain ⟨w2, v2⟩ := rotate_left_value s.output hout
  have e1 := inner_body_input rule s
  have e2 := (rotate_and_swap_spec s).1
  refine ⟨e1 ▸ w1, ?_, ?_, e2 ▸ w2, ?_, ?_, ?_, ?_⟩
  · rw [e1, v1]; rfl
  · intro j hj
    rw [e1, v1, rotr256_testBit _ (Block.value_lt _ hin) j hj]
  · rw [e2, v2]; rfl
  · intro j hj
    rw [e2, v2, rotl256_testBit _ (Block.value_lt _ hout) j hj]
  · intro t ht
    rw [(rotate_and_swap_spec t).1, ht, e1, rotate_left_right _ hin]
  · intro t ht
    rw [inner_body_input, ht, e2, rotate_right_left _ hout]

/-- Witness of C19 at the first mixing vector of the key of `main`, the output registers
being zero. -/
theorem carry_threading_main :
    (load_segment_1 main_key Regs.init).input.wf ∧
    (load_segment_1 main_key Regs.init).output.wf ∧
    (inner_body RULE30 (load_segment_1 main_key Regs.init)).input.wf ∧
    (inner_body RULE30 (load_segment_1 main_key Regs.init)).input.value
      = (load_segment_1 main_key Regs.init).input.value / 2
        + ((load_segment_1 main_key Regs.init).input.value % 2) * 2 ^ 255 ∧
    (∀ j, j < 256 →
      (inner_body RULE30 (load_segment_1 main_key Regs.init)).input.value.testBit j
        = (load_segment_1 main_key Regs.init).input.value.testBit ((j + 1) % 256)) ∧
    (rotate_and_swap (load_segment_1 main_key Regs.init)).input.wf ∧
    (rotate_and_swap (load_segment_1 main_key Regs.init)).input.value
      = (2 * (load_segment_1 main_key Regs.init).output.value) % 2 ^ 256
        + (load_segment_1 main_key Regs.init).output.value / 2 ^ 255 ∧
    (∀ j, j < 256 →
      (rotate_and_swap (load_segment_1 main_key Regs.init)).input.value.testBit j
        = (load_segment_1 main_key Regs.init).output.value.testBit ((j + 255) % 256)) ∧
    (∀ t : Regs, t.output = (inner_body RULE30 (load_segment_1 main_key Regs.init)).input →
      (rotate_and_swap t).input = (load_segment_1 main_key Regs.init).input) ∧
    (∀ t : Regs, t.input = (rotate_and_swap (load_segment_1 main_key Regs.init)).input →
      (inner_body RULE30 t).input = (load_segment_1 main_key Regs.init).output) :=
  ⟨by decide, by decide,
    carry_threading RULE30 (load_segment_1 main_key Regs.init) (by decide) (by decide)⟩

/-- C20 (word-level form of the generation). For every state whose input register `R` is
four 64-bit words, one pass of the generation-loop body (the 64-iteration inner loop and
the final left rotation) returns the register whose 256-bit value is
`ROTR1(R) XOR (R OR ROTL1(R))`, the rotations being circular rotations of the whole
256-bit value by one bit. -/
theorem generation_word_level (fuel : Nat) (s : Regs) (hf : 64 < fuel) (hs : s.input.wf) :
    ∃ t, generation RULE30 fuel s = some t ∧ t.input.wf ∧
      t.input.value
        = rotr256 s.input.value ^^^ (s.input.value ||| rotl256 s.input.value) := by
  obtain ⟨t, ht, h1, -⟩ := generation_spec RULE30 fuel s hf
  obtain ⟨w, v⟩ := ca_step_value s.input hs
  exact ⟨t, ht, h1 ▸ w, by rw [h1, v]; rfl⟩

/-- Witness of C20 at the first mixing vector of the key of `main`. -/
theorem generation_word_level_main :
    64 < 65 ∧ (load_segment_1 main_key Regs.init).input.wf ∧
    ∃ t, generation RULE30 65 (load_segment_1 main_key Regs.init) = some t ∧ t.input.wf ∧
      t.input.value
        = rotr256 (load_segment_1 main_key Regs.init).input.value
          ^^^ ((load_segment_1 main_key Regs.init).input.value
            ||| rotl256 (load_segment_1 main_key Regs.init).input.value) :=
  ⟨by decide, by decide,
    generation_word_level 65 (load_segment_1 main_key Regs.init) (by decide) (by decide)⟩

theorem main_vector_255_ne_512 :
    step256^[255] (load_segment_1 main_key Regs.init).input.value
      ≠ step256^[512] (load_segment_1 main_key Regs.init).input.value := by
  decide

/-- C12 (the header's 512 iterations), evaluated on the code: on the first mixing vector
of the key of `main` the CA256 loop runs its body 255 times, returns the register after
255 generations of rule 30, and that register differs from the one 512 generations
give. -/
theorem ca256_runs_255_not_512 :
    ∃ t, ca256_loop RULE30 256 (load_segment_1 main_key Regs.init) = some t ∧
      ca_loop_count RULE30 CA256 256 (load_segment_1 main_key Regs.init) = some 255 ∧
      t.input = evolve RULE30 255 (load_segment_1 main_key Regs.init).input ∧
      t.input ≠ evolve RULE30 512 (load_segment_1 main_key Regs.init).input := by
  obtain ⟨t, ht, hi, -⟩ :=
    ca256_loop_spec RULE30 256 (load_segment_1 main_key Regs.init) (by decide)
  have hw : (load_segment_1 main_key Regs.init).input.wf := by decide
  refine ⟨t, ht, ca_loop_count_spec RULE30 CA256 256 _ (by decide) (by decide) (by decide),
    hi, ?_⟩
  rw [hi]
  intro h
  have h2 := congrArg Block.value h
  have a := (evolve_value 255 _ hw).2
  have b := (evolve_value 512 _ hw).2
  have c : evolve RULE30 CA256 (load_segment_1 main_key Regs.init).input
      = evolve RULE30 255 (load_segment_1 main_key Regs.init).input := rfl
  rw [c, a, b] at h2
  exact main_vector_255_ne_512 h2

theorem zero_key_degenerate (fuel : Nat) (hf : 255 < fuel) :
    ∃ sk, xr30256_key_schedule fuel ⟨0, 0, 0, 0⟩ = some sk ∧ sk.degenerate := by
  refine ⟨_, xr30256_key_schedule_spec fuel ⟨0, 0, 0, 0⟩ hf, ?_⟩
  have z : (evolve RULE30 CA256 ⟨0, 0, 0, 0⟩).wf
      ∧ (evolve RULE30 CA256 ⟨0, 0, 0, 0⟩).halves_equal :=
    evolve_halves_equal RULE30 CA256 ⟨0, 0, 0, 0⟩ (by decide) (by decide)
  have e1 : (load_segment_1 ⟨0, 0, 0, 0⟩ Regs.init).input = ⟨0, 0, 0, 0⟩ := by decide
  have e2 : (load_segment_2 ⟨0, 0, 0, 0⟩ Regs.init).input = ⟨0, 0, 0, 0⟩ := by decide
  have e3 : (load_segment_3 ⟨0, 0, 0, 0⟩ Regs.init).input = ⟨0, 0, 0, 0⟩ := by decide
  have e4 : (load_segment_4 ⟨0, 0, 0, 0⟩ Regs.init).input = ⟨0, 0, 0, 0⟩ := by decide
  rw [e1, e2, e3, e4]
  simp only [scheduled_key.degenerate]
  refine ⟨?_, ?_, ?_, ?_⟩ <;> exact z

theorem degenerate_flip (fuel : Nat) (sk : scheduled_key) (P : Block) (i : Nat)
    (hf : 255 < fuel) (hsk : sk.degenerate) (hP : P.wf) (hi : i < 256) :
    ∃ C D, xr30256_encrypt fuel sk P = some C ∧
      xr30256_encrypt fuel sk (flip_bit P i) = some D ∧ hamming C D = 1 := by
  refine ⟨_, _, xr30256_encrypt_spec fuel sk P hf,
    xr30256_encrypt_spec fuel sk (flip_bit P i) hf, ?_⟩
  rw [feistel_encrypt_degenerate sk hsk P hP,
    feistel_encrypt_degenerate sk hsk _ (flip_bit_wf P hP i)]
  exact hamming_flip_swapped P i hi

/-- Counterexample to C16: under the scheduled key of the all-zero master key, flipping
any single bit of any plaintext changes exactly one ciphertext bit, so the average over
the plaintexts and the 256 positions is 1 bit and not more than 64. -/
theorem avalanche_fails_zero_key :
    ∃ sk, xr30256_key_schedule 256 ⟨0, 0, 0, 0⟩ = some sk ∧
      ∀ P : Block, P.wf → ∀ i, i < 256 →
        ∃ C D, xr30256_encrypt 256 sk P = some C ∧
          xr30256_encrypt 256 sk (flip_bit P i) = some D ∧ hamming C D = 1 := by
  obtain ⟨sk, h1, h2⟩ := zero_key_degenerate 256 (by decide)
  exact ⟨sk, h1, fun P hP i hi => degenerate_flip 256 sk P i (by decide) h2 hP hi⟩

theorem encrypt_words_cons (fuel : Nat) (sk : scheduled_key) (a b c d : Nat)
    (rest : List Nat) :
    xr30256_encrypt_words fuel sk (a :: b :: c :: d :: rest)
      = xr30256_encrypt fuel sk ⟨a, b, c, d⟩ := rfl

theorem decrypt_words_cons (fuel : Nat) (sk : scheduled_key) (a b c d : Nat)
    (rest : List Nat) :
    xr30256_decrypt_words fuel sk (a :: b :: c :: d :: rest)
      = xr30256_decrypt fuel sk ⟨a, b, c, d⟩ := rfl

theorem key_schedule_words_cons (fuel : Nat) (a b c d : Nat) (rest : List Nat) :
    xr30256_key_schedule_words fuel (a :: b :: c :: d :: rest)
      = xr30256_key_schedule fuel ⟨a, b, c, d⟩ := rfl

/-- Counterexample to C17: called on an array of five words (320 bits) holding the
plaintext of `main` followed by one more word, `xr30256_encrypt` does not fail: it returns
the ciphertext of the first four words. -/
theorem no_length_check :
    ∃ C, xr30256_encrypt_words 256 ⟨main_key, main_plaintext, main_key, main_plaintext⟩
        [0x0101010101010101, 0x0202020202020202, 0x0303030303030303, 0x0404040404040404,
          0x0505050505050505] = some C ∧
      xr30256_encrypt 256 ⟨main_key, main_plaintext, main_key, main_plaintext⟩ main_plaintext
        = some C := by
  rw [encrypt_words_cons]
  exact ⟨_, xr30256_encrypt_spec 256 _ main_plaintext (by decide),
    xr30256_encrypt_spec 256 _ main_plaintext (by decide)⟩

/-- C17 as amended (no length validation). The three functions take a pointer to 64-bit
words and no length: called with enough fuel on any array of at least four words they read
the first four words, ignore the rest, and return the result for those four words; no call
on such an array fails. -/
theorem words_first_four (fuel : Nat) (sk : scheduled_key) (a b c d : Nat) (rest : List Nat)
    (hf : 255 < fuel) :
    (∃ k, xr30256_key_schedule_words fuel (a :: b :: c :: d :: rest) = some k ∧
      xr30256_key_schedule fuel ⟨a, b, c, d⟩ = some k) ∧
    (∃ C, xr30256_encrypt_words fuel sk (a :: b :: c :: d :: rest) = some C ∧
      xr30256_encrypt fuel sk ⟨a, b, c, d⟩ = some C) ∧
    (∃ P, xr30256_decrypt_words fuel sk (a :: b :: c :: d :: rest) = some P ∧
      xr30256_decrypt fuel sk ⟨a, b, c, d⟩ = some P) := by
  rw [key_schedule_words_cons, encrypt_words_cons, decrypt_words_cons]
  exact ⟨⟨_, xr30256_key_schedule_spec fuel ⟨a, b, c, d⟩ hf,
      xr30256_key_schedule_spec fuel ⟨a, b, c, d⟩ hf⟩,
    ⟨_, xr30256_encrypt_spec fuel sk ⟨a, b, c, d⟩ hf,
      xr30256_encrypt_spec fuel sk ⟨a, b, c, d⟩ hf⟩,
    ⟨_, (xr30256_decrypt_reversed fuel sk ⟨a, b, c, d⟩).trans
        (xr30256_encrypt_spec fuel _ ⟨a, b, c, d⟩ hf),
      (xr30256_decrypt_reversed fuel sk ⟨a, b, c, d⟩).trans
        (xr30256_encrypt_spec fuel _ ⟨a, b, c, d⟩ hf)⟩⟩

/-- Witness of the amended C17 at a five-word array. -/
theorem words_first_four_main :
    255 < 256 ∧
    (∃ k, xr30256_key_schedule_words 256 (1 :: 2 :: 3 :: 4 :: [5]) = some k ∧
      xr30256_key_schedule 256 ⟨1, 2, 3, 4⟩ = some k) ∧
    (∃ C, xr30256_encrypt_words 256 ⟨main_key, main_plaintext, main_key, main_plaintext⟩
        (1 :: 2 :: 3 :: 4 :: [5]) = some C ∧
      xr30256_encrypt 256 ⟨main_key, main_plaintext, main_key, main_plaintext⟩ ⟨1, 2, 3, 4⟩
        = some C) ∧
    (∃ P, xr30256_decrypt_words 256 ⟨main_key, main_plaintext, main_key, main_plaintext⟩
        (1 :: 2 :: 3 :: 4 :: [5]) = some P ∧
      xr30256_decrypt 256 ⟨main_key, main_plaintext, main_key, main_plaintext⟩ ⟨1, 2, 3, 4⟩
        = some P) :=
  ⟨by decide, words_first_four 256 ⟨main_key, main_plaintext, main_key, main_plaintext⟩
    1 2 3 4 [5] (by decide)⟩

/-! ## Lemmas: fixed points, translation invariance, swapped halves and the simulation of the packed register -/

theorem step256_zero : step256 0 = 0 := by decide

theorem step256_ones : step256 (2 ^ 256 - 1) = 0 := by decide

theorem ca_step_zero : ca_step RULE30 ⟨0, 0, 0, 0⟩ = ⟨0, 0, 0, 0⟩ := by
  obtain ⟨hw, hv⟩ := ca_step_value ⟨0, 0, 0, 0⟩ (by decide)
  apply Block.value_inj _ _ hw (by decide)
  rw [hv]
  decide

theorem ca_step_ones :
    ca_step RULE30 ⟨0xFFFFFFFFFFFFFFFF, 0xFFFFFFFFFFFFFFFF, 0xFFFFFFFFFFFFFFFF,
      0xFFFFFFFFFFFFFFFF⟩ = ⟨0, 0, 0, 0⟩ := by
  obtain ⟨hw, hv⟩ := ca_step_value ⟨0xFFFFFFFFFFFFFFFF, 0xFFFFFFFFFFFFFFFF,
    0xFFFFFFFFFFFFFFFF, 0xFFFFFFFFFFFFFFFF⟩ (by decide)
  apply Block.value_inj _ _ hw (by decide)
  rw [hv]
  decide

theorem evolve_zero (n : Nat) : evolve RULE30 n ⟨0, 0, 0, 0⟩ = ⟨0, 0, 0, 0⟩ :=
  Function.iterate_fixed ca_step_zero n

theorem evolve_ones (n : Nat) (hn : 1 ≤ n) :
    evolve RULE30 n ⟨0xFFFFFFFFFFFFFFFF, 0xFFFFFFFFFFFFFFFF, 0xFFFFFFFFFFFFFFFF,
      0xFFFFFFFFFFFFFFFF⟩ = ⟨0, 0, 0, 0⟩ := by
  obtain ⟨m, rfl⟩ : ∃ m, n = m + 1 := ⟨n - 1, by omega⟩
  show (ca_step RULE30)^[m + 1] _ = _
  rw [Function.iterate_succ_apply, ca_step_ones]
  exact evolve_zero m

theorem key_schedule_zero (fuel : Nat) (hf : 255 < fuel) :
    xr30256_key_schedule fuel ⟨0, 0, 0, 0⟩
      = some ⟨⟨0, 0, 0, 0⟩, ⟨0, 0, 0, 0⟩, ⟨0, 0, 0, 0⟩, ⟨0, 0, 0, 0⟩⟩ := by
  rw [xr30256_key_schedule_spec fuel _ hf]
  have h1 : (load_segment_1 ⟨0, 0, 0, 0⟩ Regs.init).input = ⟨0, 0, 0, 0⟩ := by decide
  have h2 : (load_segment_2 ⟨0, 0, 0, 0⟩ Regs.init).input = ⟨0, 0, 0, 0⟩ := by decide
  have h3 : (load_segment_3 ⟨0, 0, 0, 0⟩ Regs.init).input = ⟨0, 0, 0, 0⟩ := by decide
  have h4 : (load_segment_4 ⟨0, 0, 0, 0⟩ Regs.init).input = ⟨0, 0, 0, 0⟩ := by decide
  rw [h1, h2, h3, h4, evolve_zero]

theorem key_schedule_ones_word (fuel : Nat) (hf : 255 < fuel) :
    xr30256_key_schedule fuel ⟨0xFFFFFFFFFFFFFFFF, 0, 0, 0⟩
      = some ⟨⟨0, 0, 0, 0⟩, ⟨0, 0, 0, 0⟩, ⟨0, 0, 0, 0⟩, ⟨0, 0, 0, 0⟩⟩ := by
  rw [xr30256_key_schedule_spec fuel _ hf]
  have h1 : (load_segment_1 ⟨0xFFFFFFFFFFFFFFFF, 0, 0, 0⟩ Regs.init).input
      = ⟨0xFFFFFFFFFFFFFFFF, 0xFFFFFFFFFFFFFFFF, 0xFFFFFFFFFFFFFFFF, 0xFFFFFFFFFFFFFFFF⟩ := by
    decide
  have h2 : (load_segment_2 ⟨0xFFFFFFFFFFFFFFFF, 0, 0, 0⟩ Regs.init).input = ⟨0, 0, 0, 0⟩ := by
    decide
  have h3 : (load_segment_3 ⟨0xFFFFFFFFFFFFFFFF, 0, 0, 0⟩ Regs.init).input = ⟨0, 0, 0, 0⟩ := by
    decide
  have h4 : (load_segment_4 ⟨0xFFFFFFFFFFFFFFFF, 0, 0, 0⟩ Regs.init).input = ⟨0, 0, 0, 0⟩ := by
    decide
  rw [h1, h2, h3, h4, evolve_zero, evolve_ones CA256 (by decide)]

theorem zero_subkeys_degenerate :
    scheduled_key.degenerate ⟨⟨0, 0, 0, 0⟩, ⟨0, 0, 0, 0⟩, ⟨0, 0, 0, 0⟩, ⟨0, 0, 0, 0⟩⟩ := by
  decide

theorem add64_mul64_zero (k : Nat) : add64 0 (mul64 0 k) = 0 := by
  simp [add64, mul64]

theorem mixing_two_pow_32 :
    add64 4294967296 (mul64 4294967296 4294967296) = 4294967296 := by decide

theorem Block.ext_bit (a b : Block) (ha : a.wf) (hb : b.wf)
    (h : ∀ i, i < 256 → a.bit i = b.bit i) : a = b := by
  apply Block.value_inj a b ha hb
  apply Nat.eq_of_testBit_eq
  intro j
  by_cases hj : j < 256
  · have i1 : 255 - j < 256 := by omega
    have e0 : 255 - (255 - j) = j := by omega
    have := h (255 - j) i1
    rw [Block.bit_eq_value_testBit a ha _ i1, Block.bit_eq_value_testBit b hb _ i1, e0] at this
    exact this
  · have big : (2 : Nat) ^ 256 ≤ 2 ^ j := Nat.pow_le_pow_right (by norm_num) (by omega)
    rw [Nat.testBit_lt_two_pow (lt_of_lt_of_le (Block.value_lt _ ha) big),
      Nat.testBit_lt_two_pow (lt_of_lt_of_le (Block.value_lt _ hb) big)]

theorem rotate_right_bit (b : Block) (hb : b.wf) (i : Nat) (hi : i < 256) :
    (rotate_right b).bit i = b.bit ((i + 255) % 256) := by
  obtain ⟨hw, hv⟩ := rotate_right_value b hb
  have i1 : (i + 255) % 256 < 256 := Nat.mod_lt _ (by norm_num)
  rw [Block.bit_eq_value_testBit _ hw i hi, hv,
    rotr256_testBit _ (Block.value_lt b hb) _ (by omega),
    Block.bit_eq_value_testBit b hb _ i1]
  congr 1
  omega

theorem rotate_left_bit (b : Block) (hb : b.wf) (i : Nat) (hi : i < 256) :
    (rotate_left b).bit i = b.bit ((i + 1) % 256) := by
  obtain ⟨hw, hv⟩ := rotate_left_value b hb
  have i1 : (i + 1) % 256 < 256 := Nat.mod_lt _ (by norm_num)
  rw [Block.bit_eq_value_testBit _ hw i hi, hv,
    rotl256_testBit _ (Block.value_lt b hb) _ (by omega),
    Block.bit_eq_value_testBit b hb _ i1]
  congr 1
  omega

theorem ca_step_rotate_right (rule : Nat) (A : Block) (hA : A.wf) :
    ca_step rule (rotate_right A) = rotate_right (ca_step rule A) := by
  have hr := (rotate_right_value A hA).1
  have hc := (ca_step_limbs rule A hA).1
  apply Block.ext_bit _ _ (ca_step_limbs rule _ hr).1 (rotate_right_value _ hc).1
  intro i hi
  have m1 : (i + 255) % 256 < 256 := Nat.mod_lt _ (by norm_num)
  have m2 : (i + 1) % 256 < 256 := Nat.mod_lt _ (by norm_num)
  rw [ca_step_bit rule _ hr i hi, rotate_right_bit _ hc i hi, ca_step_bit rule A hA _ m1,
    rotate_right_bit A hA _ m1, rotate_right_bit A hA i hi, rotate_right_bit A hA _ m2]
  have e : ((i + 1) % 256 + 255) % 256 = ((i + 255) % 256 + 1) % 256 := by omega
  rw [e]

theorem ca_step_rotate_left (rule : Nat) (A : Block) (hA : A.wf) :
    ca_step rule (rotate_left A) = rotate_left (ca_step rule A) := by
  have hl := (rotate_left_value A hA).1
  have h := ca_step_rotate_right rule (rotate_left A) hl
  rw [rotate_right_left A hA] at h
  rw [h, rotate_left_right _ (ca_step_limbs rule _ hl).1]

theorem evolve_wf (rule n : Nat) (A : Block) (hA : A.wf) : (evolve rule n A).wf := by
  induction n with
  | zero => exact hA
  | succ n ih =>
    have e : evolve rule (n + 1) A = ca_step rule (evolve rule n A) := by
      simp only [evolve, Function.iterate_succ_apply']
    rw [e]
    exact (ca_step_limbs rule _ ih).1

theorem evolve_commute (rule : Nat) (g : Block → Block)
    (hc : ∀ A : Block, A.wf → ca_step rule (g A) = g (ca_step rule A))
    (n : Nat) (A : Block) (hA : A.wf) :
    evolve rule n (g A) = g (evolve rule n A) := by
  induction n with
  | zero => rfl
  | succ n ih =>
    have e : ∀ B, evolve rule (n + 1) B = ca_step rule (evolve rule n B) := by
      intro B
      simp only [evolve, Function.iterate_succ_apply']
    rw [e, e, ih, hc _ (evolve_wf rule n A hA)]

theorem iterate_wf (g : Block → Block) (hg : ∀ A : Block, A.wf → (g A).wf) (k : Nat)
    (A : Block) (hA : A.wf) : (g^[k] A).wf := by
  induction k with
  | zero => exact hA
  | succ k ih =>
    rw [Function.iterate_succ_apply']
    exact hg _ ih

theorem ca_step_iterate_commute (rule : Nat) (g : Block → Block)
    (hg : ∀ A : Block, A.wf → (g A).wf)
    (hc : ∀ A : Block, A.wf → ca_step rule (g A) = g (ca_step rule A))
    (k : Nat) (A : Block) (hA : A.wf) :
    ca_step rule (g^[k] A) = g^[k] (ca_step rule A) := by
  induction k with
  | zero => rfl
  | succ k ih =>
    rw [Function.iterate_succ_apply', Function.iterate_succ_apply',
      hc _ (iterate_wf g hg k A hA), ih]

theorem rotate_right_iterate_bit (k : Nat) (b : Block) (hb : b.wf) (i : Nat) (hi : i < 256) :
    (rotate_right^[k] b).bit i = b.bit ((i + 255 * k) % 256) := by
  induction k generalizing i with
  | zero =>
    have : (i + 255 * 0) % 256 = i := by omega
    rw [this]; rfl
  | succ k ih =>
    rw [Function.iterate_succ_apply',
      rotate_right_bit _ (iterate_wf rotate_right (fun A h => (rotate_right_value A h).1) k b hb)
        i hi,
      ih _ (Nat.mod_lt _ (by norm_num))]
    congr 1
    omega

theorem rotate_limbs_bit (b : Block) (i : Nat) (hi : i < 256) :
    (rotate_limbs b).bit i = b.bit ((i + 192) % 256) := by
  unfold Block.bit
  obtain ⟨k, r, hk, hr, rfl⟩ : ∃ k r, k < 4 ∧ r < 64 ∧ i = 64 * k + r :=
    ⟨i / 64, i % 64, by omega, by omega, by omega⟩
  interval_cases k
  · have h1 : (64 * 0 + r) / 64 = 0 := by omega
    have h2 : (64 * 0 + r + 192) % 256 / 64 = 3 := by omega
    have h3 : (64 * 0 + r + 192) % 256 % 64 = (64 * 0 + r) % 64 := by omega
    rw [h1, h2, h3]; rfl
  · have h1 : (64 * 1 + r) / 64 = 1 := by omega
    have h2 : (64 * 1 + r + 192) % 256 / 64 = 0 := by omega
    have h3 : (64 * 1 + r + 192) % 256 % 64 = (64 * 1 + r) % 64 := by omega
    rw [h1, h2, h3]; rfl
  · have h1 : (64 * 2 + r) / 64 = 2 := by omega
    have h2 : (64 * 2 + r + 192) % 256 / 64 = 1 := by omega
    have h3 : (64 * 2 + r + 192) % 256 % 64 = (64 * 2 + r) % 64 := by omega
    rw [h1, h2, h3]; rfl
  · have h1 : (64 * 3 + r) / 64 = 3 := by omega
    have h2 : (64 * 3 + r + 192) % 256 / 64 = 2 := by omega
    have h3 : (64 * 3 + r + 192) % 256 % 64 = (64 * 3 + r) % 64 := by omega
    rw [h1, h2, h3]; rfl

theorem rotate_limbs_wf (b : Block) (hb : b.wf) : (rotate_limbs b).wf := by
  obtain ⟨h0, h1, h2, h3⟩ := hb
  exact ⟨h3, h0, h1, h2⟩

theorem rotate_limbs_eq_iterate (b : Block) (hb : b.wf) :
    rotate_limbs b = rotate_right^[64] b := by
  apply Block.ext_bit _ _ (rotate_limbs_wf b hb)
    (iterate_wf rotate_right (fun A h => (rotate_right_value A h).1) 64 b hb)
  intro i hi
  rw [rotate_limbs_bit b i hi, rotate_right_iterate_bit 64 b hb i hi]
  congr 1
  omega

theorem ca_step_rotate_limbs (rule : Nat) (A : Block) (hA : A.wf) :
    ca_step rule (rotate_limbs A) = rotate_limbs (ca_step rule A) := by
  rw [rotate_limbs_eq_iterate A hA, rotate_limbs_eq_iterate _ (ca_step_limbs rule A hA).1]
  exact ca_step_iterate_commute rule rotate_right (fun A h => (rotate_right_value A h).1)
    (ca_step_rotate_right rule) 64 A hA

theorem swap_halves_eq (b : Block) : swap_halves b = rotate_limbs (rotate_limbs b) := rfl

theorem swap_halves_wf (b : Block) (hb : b.wf) : (swap_halves b).wf := by
  obtain ⟨h0, h1, h2, h3⟩ := hb
  exact ⟨h2, h3, h0, h1⟩

theorem ca_step_swap_halves (rule : Nat) (A : Block) (hA : A.wf) :
    ca_step rule (swap_halves A) = swap_halves (ca_step rule A) := by
  rw [swap_halves_eq, swap_halves_eq, ca_step_rotate_limbs rule _ (rotate_limbs_wf A hA),
    ca_step_rotate_limbs rule A hA]

theorem rotate_right_wf (A : Block) (hA : A.wf) : (rotate_right A).wf :=
  (rotate_right_value A hA).1

theorem rotate_left_wf (A : Block) (hA : A.wf) : (rotate_left A).wf :=
  (rotate_left_value A hA).1

theorem evolve_rotate_right_iterate (rule n k : Nat) (R : Block) (hR : R.wf) :
    evolve rule n (rotate_right^[k] R) = rotate_right^[k] (evolve rule n R) :=
  evolve_commute rule (rotate_right^[k])
    (ca_step_iterate_commute rule rotate_right rotate_right_wf (ca_step_rotate_right rule) k)
    n R hR

theorem evolve_rotate_left_iterate (rule n k : Nat) (R : Block) (hR : R.wf) :
    evolve rule n (rotate_left^[k] R) = rotate_left^[k] (evolve rule n R) :=
  evolve_commute rule (rotate_left^[k])
    (ca_step_iterate_commute rule rotate_left rotate_left_wf (ca_step_rotate_left rule) k)
    n R hR

theorem round_function_wf (K : Block) (V : Nat × Nat) (hK : K.wf) (h1 : V.1 < 2 ^ 64)
    (h2 : V.2 < 2 ^ 64) :
    (round_function K V).1 < 2 ^ 64 ∧ (round_function K V).2 < 2 ^ 64 := by
  obtain ⟨k0, k1, k2, k3⟩ := hK
  simp only [WORD] at k0 k1 k2 k3
  have hw : Block.wf ⟨V.1 ^^^ K.w0, V.2 ^^^ K.w1, V.1 ^^^ K.w2, V.2 ^^^ K.w3⟩ :=
    ⟨Nat.xor_lt_two_pow h1 k0, Nat.xor_lt_two_pow h2 k1, Nat.xor_lt_two_pow h1 k2,
      Nat.xor_lt_two_pow h2 k3⟩
  obtain ⟨e0, e1, e2, e3⟩ := evolve_wf RULE30 CA256 _ hw
  simp only [WORD] at e0 e1 e2 e3
  exact ⟨Nat.xor_lt_two_pow e0 e2, Nat.xor_lt_two_pow e1 e3⟩

theorem round_function_swap_halves (K : Block) (V : Nat × Nat) (hK : K.wf)
    (h1 : V.1 < 2 ^ 64) (h2 : V.2 < 2 ^ 64) :
    round_function (swap_halves K) V = round_function K V := by
  obtain ⟨k0, k1, k2, k3⟩ := hK
  simp only [WORD] at k0 k1 k2 k3
  have hw : Block.wf ⟨V.1 ^^^ K.w0, V.2 ^^^ K.w1, V.1 ^^^ K.w2, V.2 ^^^ K.w3⟩ :=
    ⟨Nat.xor_lt_two_pow h1 k0, Nat.xor_lt_two_pow h2 k1, Nat.xor_lt_two_pow h1 k2,
      Nat.xor_lt_two_pow h2 k3⟩
  have h := evolve_commute RULE30 swap_halves (ca_step_swap_halves RULE30) CA256 _ hw
  have e : (⟨V.1 ^^^ (swap_halves K).w0, V.2 ^^^ (swap_halves K).w1,
      V.1 ^^^ (swap_halves K).w2, V.2 ^^^ (swap_halves K).w3⟩ : Block)
      = swap_halves ⟨V.1 ^^^ K.w0, V.2 ^^^ K.w1, V.1 ^^^ K.w2, V.2 ^^^ K.w3⟩ := rfl
  simp only [round_function]
  rw [e, h]
  generalize evolve RULE30 CA256 _ = E
  simp only [swap_halves, Nat.xor_comm]

theorem round_function_swap_if (b : Bool) (K : Block) (V : Nat × Nat) (hK : K.wf)
    (h1 : V.1 < 2 ^ 64) (h2 : V.2 < 2 ^ 64) :
    round_function (if b then swap_halves K else K) V = round_function K V := by
  cases b
  · rfl
  · exact round_function_swap_halves K V hK h1 h2

theorem xor_half_wf (a b : Nat × Nat) (a1 : a.1 < 2 ^ 64) (a2 : a.2 < 2 ^ 64)
    (b1 : b.1 < 2 ^ 64) (b2 : b.2 < 2 ^ 64) :
    (xor_half a b).1 < 2 ^ 64 ∧ (xor_half a b).2 < 2 ^ 64 :=
  ⟨Nat.xor_lt_two_pow a1 b1, Nat.xor_lt_two_pow a2 b2⟩

theorem feistel_round_wf (sk : scheduled_key) (hsk : sk.wf) (p : (Nat × Nat) × (Nat × Nat))
    (hp : halves_wf p) : halves_wf (feistel_round sk p) := by
  obtain ⟨⟨l1, l2⟩, ⟨r1, r2⟩⟩ := hp
  obtain ⟨w1, w2, w3, w4⟩ := hsk
  have f1 := round_function_wf sk.key_1 p.2 w1 r1 r2
  have a := xor_half_wf p.1 _ l1 l2 f1.1 f1.2
  have f2 := round_function_wf sk.key_2 _ w2 a.1 a.2
  have b := xor_half_wf p.2 _ r1 r2 f2.1 f2.2
  have f3 := round_function_wf sk.key_3 _ w3 b.1 b.2
  have c := xor_half_wf _ _ a.1 a.2 f3.1 f3.2
  have f4 := round_function_wf sk.key_4 _ w4 c.1 c.2
  have d := xor_half_wf _ _ b.1 b.2 f4.1 f4.2
  exact ⟨c, d⟩

theorem feistel_round_swap_some (b1 b2 b3 b4 : Bool) (sk : scheduled_key) (hsk : sk.wf)
    (p : (Nat × Nat) × (Nat × Nat)) (hp : halves_wf p) :
    feistel_round (sk.swap_some b1 b2 b3 b4) p = feistel_round sk p := by
  obtain ⟨⟨l1, l2⟩, ⟨r1, r2⟩⟩ := hp
  obtain ⟨w1, w2, w3, w4⟩ := hsk
  have f1 := round_function_wf sk.key_1 p.2 w1 r1 r2
  have a := xor_half_wf p.1 _ l1 l2 f1.1 f1.2
  have f2 := round_function_wf sk.key_2 _ w2 a.1 a.2
  have b := xor_half_wf p.2 _ r1 r2 f2.1 f2.2
  have f3 := round_function_wf sk.key_3 _ w3 b.1 b.2
  have c := xor_half_wf _ _ a.1 a.2 f3.1 f3.2
  simp only [feistel_round, scheduled_key.swap_some]
  rw [round_function_swap_if b1 sk.key_1 p.2 w1 r1 r2,
    round_function_swap_if b2 sk.key_2 _ w2 a.1 a.2,
    round_function_swap_if b3 sk.key_3 _ w3 b.1 b.2,
    round_function_swap_if b4 sk.key_4 _ w4 c.1 c.2]

theorem feistel_rounds_swap_some (b1 b2 b3 b4 : Bool) (sk : scheduled_key) (hsk : sk.wf)
    (n : Nat) (p : (Nat × Nat) × (Nat × Nat)) (hp : halves_wf p) :
    (feistel_round (sk.swap_some b1 b2 b3 b4))^[n] p = (feistel_round sk)^[n] p ∧
    halves_wf ((feistel_round sk)^[n] p) := by
  induction n with
  | zero =>
    constructor
    · rw [Function.iterate_zero_apply, Function.iterate_zero_apply]
    · rw [Function.iterate_zero_apply]
      exact hp
  | succ n ih =>
    obtain ⟨ih1, ih2⟩ := ih
    constructor
    · rw [Function.iterate_succ_apply', Function.iterate_succ_apply', ih1]
      exact feistel_round_swap_some b1 b2 b3 b4 sk hsk _ ih2
    · rw [Function.iterate_succ_apply']
      exact feistel_round_wf sk hsk _ ih2

theorem feistel_encrypt_swap_some (b1 b2 b3 b4 : Bool) (sk : scheduled_key) (hsk : sk.wf)
    (P : Block) (hP : P.wf) :
    feistel_encrypt (sk.swap_some b1 b2 b3 b4) P = feistel_encrypt sk P := by
  obtain ⟨p0, p1, p2, p3⟩ := hP
  simp only [WORD] at p0 p1 p2 p3
  have hp : halves_wf ((P.w0, P.w1), (P.w2, P.w3)) := ⟨⟨p0, p1⟩, ⟨p2, p3⟩⟩
  have h := (feistel_rounds_swap_some b1 b2 b3 b4 sk hsk 16 _ hp).1
  simp only [feistel_encrypt]
  rw [h]

theorem scheduled_key.reversed_wf (sk : scheduled_key) (hsk : sk.wf) : sk.reversed.wf := by
  obtain ⟨w1, w2, w3, w4⟩ := hsk
  exact ⟨w4, w3, w2, w1⟩

theorem swap_some_reversed (b1 b2 b3 b4 : Bool) (sk : scheduled_key) :
    (sk.swap_some b1 b2 b3 b4).reversed = sk.reversed.swap_some b4 b3 b2 b1 := rfl

theorem mp_inner_eq (mp : Nat) : mp_inner mp = mp % 256 := and_INNER_COUNT mp

theorem mp_outer_eq (mp : Nat) : mp_outer mp = mp / 256 % 65536 := and_OUTER_COUNT mp

theorem mp_rounds_eq (mp : Nat) : mp_rounds mp = mp / 16777216 % 65536 := and_ROUNDS_COUNT mp

theorem mp_carry_eq (mp : Nat) :
    mp_carry mp = decide (mp / 9223372036854775808 % 2 = 1) := by
  simp only [mp_carry, and_LHS_ONE]
  apply decide_eq_decide.mpr
  omega

theorem mp_carry_testBit (mp : Nat) : mp_carry mp = mp.testBit 63 := by
  rw [mp_carry_eq, Nat.testBit_to_div_mod]

theorem fields_clear_carry (mp : Nat) :
    mp_inner (mp &&& LHS_ZERO) = mp_inner mp ∧ mp_outer (mp &&& LHS_ZERO) = mp_outer mp ∧
    mp_rounds (mp &&& LHS_ZERO) = mp_rounds mp ∧ mp_carry (mp &&& LHS_ZERO) = false := by
  simp only [mp_inner_eq, mp_outer_eq, mp_rounds_eq, mp_carry_eq, and_LHS_ZERO,
    decide_eq_false_iff_not]
  omega

theorem write_carry_low (mp x : Nat) :
    (mp &&& LHS_ZERO) ||| shl (x &&& RHS_ONE) (WORDSIZE - 1)
      = mp % 9223372036854775808 + (x % 2) * 9223372036854775808 := by
  rw [shl_and_one, set_carry]

theorem write_carry_high (mp x : Nat) :
    (mp &&& LHS_ZERO) ||| (x &&& LHS_ONE)
      = mp % 9223372036854775808 + (x / 9223372036854775808 % 2) * 9223372036854775808 := by
  rw [and_LHS_ONE, set_carry]

theorem fields_write_carry_low (mp x : Nat) :
    mp_inner ((mp &&& LHS_ZERO) ||| shl (x &&& RHS_ONE) (WORDSIZE - 1)) = mp_inner mp ∧
    mp_outer ((mp &&& LHS_ZERO) ||| shl (x &&& RHS_ONE) (WORDSIZE - 1)) = mp_outer mp ∧
    mp_rounds ((mp &&& LHS_ZERO) ||| shl (x &&& RHS_ONE) (WORDSIZE - 1)) = mp_rounds mp ∧
    mp_carry ((mp &&& LHS_ZERO) ||| shl (x &&& RHS_ONE) (WORDSIZE - 1))
      = decide (x &&& RHS_ONE ≠ 0) := by
  rw [write_carry_low]
  simp only [mp_inner_eq, mp_outer_eq, mp_rounds_eq, mp_carry_eq, RHS_ONE, Nat.and_one_is_mod]
  refine ⟨by omega, by omega, by omega, ?_⟩
  apply decide_eq_decide.mpr
  omega

theorem fields_write_carry_high (mp x : Nat) :
    mp_inner ((mp &&& LHS_ZERO) ||| (x &&& LHS_ONE)) = mp_inner mp ∧
    mp_outer ((mp &&& LHS_ZERO) ||| (x &&& LHS_ONE)) = mp_outer mp ∧
    mp_rounds ((mp &&& LHS_ZERO) ||| (x &&& LHS_ONE)) = mp_rounds mp ∧
    mp_carry ((mp &&& LHS_ZERO) ||| (x &&& LHS_ONE)) = decide (x &&& LHS_ONE ≠ 0) := by
  rw [write_carry_high]
  simp only [mp_inner_eq, mp_outer_eq, mp_rounds_eq, mp_carry_eq, and_LHS_ONE]
  refine ⟨by omega, by omega, by omega, ?_⟩
  apply decide_eq_decide.mpr
  omega

theorem fields_inner_reset (mp : Nat) :
    mp_inner (mp &&& INNER_ZERO) = 0 ∧ mp_outer (mp &&& INNER_ZERO) = mp_outer mp ∧
    mp_rounds (mp &&& INNER_ZERO) = mp_rounds mp ∧
    mp_carry (mp &&& INNER_ZERO) = mp_carry mp := by
  simp only [mp_inner_eq, mp_outer_eq, mp_rounds_eq, mp_carry_eq, and_INNER_ZERO]
  refine ⟨by omega, by omega, by omega, ?_⟩
  apply decide_eq_decide.mpr
  omega

theorem fields_inner_inc (mp : Nat) (h : mp_inner mp < 255) :
    mp_inner (add64 mp INNER_ONE) = mp_inner mp + 1 ∧
    mp_outer (add64 mp INNER_ONE) = mp_outer mp ∧
    mp_rounds (add64 mp INNER_ONE) = mp_rounds mp ∧
    mp_carry (add64 mp INNER_ONE) = mp_carry mp := by
  simp only [mp_inner_eq, mp_outer_eq, mp_rounds_eq, mp_carry_eq, add64, WORD, INNER_ONE] at h ⊢
  refine ⟨by omega, by omega, by omega, ?_⟩
  apply decide_eq_decide.mpr
  omega

theorem fields_outer_reset (mp : Nat) :
    mp_inner (mp &&& OUTER_ZERO) = mp_inner mp ∧ mp_outer (mp &&& OUTER_ZERO) = 0 ∧
    mp_rounds (mp &&& OUTER_ZERO) = mp_rounds mp ∧
    mp_carry (mp &&& OUTER_ZERO) = mp_carry mp := by
  simp only [mp_inner_eq, mp_outer_eq, mp_rounds_eq, mp_carry_eq, and_OUTER_ZERO]
  refine ⟨by omega, by omega, by omega, ?_⟩
  apply decide_eq_decide.mpr
  omega

theorem fields_outer_inc (mp : Nat) (h : mp_outer mp < 65535) :
    mp_inner (add64 mp OUTER_ONE) = mp_inner mp ∧
    mp_outer (add64 mp OUTER_ONE) = mp_outer mp + 1 ∧
    mp_rounds (add64 mp OUTER_ONE) = mp_rounds mp ∧
    mp_carry (add64 mp OUTER_ONE) = mp_carry mp := by
  simp only [mp_inner_eq, mp_outer_eq, mp_rounds_eq, mp_carry_eq, add64, WORD, OUTER_ONE] at h ⊢
  refine ⟨by omega, by omega, by omega, ?_⟩
  apply decide_eq_decide.mpr
  omega

theorem fields_rounds_reset (mp : Nat) :
    mp_inner (mp &&& ROUNDS_ZERO) = mp_inner mp ∧ mp_outer (mp &&& ROUNDS_ZERO) = mp_outer mp ∧
    mp_rounds (mp &&& ROUNDS_ZERO) = 0 ∧
    mp_carry (mp &&& ROUNDS_ZERO) = mp_carry mp := by
  simp only [mp_inner_eq, mp_outer_eq, mp_rounds_eq, mp_carry_eq, and_ROUNDS_ZERO]
  refine ⟨by omega, by omega, by omega, ?_⟩
  apply decide_eq_decide.mpr
  omega

theorem fields_rounds_inc (mp : Nat) (h : mp_rounds mp < 65535) :
    mp_inner (add64 mp ROUNDS_ONE) = mp_inner mp ∧
    mp_outer (add64 mp ROUNDS_ONE) = mp_outer mp ∧
    mp_rounds (add64 mp ROUNDS_ONE) = mp_rounds mp + 1 ∧
    mp_carry (add64 mp ROUNDS_ONE) = mp_carry mp := by
  simp only [mp_inner_eq, mp_outer_eq, mp_rounds_eq, mp_carry_eq, add64, WORD, ROUNDS_ONE] at h ⊢
  refine ⟨by omega, by omega, by omega, ?_⟩
  apply decide_eq_decide.mpr
  omega

theorem whileLoop_sim {σ τ : Type} (α : σ → τ) (cond : σ → Bool) (body : σ → Option σ)
    (cond1 : τ → Bool) (body1 : τ → Option τ)
    (hc : ∀ s, cond s = cond1 (α s))
    (hb : ∀ s, cond s = true → (body s).map α = body1 (α s)) :
    ∀ (fuel : Nat) (s : σ),
      (whileLoop cond body fuel s).map α = whileLoop cond1 body1 fuel (α s) := by
  intro fuel
  induction fuel with
  | zero => intro s; rfl
  | succ fuel ih =>
    intro s
    simp only [whileLoop]
    rw [← hc s]
    by_cases h : cond s = true
    · rw [if_pos h, if_pos h, ← hb s h]
      cases hbs : body s with
      | none => rfl
      | some t => exact ih t
    · rw [if_neg h, if_neg h]
      rfl

theorem carry_low_read (mp x : Nat) :
    ((mp &&& LHS_ZERO) ||| shl (x &&& RHS_ONE) (WORDSIZE - 1)) &&& LHS_ONE
      = if decide (x &&& RHS_ONE ≠ 0) = true then LHS_ONE else 0 := by
  rw [write_carry_low, and_LHS_ONE]
  simp only [RHS_ONE, Nat.and_one_is_mod, LHS_ONE, decide_eq_true_eq]
  split <;> omega

theorem carry_high_read (mp x : Nat) :
    (((mp &&& LHS_ZERO) ||| (x &&& LHS_ONE)) &&& LHS_ONE) >>> (WORDSIZE - 1)
      = if decide (x &&& LHS_ONE ≠ 0) = true then RHS_ONE else 0 := by
  rw [write_carry_high, and_LHS_ONE, and_LHS_ONE, WORDSIZE, Nat.shiftRight_eq_div_pow]
  simp only [RHS_ONE, decide_eq_true_eq]
  split <;> omega

theorem inner_step_sim (rule : Nat) (t : Regs) (h : mp_inner t.mp < WORDSIZE) :
    Regs.sep { inner_body rule t with mp := add64 (inner_body rule t).mp INNER_ONE }
      = { sep_inner_body rule t.sep with inner := (sep_inner_body rule t.sep).inner + 1 } := by
  obtain ⟨f1, f2, f3, f4⟩ := fields_write_carry_low t.mp t.key_in_reg4
  have g : mp_inner ((t.mp &&& LHS_ZERO) ||| shl (t.key_in_reg4 &&& RHS_ONE) (WORDSIZE - 1))
      < 255 := by
    rw [f1]; simp only [WORDSIZE] at h; omega
  obtain ⟨g1, g2, g3, g4⟩ := fields_inner_inc _ g
  have c := carry_low_read t.mp t.key_in_reg4
  simp only [Regs.sep, inner_body, sep_inner_body, g1, g2, g3, g4, f1, f2, f3, f4, c]
  rfl

theorem inner_loop_sim (rule fuel : Nat) (s : Regs) :
    (inner_loop rule fuel s).map Regs.sep = sep_inner_loop rule fuel s.sep := by
  obtain ⟨r1, r2, r3, r4⟩ := fields_inner_reset s.mp
  have e : Regs.sep { s with mp := s.mp &&& INNER_ZERO } = { s.sep with inner := 0 } := by
    simp only [Regs.sep, r1, r2, r3, r4]
  simp only [inner_loop, sep_inner_loop]
  rw [← e]
  apply whileLoop_sim
  · intro t; rfl
  · intro t ht
    simp only [decide_eq_true_eq] at ht
    simp only [Option.map_some']
    rw [inner_step_sim rule t ht]

theorem rotate_and_swap_sim (s : Regs) :
    (rotate_and_swap s).sep = sep_rotate_and_swap s.sep := by
  obtain ⟨f1, f2, f3, f4⟩ := fields_write_carry_high s.mp s.key_out_reg1
  have c := carry_high_read s.mp s.key_out_reg1
  simp only [Regs.sep, rotate_and_swap, sep_rotate_and_swap, f1, f2, f3, f4, c]

theorem generation_sim (rule fuel : Nat) (s : Regs) :
    (generation rule fuel s).map Regs.sep = sep_generation rule fuel s.sep := by
  have h := inner_loop_sim rule fuel
    { s with key_out_reg1 := 0, key_out_reg2 := 0, key_out_reg3 := 0, key_out_reg4 := 0 }
  simp only [generation, sep_generation]
  have e : Regs.sep
      { s with key_out_reg1 := 0, key_out_reg2 := 0, key_out_reg3 := 0, key_out_reg4 := 0 }
      = { s.sep with key_out_reg1 := 0, key_out_reg2 := 0, key_out_reg3 := 0,
                     key_out_reg4 := 0 } := rfl
  rw [← e, ← h]
  cases inner_loop rule fuel
      { s with key_out_reg1 := 0, key_out_reg2 := 0, key_out_reg3 := 0, key_out_reg4 := 0 } with
  | none => rfl
  | some t =>
    simp only [Option.some_bind, Option.map_some']
    rw [rotate_and_swap_sim]

theorem whileLoop_inv {σ : Type} (cond : σ → Bool) (body : σ → Option σ) (I : σ → Prop)
    (hb : ∀ s t, cond s = true → body s = some t → I s → I t) :
    ∀ (fuel : Nat) (s t : σ), whileLoop cond body fuel s = some t → I s → I t := by
  intro fuel
  induction fuel with
  | zero => intro s t h; simp [whileLoop] at h
  | succ fuel ih =>
    intro s t h hs
    simp only [whileLoop] at h
    by_cases c : cond s = true
    · rw [if_pos c] at h
      cases hbs : body s with
      | none => rw [hbs] at h; simp at h
      | some u =>
        rw [hbs] at h
        exact ih u t h (hb s u c hbs hs)
    · rw [if_neg c] at h
      cases h
      exact hs

theorem sep_inner_loop_counters (rule fuel : Nat) (s t : SepRegs)
    (h : sep_inner_loop rule fuel s = some t) : t.outer = s.outer ∧ t.rounds = s.rounds := by
  refine whileLoop_inv _ _ (fun u => u.outer = s.outer ∧ u.rounds = s.rounds) ?_ fuel _ t h
    ⟨rfl, rfl⟩
  intro a b _ hab ha
  simp only [Option.some.injEq] at hab
  subst hab
  exact ha

theorem sep_generation_counters (rule fuel : Nat) (s t : SepRegs)
    (h : sep_generation rule fuel s = some t) : t.outer = s.outer ∧ t.rounds = s.rounds := by
  simp only [sep_generation] at h
  cases hi : sep_inner_loop rule fuel
      { s with key_out_reg1 := 0, key_out_reg2 := 0, key_out_reg3 := 0, key_out_reg4 := 0 } with
  | none => rw [hi] at h; simp at h
  | some u =>
    rw [hi] at h
    simp only [Option.some_bind, Option.some.injEq] at h
    subst h
    have hc := sep_inner_loop_counters rule fuel _ u hi
    exact hc

theorem sep_ca_loop_rounds (rule bound fuel : Nat) (s t : SepRegs)
    (h : sep_ca_loop rule bound fuel s = some t) : t.rounds = s.rounds := by
  refine whileLoop_inv _ _ (fun u => u.rounds = s.rounds) ?_ fuel _ t h rfl
  intro a b _ hab ha
  cases hg : sep_generation rule fuel a with
  | none => rw [hg] at hab; simp at hab
  | some u =>
    rw [hg] at hab
    simp only [Option.some_bind, Option.some.injEq] at hab
    subst hab
    have := (sep_generation_counters rule fuel a u hg).2
    simpa [this] using ha

theorem ca_loop_sim (rule bound fuel : Nat) (s : Regs) (hb : bound ≤ 65535) :
    (ca_loop rule bound fuel s).map Regs.sep = sep_ca_loop rule bound fuel s.sep := by
  obtain ⟨r1, r2, r3, r4⟩ := fields_outer_reset s.mp
  have e : Regs.sep { s with mp := s.mp &&& OUTER_ZERO } = { s.sep with outer := 0 } := by
    simp only [Regs.sep, r1, r2, r3, r4]
  simp only [ca_loop, sep_ca_loop]
  rw [← e]
  apply whileLoop_sim
  · intro t; rfl
  · intro t ht
    simp only [decide_eq_true_eq] at ht
    have hg := generation_sim rule fuel t
    rw [← hg]
    cases hu : generation rule fuel t with
    | none => rfl
    | some u =>
      rw [hu] at hg
      have ho : mp_outer u.mp = mp_outer t.mp :=
        (sep_generation_counters rule fuel t.sep u.sep hg.symm).1
      have hlt : mp_outer u.mp < 65535 := by
        rw [ho]; exact lt_of_lt_of_le ht hb
      obtain ⟨g1, g2, g3, g4⟩ := fields_outer_inc u.mp hlt
      simp only [Option.some_bind, Option.map_some', Option.some.injEq]
      simp only [Regs.sep, g1, g2, g3, g4]

theorem ca256_loop_sim (rule fuel : Nat) (s : Regs) :
    (ca256_loop rule fuel s).map Regs.sep = sep_ca256_loop rule fuel s.sep :=
  ca_loop_sim rule CA256 fuel s (by decide)

theorem sep_input (s : Regs) : s.sep.input = s.input := rfl

theorem init_sim : Regs.init.sep = SepRegs.init := by
  simp only [Regs.sep, Regs.init, SepRegs.init, mp_inner_eq, mp_outer_eq, mp_rounds_eq,
    mp_carry_eq]
  rfl

theorem load_segment_1_sim (key : Block) (s : Regs) :
    (load_segment_1 key s).sep = sep_load_segment_1 key s.sep := rfl

theorem load_segment_2_sim (key : Block) (s : Regs) :
    (load_segment_2 key s).sep = sep_load_segment_2 key s.sep := rfl

theorem load_segment_3_sim (key : Block) (s : Regs) :
    (load_segment_3 key s).sep = sep_load_segment_3 key s.sep := rfl

theorem load_segment_4_sim (key : Block) (s : Regs) :
    (load_segment_4 key s).sep = sep_load_segment_4 key s.sep := rfl

theorem load_subkey_sim (k : Block) (s : Regs) :
    (load_subkey k s).sep = sep_load_subkey k s.sep := rfl

theorem fold_halves_sim (s : Regs) : (fold_halves s).sep = sep_fold_halves s.sep := rfl

theorem key_schedule_sim (fuel : Nat) (key : Block) :
    xr30256_key_schedule fuel key = sep_key_schedule fuel key := by
  simp only [xr30256_key_schedule, sep_key_schedule]
  rw [← init_sim, ← load_segment_1_sim, ← ca256_loop_sim]
  cases ca256_loop RULE30 fuel (load_segment_1 key Regs.init) with
  | none => rfl
  | some s1 =>
    simp only [Option.some_bind, Option.map_some']
    rw [← load_segment_2_sim, ← ca256_loop_sim]
    cases ca256_loop RULE30 fuel (load_segment_2 key s1) with
    | none => rfl
    | some s2 =>
      simp only [Option.some_bind, Option.map_some']
      rw [← load_segment_3_sim, ← ca256_loop_sim]
      cases ca256_loop RULE30 fuel (load_segment_3 key s2) with
      | none => rfl
      | some s3 =>
        simp only [Option.some_bind, Option.map_some']
        rw [← load_segment_4_sim, ← ca256_loop_sim]
        cases ca256_loop RULE30 fuel (load_segment_4 key s3) with
        | none => rfl
        | some s4 =>
          simp only [Option.some_bind, Option.map_some', sep_input]

theorem f_step_sim (k : Block) (fuel : Nat) (c : CipherState) :
    (f_step k fuel c).map CipherState.sep = sep_f_step k fuel c.sep := by
  simp only [f_step, sep_f_step, f_function, sep_f_function]
  have e : c.sep.r = c.r.sep := rfl
  rw [e, ← load_subkey_sim, ← ca256_loop_sim]
  cases ca256_loop RULE30 fuel (load_subkey k c.r) with
  | none => rfl
  | some t => rfl

theorem sep_f_step_rounds (k : Block) (fuel : Nat) (c d : SepCipherState)
    (h : sep_f_step k fuel c = some d) : d.r.rounds = c.r.rounds := by
  simp only [sep_f_step, sep_f_function] at h
  cases hu : sep_ca256_loop RULE30 fuel (sep_load_subkey k c.r) with
  | none => rw [hu] at h; simp at h
  | some u =>
    rw [hu] at h
    simp only [Option.some_bind, Option.some.injEq] at h
    subst h
    have hr := sep_ca_loop_rounds RULE30 CA256 fuel (sep_load_subkey k c.r) u hu
    exact hr

theorem feistel_left_sim (c : CipherState) :
    (feistel_left c).sep = sep_feistel_left c.sep := rfl

theorem feistel_right_sim (c : CipherState) :
    (feistel_right c).sep = sep_feistel_right c.sep := rfl

theorem four_steps_sim (k1 k2 k3 k4 : Block) (fuel : Nat) (c : CipherState) :
    ((f_step k1 fuel c).bind fun c1 =>
      (f_step k2 fuel (feistel_left c1)).bind fun c2 =>
      (f_step k3 fuel (feistel_right c2)).bind fun c3 =>
      (f_step k4 fuel (feistel_left c3)).bind fun c4 =>
      some (feistel_right c4)).map CipherState.sep
    = (sep_f_step k1 fuel c.sep).bind fun c1 =>
      (sep_f_step k2 fuel (sep_feistel_left c1)).bind fun c2 =>
      (sep_f_step k3 fuel (sep_feistel_right c2)).bind fun c3 =>
      (sep_f_step k4 fuel (sep_feistel_left c3)).bind fun c4 =>
      some (sep_feistel_right c4) := by
  rw [← f_step_sim]
  cases f_step k1 fuel c with
  | none => rfl
  | some c1 =>
    simp only [Option.some_bind, Option.map_some']
    rw [← feistel_left_sim, ← f_step_sim]
    cases f_step k2 fuel (feistel_left c1) with
    | none => rfl
    | some c2 =>
      simp only [Option.some_bind, Option.map_some']
      rw [← feistel_right_sim, ← f_step_sim]
      cases f_step k3 fuel (feistel_right c2) with
      | none => rfl
      | some c3 =>
        simp only [Option.some_bind, Option.map_some']
        rw [← feistel_left_sim, ← f_step_sim]
        cases f_step k4 fuel (feistel_left c3) with
        | none => rfl
        | some c4 =>
          simp only [Option.some_bind, Option.map_some']
          rw [← feistel_right_sim]

theorem sep_four_steps_rounds (k1 k2 k3 k4 : Block) (fuel : Nat) (c d : SepCipherState)
    (h : ((sep_f_step k1 fuel c).bind fun c1 =>
      (sep_f_step k2 fuel (sep_feistel_left c1)).bind fun c2 =>
      (sep_f_step k3 fuel (sep_feistel_right c2)).bind fun c3 =>
      (sep_f_step k4 fuel (sep_feistel_left c3)).bind fun c4 =>
      some (sep_feistel_right c4)) = some d) : d.r.rounds = c.r.rounds := by
  cases h1 : sep_f_step k1 fuel c with
  | none => rw [h1] at h; simp at h
  | some c1 =>
    rw [h1] at h
    simp only [Option.some_bind] at h
    cases h2 : sep_f_step k2 fuel (sep_feistel_left c1) with
    | none => rw [h2] at h; simp at h
    | some c2 =>
      rw [h2] at h
      simp only [Option.some_bind] at h
      cases h3 : sep_f_step k3 fuel (sep_feistel_right c2) with
      | none => rw [h3] at h; simp at h
      | some c3 =>
        rw [h3] at h
        simp only [Option.some_bind] at h
        cases h4 : sep_f_step k4 fuel (sep_feistel_left c3) with
        | none => rw [h4] at h; simp at h
        | some c4 =>
          rw [h4] at h
          simp only [Option.some_bind, Option.some.injEq] at h
          subst h
          have a1 := sep_f_step_rounds k1 fuel c c1 h1
          have a2 := sep_f_step_rounds k2 fuel _ c2 h2
          have a3 := sep_f_step_rounds k3 fuel _ c3 h3
          have a4 := sep_f_step_rounds k4 fuel _ c4 h4
          show c4.r.rounds = c.r.rounds
          rw [a4]
          show c3.r.rounds = c.r.rounds
          rw [a3]
          show c2.r.rounds = c.r.rounds
          rw [a2]
          show c1.r.rounds = c.r.rounds
          rw [a1]

theorem rounds_loop_sim (body : CipherState → Option CipherState)
    (body1 : SepCipherState → Option SepCipherState)
    (hs : ∀ c, (body c).map CipherState.sep = body1 c.sep)
    (hr : ∀ c d, body1 c = some d → d.r.rounds = c.r.rounds)
    (fuel : Nat) (c : CipherState) :
    (rounds_loop body fuel c).map CipherState.sep = sep_rounds_loop body1 fuel c.sep := by
  obtain ⟨r1, r2, r3, r4⟩ := fields_rounds_reset c.r.mp
  have e : CipherState.sep { c with r := { c.r with mp := c.r.mp &&& ROUNDS_ZERO } }
      = { c.sep with r := { c.sep.r with rounds := 0 } } := by
    simp only [CipherState.sep, Regs.sep, r1, r2, r3, r4]
  simp only [rounds_loop, sep_rounds_loop]
  rw [← e]
  apply whileLoop_sim
  · intro t; rfl
  · intro t ht
    simp only [decide_eq_true_eq] at ht
    have hg := hs t
    rw [← hg]
    cases hu : body t with
    | none => rfl
    | some u =>
      rw [hu] at hg
      have ho : mp_rounds u.r.mp = mp_rounds t.r.mp := hr t.sep u.sep hg.symm
      have ht1 : mp_rounds t.r.mp < 16 := ht
      have hlt : mp_rounds u.r.mp < 65535 := by
        rw [ho]; omega
      obtain ⟨g1, g2, g3, g4⟩ := fields_rounds_inc u.r.mp hlt
      simp only [Option.some_bind, Option.map_some', Option.some.injEq]
      have e2 : Regs.sep { u.r with mp := add64 u.r.mp ROUNDS_ONE }
          = { u.r.sep with rounds := u.r.sep.rounds + 1 } := by
        simp only [Regs.sep, g1, g2, g3, g4]
      simp only [CipherState.sep, e2]

theorem Regs.sep_set_input (s : Regs) (a b c d : Nat) :
    Regs.sep { s with key_in_reg1 := a, key_in_reg2 := b, key_in_reg3 := c, key_in_reg4 := d }
      = { s.sep with key_in_reg1 := a, key_in_reg2 := b, key_in_reg3 := c,
                     key_in_reg4 := d } := rfl

theorem load_block_sim (b : Block) : (load_block b).sep = sep_load_block b := by
  have h := Regs.sep_set_input Regs.init (0 ^^^ b.w2) (0 ^^^ b.w3) (0 ^^^ b.w2) (0 ^^^ b.w3)
  rw [init_sim] at h
  simp only [load_block, sep_load_block, CipherState.sep]
  rw [h]

theorem store_block_sim (c : CipherState) : sep_store_block c.sep = store_block c := rfl

theorem encrypt_sim (fuel : Nat) (key : scheduled_key) (P : Block) :
    xr30256_encrypt fuel key P = sep_encrypt fuel key P := by
  have h := rounds_loop_sim (encrypt_round key fuel) (sep_encrypt_round key fuel)
    (four_steps_sim key.key_1 key.key_2 key.key_3 key.key_4 fuel)
    (sep_four_steps_rounds key.key_1 key.key_2 key.key_3 key.key_4 fuel)
    fuel (load_block P)
  simp only [xr30256_encrypt, sep_encrypt]
  rw [← load_block_sim, ← h]
  generalize rounds_loop (encrypt_round key fuel) fuel (load_block P) = r
  cases r with
  | none => rfl
  | some c =>
    simp only [Option.some_bind, Option.map_some', store_block_sim]

theorem decrypt_sim (fuel : Nat) (key : scheduled_key) (C : Block) :
    xr30256_decrypt fuel key C = sep_decrypt fuel key C := by
  have h := rounds_loop_sim (decrypt_round key fuel) (sep_decrypt_round key fuel)
    (four_steps_sim key.key_4 key.key_3 key.key_2 key.key_1 fuel)
    (sep_four_steps_rounds key.key_4 key.key_3 key.key_2 key.key_1 fuel)
    fuel (load_block C)
  simp only [xr30256_decrypt, sep_decrypt]
  rw [← load_block_sim, ← h]
  generalize rounds_loop (decrypt_round key fuel) fuel (load_block C) = r
  cases r with
  | none => rfl
  | some c =>
    simp only [Option.some_bind, Option.map_some', store_block_sim]

/-! ## The claims, third part -/

/-- C21 (packed counter register). The word `mp` holds the inner counter in bits 0-7, the
generation counter in bits 8-23, the rounds counter in bits 24-39 and the rotation carry
in bit 63.  Clearing or writing the carry leaves the three counters as they were;
resetting a counter leaves the other two counters and the carry as they were;
incrementing a counter that is not at the top of its field (the loop conditions keep the
counters below 64, 255 and 16) adds one to it and leaves the other two counters and the
carry as they were.  Hence `xr30256_key_schedule`, `xr30256_encrypt` and `xr30256_decrypt`
return, for every input and every fuel, exactly what the versions with three separate
loop counters and a separate boolean carry return, and with fuel above 255 that is a
result. -/
theorem packed_register_refinement :
    (∀ mp, mp_inner mp = mp % 2 ^ 8 ∧ mp_outer mp = mp / 2 ^ 8 % 2 ^ 16 ∧
      mp_rounds mp = mp / 2 ^ 24 % 2 ^ 16 ∧ mp_carry mp = mp.testBit 63) ∧
    (∀ mp, mp_inner (mp &&& LHS_ZERO) = mp_inner mp ∧
      mp_outer (mp &&& LHS_ZERO) = mp_outer mp ∧
      mp_rounds (mp &&& LHS_ZERO) = mp_rounds mp ∧ mp_carry (mp &&& LHS_ZERO) = false) ∧
    (∀ mp x,
      mp_inner ((mp &&& LHS_ZERO) ||| shl (x &&& RHS_ONE) (WORDSIZE - 1)) = mp_inner mp ∧
      mp_outer ((mp &&& LHS_ZERO) ||| shl (x &&& RHS_ONE) (WORDSIZE - 1)) = mp_outer mp ∧
      mp_rounds ((mp &&& LHS_ZERO) ||| shl (x &&& RHS_ONE) (WORDSIZE - 1)) = mp_rounds mp ∧
      mp_carry ((mp &&& LHS_ZERO) ||| shl (x &&& RHS_ONE) (WORDSIZE - 1))
        = decide (x &&& RHS_ONE ≠ 0)) ∧
    (∀ mp x,
      mp_inner ((mp &&& LHS_ZERO) ||| (x &&& LHS_ONE)) = mp_inner mp ∧
      mp_outer ((mp &&& LHS_ZERO) ||| (x &&& LHS_ONE)) = mp_outer mp ∧
      mp_rounds ((mp &&& LHS_ZERO) ||| (x &&& LHS_ONE)) = mp_rounds mp ∧
      mp_carry ((mp &&& LHS_ZERO) ||| (x &&& LHS_ONE)) = decide (x &&& LHS_ONE ≠ 0)) ∧
    (∀ mp, mp_inner (mp &&& INNER_ZERO) = 0 ∧ mp_outer (mp &&& INNER_ZERO) = mp_outer mp ∧
      mp_rounds (mp &&& INNER_ZERO) = mp_rounds mp ∧
      mp_carry (mp &&& INNER_ZERO) = mp_carry mp) ∧
    (∀ mp, mp_inner (mp &&& OUTER_ZERO) = mp_inner mp ∧ mp_outer (mp &&& OUTER_ZERO) = 0 ∧
      mp_rounds (mp &&& OUTER_ZERO) = mp_rounds mp ∧
      mp_carry (mp &&& OUTER_ZERO) = mp_carry mp) ∧
    (∀ mp, mp_inner (mp &&& ROUNDS_ZERO) = mp_inner mp ∧
      mp_outer (mp &&& ROUNDS_ZERO) = mp_outer mp ∧ mp_rounds (mp &&& ROUNDS_ZERO) = 0 ∧
      mp_carry (mp &&& ROUNDS_ZERO) = mp_carry mp) ∧
    (∀ mp, mp_inner mp < 255 →
      mp_inner (add64 mp INNER_ONE) = mp_inner mp + 1 ∧
      mp_outer (add64 mp INNER_ONE) = mp_outer mp ∧
      mp_rounds (add64 mp INNER_ONE) = mp_rounds mp ∧
      mp_carry (add64 mp INNER_ONE) = mp_carry mp) ∧
    (∀ mp, mp_outer mp < 65535 →
      mp_inner (add64 mp OUTER_ONE) = mp_inner mp ∧
      mp_outer (add64 mp OUTER_ONE) = mp_outer mp + 1 ∧
      mp_rounds (add64 mp OUTER_ONE) = mp_rounds mp ∧
      mp_carry (add64 mp OUTER_ONE) = mp_carry mp) ∧
    (∀ mp, mp_rounds mp < 65535 →
      mp_inner (add64 mp ROUNDS_ONE) = mp_inner mp ∧
      mp_outer (add64 mp ROUNDS_ONE) = mp_outer mp ∧
      mp_rounds (add64 mp ROUNDS_ONE) = mp_rounds mp + 1 ∧
      mp_carry (add64 mp ROUNDS_ONE) = mp_carry mp) ∧
    (∀ fuel key, xr30256_key_schedule fuel key = sep_key_schedule fuel key) ∧
    (∀ fuel sk P, xr30256_encrypt fuel sk P = sep_encrypt fuel sk P) ∧
    (∀ fuel sk C, xr30256_decrypt fuel sk C = sep_decrypt fuel sk C) ∧
    (∀ fuel key, 255 < fuel → ∃ sk, sep_key_schedule fuel key = some sk) ∧
    (∀ fuel sk P, 255 < fuel → ∃ C, sep_encrypt fuel sk P = some C) ∧
    (∀ fuel sk C, 255 < fuel → ∃ P, sep_decrypt fuel sk C = some P) := by
  refine ⟨?_, fields_clear_carry, fields_write_carry_low, fields_write_carry_high,
    fields_inner_reset, fields_outer_reset, fields_rounds_reset, fields_inner_inc,
    fields_outer_inc, fields_rounds_inc, key_schedule_sim, encrypt_sim, decrypt_sim,
    ?_, ?_, ?_⟩
  · intro mp
    exact ⟨mp_inner_eq mp, mp_outer_eq mp, mp_rounds_eq mp, mp_carry_testBit mp⟩
  · intro fuel key hf
    rw [← key_schedule_sim]
    exact ⟨_, xr30256_key_schedule_spec fuel key hf⟩
  · intro fuel sk P hf
    rw [← encrypt_sim]
    exact ⟨_, xr30256_encrypt_spec fuel sk P hf⟩
  · intro fuel sk C hf
    rw [← decrypt_sim, xr30256_decrypt_reversed]
    exact ⟨_, xr30256_encrypt_spec fuel _ C hf⟩

/-- C22 (one CA engine). The twelve inlined copies of the CA256 loop are the same text and
are embedded by the one definition `ca256_loop`.  For every rule and any two register
states that agree on the input registers `key_in_reg1..4`, whatever their output
registers `key_out_reg1..4` and their `mp` hold, the loop returns from both, and the
input registers on exit are in both cases the 255-generation evolution of the input
registers on entry. -/
theorem one_ca_engine (rule fuel : Nat) (hf : 255 < fuel) (s1 s2 : Regs)
    (h : s1.input = s2.input) :
    ∃ t1 t2, ca256_loop rule fuel s1 = some t1 ∧ ca256_loop rule fuel s2 = some t2 ∧
      t1.input = evolve rule CA256 s1.input ∧ t2.input = t1.input := by
  obtain ⟨t1, e1, i1, -⟩ := ca256_loop_spec rule fuel s1 hf
  obtain ⟨t2, e2, i2, -⟩ := ca256_loop_spec rule fuel s2 hf
  exact ⟨t1, t2, e1, e2, i1, by rw [i1, i2, h]⟩

/-- Witness of C22: the first mixing vector of the key of `main`, entered once with clean
registers and once with arbitrary values left in the output registers and in `mp`. -/
theorem one_ca_engine_main :
    255 < 256 ∧
    (load_segment_1 main_key Regs.init).input
      = ({ load_segment_1 main_key Regs.init with
          key_out_reg1 := 0xDEADBEEF, key_out_reg2 := 1, key_out_reg3 := 2,
          key_out_reg4 := 0xFFFFFFFFFFFFFFFF, mp := 0x8000000000104040 } : Regs).input ∧
    ∃ t1 t2,
      ca256_loop RULE30 256 (load_segment_1 main_key Regs.init) = some t1 ∧
      ca256_loop RULE30 256
        { load_segment_1 main_key Regs.init with
          key_out_reg1 := 0xDEADBEEF, key_out_reg2 := 1, key_out_reg3 := 2,
          key_out_reg4 := 0xFFFFFFFFFFFFFFFF, mp := 0x8000000000104040 } = some t2 ∧
      t1.input = evolve RULE30 CA256 (load_segment_1 main_key Regs.init).input ∧
      t2.input = t1.input :=
  ⟨by decide, rfl, one_ca_engine RULE30 256 (by decide) _ _ rfl⟩

/-- C23 (translation invariance). For every rule, every register `R` of four 64-bit words
and every generation count `n`, evolving the rotation of `R` by one bit (to the right or
to the left) gives the rotation by one bit of the evolution of `R`; the same holds for the
rotation by any number `k` of bits, and the cyclic permutation of the four limbs is the
rotation by 64 bits, so evolution commutes with it.  For the CA256 loop of the source:
entered with the input register rotated by `k` bits, it returns with the input register
rotated by `k` bits. -/
theorem translation_invariance (rule n fuel : Nat) (R : Block) (hR : R.wf)
    (hf : 255 < fuel) :
    evolve rule n (rotate_right R) = rotate_right (evolve rule n R) ∧
    evolve rule n (rotate_left R) = rotate_left (evolve rule n R) ∧
    (∀ k, evolve rule n (rotate_right^[k] R) = rotate_right^[k] (evolve rule n R)) ∧
    (∀ k, evolve rule n (rotate_left^[k] R) = rotate_left^[k] (evolve rule n R)) ∧
    rotate_limbs R = rotate_right^[64] R ∧
    evolve rule n (rotate_limbs R) = rotate_limbs (evolve rule n R) ∧
    ∀ (k : Nat) (s s1 : Regs), s.input = R → s1.input = rotate_right^[k] R →
      ∃ t t1, ca256_loop rule fuel s = some t ∧ ca256_loop rule fuel s1 = some t1 ∧
        t1.input = rotate_right^[k] t.input := by
  refine ⟨evolve_rotate_right_iterate rule n 1 R hR, evolve_rotate_left_iterate rule n 1 R hR,
    fun k => evolve_rotate_right_iterate rule n k R hR,
    fun k => evolve_rotate_left_iterate rule n k R hR,
    rotate_limbs_eq_iterate R hR,
    evolve_commute rule rotate_limbs (ca_step_rotate_limbs rule) n R hR, ?_⟩
  intro k s s1 h h1
  obtain ⟨t, e, i, -⟩ := ca256_loop_spec rule fuel s hf
  obtain ⟨t1, e1, i1, -⟩ := ca256_loop_spec rule fuel s1 hf
  refine ⟨t, t1, e, e1, ?_⟩
  rw [i1, h1, i, h, evolve_rotate_right_iterate rule CA256 k R hR]

/-- Witness of C23 at the key of `main` read as a register, rule 30 and 255 generations. -/
theorem translation_invariance_main :
    main_key.wf ∧ 255 < 256 ∧
    evolve RULE30 CA256 (rotate_right main_key)
      = rotate_right (evolve RULE30 CA256 main_key) ∧
    evolve RULE30 CA256 (rotate_left main_key) = rotate_left (evolve RULE30 CA256 main_key) ∧
    (∀ k, evolve RULE30 CA256 (rotate_right^[k] main_key)
      = rotate_right^[k] (evolve RULE30 CA256 main_key)) ∧
    (∀ k, evolve RULE30 CA256 (rotate_left^[k] main_key)
      = rotate_left^[k] (evolve RULE30 CA256 main_key)) ∧
    rotate_limbs main_key = rotate_right^[64] main_key ∧
    evolve RULE30 CA256 (rotate_limbs main_key)
      = rotate_limbs (evolve RULE30 CA256 main_key) ∧
    ∀ (k : Nat) (s s1 : Regs), s.input = main_key → s1.input = rotate_right^[k] main_key →
      ∃ t t1, ca256_loop RULE30 256 s = some t ∧ ca256_loop RULE30 256 s1 = some t1 ∧
        t1.input = rotate_right^[k] t.input :=
  ⟨by decide, by decide,
    translation_invariance RULE30 CA256 256 main_key (by decide) (by decide)⟩

/-- C24 (degenerate round function). For every subkey `K` of four 64-bit words with
`K[0] = K[2]` and `K[1] = K[3]` and every half `V` of two 64-bit words, the round function
value `F(K,V)` is `(0,0)`, so XORing it into a half leaves that half unchanged; in the
code: an F-function block entered with `V` in the input registers returns with all four
input registers zero, and the Feistel XOR that follows leaves both halves of the block as
they were. -/
theorem degenerate_round_function (K : Block) (V : Nat × Nat) (fuel : Nat) (hK : K.wf)
    (hKe : K.halves_equal) (h1 : V.1 < 2 ^ 64) (h2 : V.2 < 2 ^ 64) (hf : 255 < fuel) :
    round_function K V = (0, 0) ∧
    (∀ T : Nat × Nat, xor_half T (round_function K V) = T) ∧
    ∀ c : CipherState, c.source V →
      ∃ c1, f_step K fuel c = some c1 ∧ c1.r.input = ⟨0, 0, 0, 0⟩ ∧
        (feistel_left c1).halves = c.halves ∧ (feistel_right c1).halves = c.halves := by
  have hz := round_function_degenerate K V hK hKe h1 h2
  refine ⟨hz, ?_, ?_⟩
  · intro T
    rw [hz]
    simp [xor_half]
  · intro c hc
    obtain ⟨c1, e1, i1, p1, -⟩ := f_step_spec K fuel c V hf hc
    rw [hz] at i1
    obtain ⟨l, -, -⟩ := feistel_left_spec c1 (0, 0) i1
    obtain ⟨r, -, -⟩ := feistel_right_spec c1 (0, 0) i1
    refine ⟨c1, e1, i1, ?_, ?_⟩
    · rw [l, p1]; simp [xor_half]
    · rw [r, p1]; simp [xor_half]

/-- Witness of C24: the subkey made of the first two words of the key of `main` repeated,
and the right half of the plaintext of `main`. -/
theorem degenerate_round_function_main :
    Block.wf ⟨main_key.w0, main_key.w1, main_key.w0, main_key.w1⟩ ∧
    Block.halves_equal ⟨main_key.w0, main_key.w1, main_key.w0, main_key.w1⟩ ∧
    main_plaintext.w2 < 2 ^ 64 ∧ main_plaintext.w3 < 2 ^ 64 ∧ 255 < 256 ∧
    round_function ⟨main_key.w0, main_key.w1, main_key.w0, main_key.w1⟩
      (main_plaintext.w2, main_plaintext.w3) = (0, 0) ∧
    (∀ T : Nat × Nat, xor_half T (round_function
      ⟨main_key.w0, main_key.w1, main_key.w0, main_key.w1⟩
      (main_plaintext.w2, main_plaintext.w3)) = T) ∧
    ∀ c : CipherState, c.source (main_plaintext.w2, main_plaintext.w3) →
      ∃ c1, f_step ⟨main_key.w0, main_key.w1, main_key.w0, main_key.w1⟩ 256 c = some c1 ∧
        c1.r.input = ⟨0, 0, 0, 0⟩ ∧
        (feistel_left c1).halves = c.halves ∧ (feistel_right c1).halves = c.halves :=
  ⟨by decide, by decide, by decide, by decide, by decide,
    degenerate_round_function ⟨main_key.w0, main_key.w1, main_key.w0, main_key.w1⟩
      (main_plaintext.w2, main_plaintext.w3) 256 (by decide) (by decide) (by decide)
      (by decide) (by decide)⟩

/-- C25 (all-zero weak key). For the master key `(0,0,0,0)` the key schedule returns four
all-zero subkeys, and for every plaintext `(p0,p1,p2,p3)` of 64-bit words encryption under
that scheduled key returns `(p2,p3,p0,p1)`. -/
theorem all_zero_weak_key (fuel : Nat) (hf : 255 < fuel) (P : Block) (hP : P.wf) :
    xr30256_key_schedule fuel ⟨0, 0, 0, 0⟩
      = some ⟨⟨0, 0, 0, 0⟩, ⟨0, 0, 0, 0⟩, ⟨0, 0, 0, 0⟩, ⟨0, 0, 0, 0⟩⟩ ∧
    xr30256_encrypt fuel ⟨⟨0, 0, 0, 0⟩, ⟨0, 0, 0, 0⟩, ⟨0, 0, 0, 0⟩, ⟨0, 0, 0, 0⟩⟩ P
      = some ⟨P.w2, P.w3, P.w0, P.w1⟩ := by
  refine ⟨key_schedule_zero fuel hf, ?_⟩
  rw [xr30256_encrypt_spec fuel _ P hf, feistel_encrypt_degenerate _ zero_subkeys_degenerate P hP]

/-- Witness of C25 at the plaintext of `main`. -/
theorem all_zero_weak_key_main :
    255 < 256 ∧ main_plaintext.wf ∧
    xr30256_key_schedule 256 ⟨0, 0, 0, 0⟩
      = some ⟨⟨0, 0, 0, 0⟩, ⟨0, 0, 0, 0⟩, ⟨0, 0, 0, 0⟩, ⟨0, 0, 0, 0⟩⟩ ∧
    xr30256_encrypt 256 ⟨⟨0, 0, 0, 0⟩, ⟨0, 0, 0, 0⟩, ⟨0, 0, 0, 0⟩, ⟨0, 0, 0, 0⟩⟩ main_plaintext
      = some ⟨main_plaintext.w2, main_plaintext.w3, main_plaintext.w0, main_plaintext.w1⟩ :=
  ⟨by decide, by decide, all_zero_weak_key 256 (by decide) main_plaintext (by decide)⟩

/-- C26 (a non-zero totally weak key). For the master key `(2^32, 2^32, 2^32, 2^32)` each
of the four mixing vectors loaded by the key schedule has four limbs `2^32`, the key
schedule returns a scheduled key whose four subkeys each have equal left and right
halves, and for every plaintext `(p0,p1,p2,p3)` of 64-bit words encryption under it
returns `(p2,p3,p0,p1)`. -/
theorem nonzero_weak_key (fuel : Nat) (hf : 255 < fuel) :
    (∀ s : Regs,
      (load_segment_1 ⟨2 ^ 32, 2 ^ 32, 2 ^ 32, 2 ^ 32⟩ s).input
        = ⟨2 ^ 32, 2 ^ 32, 2 ^ 32, 2 ^ 32⟩ ∧
      (load_segment_2 ⟨2 ^ 32, 2 ^ 32, 2 ^ 32, 2 ^ 32⟩ s).input
        = ⟨2 ^ 32, 2 ^ 32, 2 ^ 32, 2 ^ 32⟩ ∧
      (load_segment_3 ⟨2 ^ 32, 2 ^ 32, 2 ^ 32, 2 ^ 32⟩ s).input
        = ⟨2 ^ 32, 2 ^ 32, 2 ^ 32, 2 ^ 32⟩ ∧
      (load_segment_4 ⟨2 ^ 32, 2 ^ 32, 2 ^ 32, 2 ^ 32⟩ s).input
        = ⟨2 ^ 32, 2 ^ 32, 2 ^ 32, 2 ^ 32⟩) ∧
    ∃ sk, xr30256_key_schedule fuel ⟨2 ^ 32, 2 ^ 32, 2 ^ 32, 2 ^ 32⟩ = some sk ∧
      sk.key_1.halves_equal ∧ sk.key_2.halves_equal ∧ sk.key_3.halves_equal ∧
      sk.key_4.halves_equal ∧
      ∀ P : Block, P.wf → xr30256_encrypt fuel sk P = some ⟨P.w2, P.w3, P.w0, P.w1⟩ := by
  have hp : (2 : Nat) ^ 32 = 4294967296 := by norm_num
  have hl : ∀ s : Regs,
      (load_segment_1 ⟨2 ^ 32, 2 ^ 32, 2 ^ 32, 2 ^ 32⟩ s).input
        = ⟨2 ^ 32, 2 ^ 32, 2 ^ 32, 2 ^ 32⟩ ∧
      (load_segment_2 ⟨2 ^ 32, 2 ^ 32, 2 ^ 32, 2 ^ 32⟩ s).input
        = ⟨2 ^ 32, 2 ^ 32, 2 ^ 32, 2 ^ 32⟩ ∧
      (load_segment_3 ⟨2 ^ 32, 2 ^ 32, 2 ^ 32, 2 ^ 32⟩ s).input
        = ⟨2 ^ 32, 2 ^ 32, 2 ^ 32, 2 ^ 32⟩ ∧
      (load_segment_4 ⟨2 ^ 32, 2 ^ 32, 2 ^ 32, 2 ^ 32⟩ s).input
        = ⟨2 ^ 32, 2 ^ 32, 2 ^ 32, 2 ^ 32⟩ := by
    intro s
    simp only [hp, load_segment_1, load_segment_2, load_segment_3, load_segment_4, Regs.input,
      mixing_two_pow_32, and_self]
  refine ⟨hl, _, xr30256_key_schedule_spec fuel _ hf, ?_⟩
  obtain ⟨l1, l2, l3, l4⟩ := hl Regs.init
  have hw : Block.wf ⟨2 ^ 32, 2 ^ 32, 2 ^ 32, 2 ^ 32⟩ := by decide
  have he : Block.halves_equal ⟨2 ^ 32, 2 ^ 32, 2 ^ 32, 2 ^ 32⟩ := by decide
  have hd := evolve_halves_equal RULE30 CA256 _ hw he
  simp only [l1, l2, l3, l4]
  refine ⟨hd.2, hd.2, hd.2, hd.2, ?_⟩
  intro P hP
  rw [xr30256_encrypt_spec fuel _ P hf]
  rw [feistel_encrypt_degenerate _ ⟨hd, hd, hd, hd⟩ P hP]

/-- Witness of C26 with fuel 256. -/
theorem nonzero_weak_key_main :
    255 < 256 ∧
    (∀ s : Regs,
      (load_segment_1 ⟨2 ^ 32, 2 ^ 32, 2 ^ 32, 2 ^ 32⟩ s).input
        = ⟨2 ^ 32, 2 ^ 32, 2 ^ 32, 2 ^ 32⟩ ∧
      (load_segment_2 ⟨2 ^ 32, 2 ^ 32, 2 ^ 32, 2 ^ 32⟩ s).input
        = ⟨2 ^ 32, 2 ^ 32, 2 ^ 32, 2 ^ 32⟩ ∧
      (load_segment_3 ⟨2 ^ 32, 2 ^ 32, 2 ^ 32, 2 ^ 32⟩ s).input
        = ⟨2 ^ 32, 2 ^ 32, 2 ^ 32, 2 ^ 32⟩ ∧
      (load_segment_4 ⟨2 ^ 32, 2 ^ 32, 2 ^ 32, 2 ^ 32⟩ s).input
        = ⟨2 ^ 32, 2 ^ 32, 2 ^ 32, 2 ^ 32⟩) ∧
    ∃ sk, xr30256_key_schedule 256 ⟨2 ^ 32, 2 ^ 32, 2 ^ 32, 2 ^ 32⟩ = some sk ∧
      sk.key_1.halves_equal ∧ sk.key_2.halves_equal ∧ sk.key_3.halves_equal ∧
      sk.key_4.halves_equal ∧
      ∀ P : Block, P.wf → xr30256_encrypt 256 sk P = some ⟨P.w2, P.w3, P.w0, P.w1⟩ :=
  ⟨by decide, nonzero_weak_key 256 (by decide)⟩

/-- C27 (a zero key word gives a zero subkey). For every master key `(k[0],k[1],k[2],k[3])`
the key schedule returns a scheduled key in which, for each `j` of `1..4`, the subkey
`Kj` is all-zero whenever `k[j-1] = 0`, whatever the other three key words are. -/
theorem zero_word_zero_subkey (fuel : Nat) (hf : 255 < fuel) (key : Block) :
    ∃ sk, xr30256_key_schedule fuel key = some sk ∧
      (key.w0 = 0 → sk.key_1 = ⟨0, 0, 0, 0⟩) ∧ (key.w1 = 0 → sk.key_2 = ⟨0, 0, 0, 0⟩) ∧
      (key.w2 = 0 → sk.key_3 = ⟨0, 0, 0, 0⟩) ∧ (key.w3 = 0 → sk.key_4 = ⟨0, 0, 0, 0⟩) := by
  refine ⟨_, xr30256_key_schedule_spec fuel key hf, ?_, ?_, ?_, ?_⟩
  · intro h
    have e : (load_segment_1 key Regs.init).input = ⟨0, 0, 0, 0⟩ := by
      simp only [load_segment_1, Regs.input, h, add64_mul64_zero]
    show evolve RULE30 CA256 _ = _
    rw [e, evolve_zero]
  · intro h
    have e : (load_segment_2 key Regs.init).input = ⟨0, 0, 0, 0⟩ := by
      simp only [load_segment_2, Regs.input, h, add64_mul64_zero]
    show evolve RULE30 CA256 _ = _
    rw [e, evolve_zero]
  · intro h
    have e : (load_segment_3 key Regs.init).input = ⟨0, 0, 0, 0⟩ := by
      simp only [load_segment_3, Regs.input, h, add64_mul64_zero]
    show evolve RULE30 CA256 _ = _
    rw [e, evolve_zero]
  · intro h
    have e : (load_segment_4 key Regs.init).input = ⟨0, 0, 0, 0⟩ := by
      simp only [load_segment_4, Regs.input, h, add64_mul64_zero]
    show evolve RULE30 CA256 _ = _
    rw [e, evolve_zero]

/-- Witness of C27: the key of `main` with its second word set to zero has an all-zero
second subkey. -/
theorem zero_word_zero_subkey_main :
    255 < 256 ∧
    ∃ sk, xr30256_key_schedule 256 ⟨main_key.w0, 0, main_key.w2, main_key.w3⟩ = some sk ∧
      sk.key_2 = ⟨0, 0, 0, 0⟩ := by
  obtain ⟨sk, h, -, h2, -, -⟩ :=
    zero_word_zero_subkey 256 (by decide) ⟨main_key.w0, 0, main_key.w2, main_key.w3⟩
  exact ⟨by decide, sk, h, h2 rfl⟩

/-- C28 (the key schedule is not injective). The two distinct master keys `(0,0,0,0)` and
`(0xFFFFFFFFFFFFFFFF,0,0,0)` both schedule to four all-zero subkeys. -/
theorem key_schedule_not_injective (fuel : Nat) (hf : 255 < fuel) :
    (⟨0, 0, 0, 0⟩ : Block) ≠ ⟨0xFFFFFFFFFFFFFFFF, 0, 0, 0⟩ ∧
    xr30256_key_schedule fuel ⟨0, 0, 0, 0⟩
      = some ⟨⟨0, 0, 0, 0⟩, ⟨0, 0, 0, 0⟩, ⟨0, 0, 0, 0⟩, ⟨0, 0, 0, 0⟩⟩ ∧
    xr30256_key_schedule fuel ⟨0xFFFFFFFFFFFFFFFF, 0, 0, 0⟩
      = some ⟨⟨0, 0, 0, 0⟩, ⟨0, 0, 0, 0⟩, ⟨0, 0, 0, 0⟩, ⟨0, 0, 0, 0⟩⟩ :=
  ⟨by decide, key_schedule_zero fuel hf, key_schedule_ones_word fuel hf⟩

/-- Witness of C28 with fuel 256. -/
theorem key_schedule_not_injective_main :
    255 < 256 ∧
    (⟨0, 0, 0, 0⟩ : Block) ≠ ⟨0xFFFFFFFFFFFFFFFF, 0, 0, 0⟩ ∧
    xr30256_key_schedule 256 ⟨0, 0, 0, 0⟩
      = some ⟨⟨0, 0, 0, 0⟩, ⟨0, 0, 0, 0⟩, ⟨0, 0, 0, 0⟩, ⟨0, 0, 0, 0⟩⟩ ∧
    xr30256_key_schedule 256 ⟨0xFFFFFFFFFFFFFFFF, 0, 0, 0⟩
      = some ⟨⟨0, 0, 0, 0⟩, ⟨0, 0, 0, 0⟩, ⟨0, 0, 0, 0⟩, ⟨0, 0, 0, 0⟩⟩ :=
  ⟨by decide, key_schedule_not_injective 256 (by decide)⟩

/-- C29 (equivalent subkeys). For every subkey `K = (a,b,c,d)` of 64-bit words and every
half `V` of 64-bit words, `F(K,V) = F(K',V)` where `K' = (c,d,a,b)`, both for the
reference round function and for the F-function block of the source entered with `V` in
the input registers.  Hence for every scheduled key and block of 64-bit words, swapping
the halves of any selection of the four subkeys changes neither the result of
`xr30256_encrypt` nor the result of `xr30256_decrypt`. -/
theorem equivalent_subkeys (fuel : Nat) (K : Block) (V : Nat × Nat) (sk : scheduled_key)
    (B : Block) (b1 b2 b3 b4 : Bool) (hf : 255 < fuel) (hK : K.wf)
    (h1 : V.1 < 2 ^ 64) (h2 : V.2 < 2 ^ 64) (hsk : sk.wf) (hB : B.wf) :
    round_function (swap_halves K) V = round_function K V ∧
    (∀ s : Regs, s.input = ⟨V.1, V.2, V.1, V.2⟩ →
      ∃ t t1, f_function K fuel s = some t ∧ f_function (swap_halves K) fuel s = some t1 ∧
        t1.input = t.input) ∧
    (∃ C, xr30256_encrypt fuel sk B = some C ∧
      xr30256_encrypt fuel (sk.swap_some b1 b2 b3 b4) B = some C) ∧
    (∃ D, xr30256_decrypt fuel sk B = some D ∧
      xr30256_decrypt fuel (sk.swap_some b1 b2 b3 b4) B = some D) := by
  have hr := round_function_swap_halves K V hK h1 h2
  refine ⟨hr, ?_, ⟨_, xr30256_encrypt_spec fuel sk B hf, ?_⟩,
    ⟨feistel_encrypt sk.reversed B, ?_, ?_⟩⟩
  · intro s hs
    obtain ⟨t, e, i, -⟩ := f_function_spec K fuel s V hf hs
    obtain ⟨t1, e1, i1, -⟩ := f_function_spec (swap_halves K) fuel s V hf hs
    refine ⟨t, t1, e, e1, ?_⟩
    rw [i1, i, hr]
  · rw [xr30256_encrypt_spec fuel _ B hf, feistel_encrypt_swap_some b1 b2 b3 b4 sk hsk B hB]
  · rw [xr30256_decrypt_reversed, xr30256_encrypt_spec fuel _ B hf]
  · rw [xr30256_decrypt_reversed, xr30256_encrypt_spec fuel _ B hf, swap_some_reversed,
      feistel_encrypt_swap_some b4 b3 b2 b1 _ (scheduled_key.reversed_wf sk hsk) B hB]

/-- Witness of C29: the key of `main` as subkey, a scheduled key made of the key and the
plaintext of `main`, the first and third subkeys swapped. -/
theorem equivalent_subkeys_main :
    255 < 256 ∧ main_key.wf ∧ main_plaintext.w0 < 2 ^ 64 ∧ main_plaintext.w1 < 2 ^ 64 ∧
    scheduled_key.wf ⟨main_key, main_plaintext, main_plaintext, main_key⟩ ∧
    main_plaintext.wf ∧
    round_function (swap_halves main_key) (main_plaintext.w0, main_plaintext.w1)
      = round_function main_key (main_plaintext.w0, main_plaintext.w1) ∧
    (∀ s : Regs,
      s.input = ⟨main_plaintext.w0, main_plaintext.w1, main_plaintext.w0, main_plaintext.w1⟩ →
      ∃ t t1, f_function main_key 256 s = some t ∧
        f_function (swap_halves main_key) 256 s = some t1 ∧ t1.input = t.input) ∧
    (∃ C, xr30256_encrypt 256 ⟨main_key, main_plaintext, main_plaintext, main_key⟩
        main_plaintext = some C ∧
      xr30256_encrypt 256 (scheduled_key.swap_some true false true false
        ⟨main_key, main_plaintext, main_plaintext, main_key⟩) main_plaintext = some C) ∧
    (∃ D, xr30256_decrypt 256 ⟨main_key, main_plaintext, main_plaintext, main_key⟩
        main_plaintext = some D ∧
      xr30256_decrypt 256 (scheduled_key.swap_some true false true false
        ⟨main_key, main_plaintext, main_plaintext, main_key⟩) main_plaintext = some D) :=
  ⟨by decide, by decide, by decide, by decide, by decide, by decide,
    equivalent_subkeys 256 main_key (main_plaintext.w0, main_plaintext.w1)
      ⟨main_key, main_plaintext, main_plaintext, main_key⟩ main_plaintext true false true false
      (by decide) (by decide) (by decide) (by decide) (by decide) (by decide)⟩

/-- C30 (fixed point and collapse). Under rule 30 the all-zero register evolves to the
all-zero register for every generation count, and the all-ones register evolves to the
all-zero register for every generation count of at least 1.  So the CA256 loop of the
source is not injective: entered with the all-zero and with the all-ones input register,
two different inputs, it returns the all-zero input register both times. -/
theorem ca_fixed_point_and_collapse (fuel : Nat) (hf : 255 < fuel) :
    (∀ n, evolve RULE30 n ⟨0, 0, 0, 0⟩ = ⟨0, 0, 0, 0⟩) ∧
    (∀ n, 1 ≤ n → evolve RULE30 n ⟨0xFFFFFFFFFFFFFFFF, 0xFFFFFFFFFFFFFFFF,
      0xFFFFFFFFFFFFFFFF, 0xFFFFFFFFFFFFFFFF⟩ = ⟨0, 0, 0, 0⟩) ∧
    (∀ s1 s2 : Regs, s1.input = ⟨0, 0, 0, 0⟩ →
      s2.input = ⟨0xFFFFFFFFFFFFFFFF, 0xFFFFFFFFFFFFFFFF, 0xFFFFFFFFFFFFFFFF,
        0xFFFFFFFFFFFFFFFF⟩ →
      s1.input ≠ s2.input ∧
      ∃ t1 t2, ca256_loop RULE30 fuel s1 = some t1 ∧ ca256_loop RULE30 fuel s2 = some t2 ∧
        t1.input = ⟨0, 0, 0, 0⟩ ∧ t2.input = ⟨0, 0, 0, 0⟩) := by
  refine ⟨evolve_zero, evolve_ones, ?_⟩
  intro s1 s2 h1 h2
  obtain ⟨t1, e1, i1, -⟩ := ca256_loop_spec RULE30 fuel s1 hf
  obtain ⟨t2, e2, i2, -⟩ := ca256_loop_spec RULE30 fuel s2 hf
  refine ⟨?_, t1, t2, e1, e2, ?_, ?_⟩
  · rw [h1, h2]; decide
  · rw [i1, h1, evolve_zero]
  · rw [i2, h2, evolve_ones CA256 (by decide)]

/-- Witness of C30 with fuel 256. -/
theorem ca_fixed_point_and_collapse_main :
    255 < 256 ∧
    (∀ n, evolve RULE30 n ⟨0, 0, 0, 0⟩ = ⟨0, 0, 0, 0⟩) ∧
    (∀ n, 1 ≤ n → evolve RULE30 n ⟨0xFFFFFFFFFFFFFFFF, 0xFFFFFFFFFFFFFFFF,
      0xFFFFFFFFFFFFFFFF, 0xFFFFFFFFFFFFFFFF⟩ = ⟨0, 0, 0, 0⟩) ∧
    (∀ s1 s2 : Regs, s1.input = ⟨0, 0, 0, 0⟩ →
      s2.input = ⟨0xFFFFFFFFFFFFFFFF, 0xFFFFFFFFFFFFFFFF, 0xFFFFFFFFFFFFFFFF,
        0xFFFFFFFFFFFFFFFF⟩ →
      s1.input ≠ s2.input ∧
      ∃ t1 t2, ca256_loop RULE30 256 s1 = some t1 ∧ ca256_loop RULE30 256 s2 = some t2 ∧
        t1.input = ⟨0, 0, 0, 0⟩ ∧ t2.input = ⟨0, 0, 0, 0⟩) :=
  ⟨by decide, ca_fixed_point_and_collapse 256 (by decide)⟩

/-! ## Lemmas: the states of the inner loop and the checked shifts -/

theorem whileStates_inv {σ : Type} (cond : σ → Bool) (body : σ → Option σ) (f : σ → σ)
    (P : Nat → σ → Prop) (n : Nat)
    (hstep : ∀ i s, i < n → P i s → cond s = true ∧ body s = some (f s) ∧ P (i + 1) (f s))
    (hexit : ∀ s, P n s → cond s = false) :
    ∀ (k i : Nat) (s : σ) (fuel : Nat), i + k = n → P i s → k < fuel →
      ∃ l, whileStates cond body fuel s = some l ∧ l.length = k ∧
        ∀ (j : Nat) (h : j < l.length), P (i + j) (l.get ⟨j, h⟩) := by
  intro k
  induction k with
  | zero =>
    intro i s fuel hik hP hf
    have hi : i = n := by omega
    subst hi
    obtain ⟨fuel, rfl⟩ : ∃ g, fuel = g + 1 := ⟨fuel - 1, by omega⟩
    refine ⟨[], by simp [whileStates, hexit s hP], rfl, ?_⟩
    intro j h
    simp at h
  | succ k ih =>
    intro i s fuel hik hP hf
    obtain ⟨fuel, rfl⟩ : ∃ g, fuel = g + 1 := ⟨fuel - 1, by omega⟩
    obtain ⟨hc, hb, hP1⟩ := hstep i s (by omega) hP
    obtain ⟨l, hl, hlen, hall⟩ := ih (i + 1) (f s) fuel (by omega) hP1 (by omega)
    refine ⟨s :: l, by simp [whileStates, hc, hb, hl], by simp [hlen], ?_⟩
    intro j h
    cases j with
    | zero => exact hP
    | succ j =>
      have h2 : j < l.length := by simpa using h
      have := hall j h2
      have e : i + (j + 1) = i + 1 + j := by omega
      rw [e]
      exact this

theorem whileLoop_congr {σ : Type} (cond : σ → Bool) (body body1 : σ → Option σ)
    (h : ∀ s, cond s = true → body s = body1 s) :
    ∀ (fuel : Nat) (s : σ), whileLoop cond body fuel s = whileLoop cond body1 fuel s := by
  intro fuel
  induction fuel with
  | zero => intro s; rfl
  | succ fuel ih =>
    intro s
    simp only [whileLoop]
    by_cases c : cond s = true
    · rw [if_pos c, if_pos c, h s c]
      cases body1 s with
      | none => rfl
      | some t => exact ih t
    · rw [if_neg c, if_neg c]

theorem and_CELL_MASK_le (x : Nat) : x &&& CELL_MASK ≤ 7 := Nat.and_le_right

theorem shr_checked_cell (rule x : Nat) :
    shr_checked rule (x &&& CELL_MASK) = some (rule >>> (x &&& CELL_MASK)) := by
  have h : x &&& CELL_MASK < WORDSIZE :=
    lt_of_le_of_lt (and_CELL_MASK_le x) (by decide)
  simp only [shr_checked, if_pos h]

theorem shl_checked_lt (a n : Nat) (h : n < WORDSIZE) : shl_checked a n = some (shl a n) := by
  simp only [shl_checked, if_pos h]

theorem shr_checked_one (a : Nat) : shr_checked a RHS_ONE = some (a >>> RHS_ONE) := by
  have h : RHS_ONE < WORDSIZE := by decide
  simp only [shr_checked, if_pos h]

theorem inner_body_checked_eq (rule : Nat) (t : Regs) (h : (t.mp &&& INNER_COUNT) < WORDSIZE) :
    inner_body_checked rule t = some (inner_body rule t) := by
  have h63 : WORDSIZE - 1 < WORDSIZE := by decide
  simp only [inner_body_checked, lookup_checked, shift_in_checked, shr_checked_cell,
    shl_checked_lt _ _ h, shl_checked_lt _ _ h63, shr_checked_one, Option.some_bind]
  rfl

theorem inner_loop_checked_eq (rule fuel : Nat) (s : Regs) :
    inner_loop_checked rule fuel s = inner_loop rule fuel s := by
  simp only [inner_loop_checked, inner_loop]
  apply whileLoop_congr
  intro t ht
  simp only [decide_eq_true_eq] at ht
  rw [inner_body_checked_eq rule t ht]
  rfl

theorem carry_keeps_inner_count (mp : Nat) :
    (mp ||| LHS_ONE) &&& INNER_COUNT = mp &&& INNER_COUNT := by
  have e : INNER_COUNT &&& LHS_ONE = 0 := by decide
  rw [Nat.and_comm, Nat.and_or_distrib_left, e, Nat.or_zero, Nat.and_comm]

theorem inner_loop_states_spec (rule fuel : Nat) (s : Regs) (hf : 64 < fuel) :
    ∃ l, inner_loop_states rule fuel s = some l ∧ l.length = 64 ∧
      ∀ (j : Nat) (h : j < l.length), (l.get ⟨j, h⟩).mp % 256 = j := by
  obtain ⟨l, h1, h2, h3⟩ := whileStates_inv
    (fun t : Regs => decide ((t.mp &&& INNER_COUNT) < WORDSIZE))
    (fun t => some (inner_iter rule t)) (inner_iter rule)
    (fun c t => t.mp % 256 = c) 64
    (by
      rintro i t hi h1
      obtain ⟨a1, -⟩ := inner_iter_spec rule t (by omega)
      refine ⟨?_, rfl, ?_⟩
      · simp only [and_INNER_COUNT, WORDSIZE, decide_eq_true_eq]; omega
      · omega)
    (by
      rintro t h1
      simp only [and_INNER_COUNT, WORDSIZE, decide_eq_false_iff_not]; omega)
    64 0 { s with mp := s.mp &&& INNER_ZERO } fuel (by omega)
    (by simp only [and_INNER_ZERO]; omega)
    hf
  refine ⟨l, h1, h2, ?_⟩
  intro j h
  have := h3 j h
  simpa using this

/-! ## The claims, fourth part -/

/-- C31 (shift amounts stay in range). For every rule and every register state on entry
(any input and output registers, any `mp`, its carry bit set or not), the inner loop enters
its body 64 times; at the `i`-th entry, counted from 0, the left-shift amount
`mp & INNER_COUNT` is exactly `i`, hence between 0 and 63, and the four rule-table shift
amounts `key_in_regN & CELL_MASK` are between 0 and 7.  Setting the carry bit of `mp` does
not change `mp & INNER_COUNT`.  Consequently the inner loop run with every shift of its
body checked against the word size (the shifts by `WORDSIZE - 1` and by `RHS_ONE`
included) never meets a shift by 64 or more: it returns, and returns the same registers
as the loop of the embedding. -/
theorem shift_amounts_in_range (rule fuel : Nat) (s : Regs) (hf : 64 < fuel) :
    (∃ l, inner_loop_states rule fuel s = some l ∧ l.length = 64 ∧
      ∀ (i : Nat) (h : i < l.length),
        (l.get ⟨i, h⟩).mp &&& INNER_COUNT = i ∧
        (l.get ⟨i, h⟩).mp &&& INNER_COUNT ≤ 63 ∧
        (l.get ⟨i, h⟩).key_in_reg1 &&& CELL_MASK ≤ 7 ∧
        (l.get ⟨i, h⟩).key_in_reg2 &&& CELL_MASK ≤ 7 ∧
        (l.get ⟨i, h⟩).key_in_reg3 &&& CELL_MASK ≤ 7 ∧
        (l.get ⟨i, h⟩).key_in_reg4 &&& CELL_MASK ≤ 7) ∧
    (∀ mp, (mp ||| LHS_ONE) &&& INNER_COUNT = mp &&& INNER_COUNT) ∧
    inner_loop_checked rule fuel s = inner_loop rule fuel s ∧
    ∃ t, inner_loop_checked rule fuel s = some t := by
  obtain ⟨l, h1, h2, h3⟩ := inner_loop_states_spec rule fuel s hf
  obtain ⟨t, ht, -⟩ := inner_loop_spec rule fuel s hf
  refine ⟨⟨l, h1, h2, ?_⟩, carry_keeps_inner_count, inner_loop_checked_eq rule fuel s,
    t, by rw [inner_loop_checked_eq, ht]⟩
  intro i h
  have hi := h3 i h
  have hlt : i < 64 := by omega
  rw [and_INNER_COUNT]
  exact ⟨hi, by omega, and_CELL_MASK_le _, and_CELL_MASK_le _, and_CELL_MASK_le _,
    and_CELL_MASK_le _⟩

/-- Witness of C31: the inner loop entered with the first mixing vector of the key of
`main` in the input registers and the carry bit of `mp` set. -/
theorem shift_amounts_in_range_main :
    64 < 65 ∧
    (∃ l, inner_loop_states RULE30 65
        { load_segment_1 main_key Regs.init with mp := LHS_ONE } = some l ∧ l.length = 64 ∧
      ∀ (i : Nat) (h : i < l.length),
        (l.get ⟨i, h⟩).mp &&& INNER_COUNT = i ∧
        (l.get ⟨i, h⟩).mp &&& INNER_COUNT ≤ 63 ∧
        (l.get ⟨i, h⟩).key_in_reg1 &&& CELL_MASK ≤ 7 ∧
        (l.get ⟨i, h⟩).key_in_reg2 &&& CELL_MASK ≤ 7 ∧
        (l.get ⟨i, h⟩).key_in_reg3 &&& CELL_MASK ≤ 7 ∧
        (l.get ⟨i, h⟩).key_in_reg4 &&& CELL_MASK ≤ 7) ∧
    (∀ mp, (mp ||| LHS_ONE) &&& INNER_COUNT = mp &&& INNER_COUNT) ∧
    inner_loop_checked RULE30 65 { load_segment_1 main_key Regs.init with mp := LHS_ONE }
      = inner_loop RULE30 65 { load_segment_1 main_key Regs.init with mp := LHS_ONE } ∧
    ∃ t, inner_loop_checked RULE30 65
      { load_segment_1 main_key Regs.init with mp := LHS_ONE } = some t :=
  ⟨by decide, shift_amounts_in_range RULE30 65
    { load_segment_1 main_key Regs.init with mp := LHS_ONE } (by decide)⟩

/-! ## Lemmas: exact pass counts, calls on a memory of words, and changed bits -/

theorem Heap.store_word (h : Heap) (p v a : Nat) :
    (h.store p v).word a = if a = p then v else h.word a := rfl

theorem Heap.four_stores (h : Heap) (c v0 v1 v2 v3 a : Nat) :
    ((((h.store (c + 0) v0).store (c + 1) v1).store (c + 2) v2).store (c + 3) v3).word a
      = if a = c + 3 then v3 else if a = c + 2 then v2 else if a = c + 1 then v1
        else if a = c + 0 then v0 else h.word a := rfl

theorem Heap.four_stores_block (h : Heap) (c v0 v1 v2 v3 : Nat) :
    ((((h.store (c + 0) v0).store (c + 1) v1).store (c + 2) v2).store (c + 3) v3).block c
      = ⟨v0, v1, v2, v3⟩ := by
  simp only [Heap.block, Heap.four_stores]
  have a0 : ¬ (c + 0 = c + 3) := by omega
  have a1 : ¬ (c + 0 = c + 2) := by omega
  have a2 : ¬ (c + 0 = c + 1) := by omega
  have b0 : ¬ (c + 1 = c + 3) := by omega
  have b1 : ¬ (c + 1 = c + 2) := by omega
  have c0 : ¬ (c + 2 = c + 3) := by omega
  simp only [if_neg a0, if_neg a1, if_neg a2, if_neg b0, if_neg b1, if_neg c0, if_true]

theorem Heap.four_stores_frame (h : Heap) (c v0 v1 v2 v3 a : Nat) (ha : a < c ∨ c + 4 ≤ a) :
    ((((h.store (c + 0) v0).store (c + 1) v1).store (c + 2) v2).store (c + 3) v3).word a
      = h.word a := by
  rw [Heap.four_stores]
  have a3 : ¬ (a = c + 3) := by omega
  have a2 : ¬ (a = c + 2) := by omega
  have a1 : ¬ (a = c + 1) := by omega
  have a0 : ¬ (a = c + 0) := by omega
  rw [if_neg a3, if_neg a2, if_neg a1, if_neg a0]

theorem Heap.block_frame (h h1 : Heap) (c p : Nat)
    (hfr : ∀ a, (a < c ∨ c + 4 ≤ a) → h1.word a = h.word a) (hd : c + 4 ≤ p ∨ p + 4 ≤ c) :
    h1.block p = h.block p := by
  simp only [Heap.block]
  rw [hfr (p + 0) (by omega), hfr (p + 1) (by omega), hfr (p + 2) (by omega),
    hfr (p + 3) (by omega)]

theorem Heap.skey_frame (h h1 : Heap) (c k : Nat)
    (hfr : ∀ a, (a < c ∨ c + 4 ≤ a) → h1.word a = h.word a) (hd : c + 4 ≤ k ∨ k + 16 ≤ c) :
    h1.skey k = h.skey k := by
  simp only [Heap.skey]
  rw [Heap.block_frame h h1 c k hfr (by omega), Heap.block_frame h h1 c (k + 4) hfr (by omega),
    Heap.block_frame h h1 c (k + 8) hfr (by omega),
    Heap.block_frame h h1 c (k + 12) hfr (by omega)]

theorem encrypt_call_spec (fuel : Nat) (h : Heap) (k p c : Nat) (hf : 255 < fuel) :
    ∃ C, xr30256_encrypt fuel (h.skey k) (h.block p) = some C ∧
      xr30256_encrypt_call fuel h k p c
        = some ((((h.store (c + 0) C.w0).store (c + 1) C.w1).store (c + 2) C.w2).store
            (c + 3) C.w3) := by
  obtain ⟨h1, -⟩ := load_block_source (h.block p)
  obtain ⟨s, hs, -⟩ := rounds_loop_spec (encrypt_round (h.skey k) fuel)
    (feistel_round (h.skey k))
    (fun c hs => encrypt_round_spec (h.skey k) fuel c hf hs) fuel (load_block (h.block p))
    (by omega) h1
  refine ⟨store_block s, ?_, ?_⟩
  · simp only [xr30256_encrypt, hs, Option.some_bind]
  · simp only [xr30256_encrypt_call, hs, Option.some_bind, store_block]

theorem decrypt_call_spec (fuel : Nat) (h : Heap) (k c p : Nat) (hf : 255 < fuel) :
    ∃ P, xr30256_decrypt fuel (h.skey k) (h.block c) = some P ∧
      xr30256_decrypt_call fuel h k c p
        = some ((((h.store (p + 0) P.w0).store (p + 1) P.w1).store (p + 2) P.w2).store
            (p + 3) P.w3) := by
  obtain ⟨h1, -⟩ := load_block_source (h.block c)
  obtain ⟨s, hs, -⟩ := rounds_loop_spec (decrypt_round (h.skey k) fuel)
    (feistel_round (h.skey k).reversed)
    (fun c hs => encrypt_round_spec (h.skey k).reversed fuel c hf hs) fuel
    (load_block (h.block c)) (by omega) h1
  refine ⟨store_block s, ?_, ?_⟩
  · simp only [xr30256_decrypt, hs, Option.some_bind]
  · simp only [xr30256_decrypt_call, hs, Option.some_bind, store_block]

theorem encrypt_zero_subkeys (fuel : Nat) (hf : 255 < fuel) (P : Block) (hP : P.wf) :
    xr30256_encrypt fuel ⟨⟨0, 0, 0, 0⟩, ⟨0, 0, 0, 0⟩, ⟨0, 0, 0, 0⟩, ⟨0, 0, 0, 0⟩⟩ P
      = some ⟨P.w2, P.w3, P.w0, P.w1⟩ := by
  rw [xr30256_encrypt_spec fuel _ P hf, feistel_encrypt_degenerate _ zero_subkeys_degenerate P hP]

theorem popcount_pos (x : Nat) (hx : x < 2 ^ 64) (hne : x ≠ 0) : 1 ≤ popcount x := by
  obtain ⟨e, he⟩ := Nat.ne_zero_implies_bit_true hne
  have hlt : e < 64 := by
    by_contra hge
    have big : (2 : Nat) ^ 64 ≤ 2 ^ e := Nat.pow_le_pow_right (by norm_num) (by omega)
    rw [Nat.testBit_lt_two_pow (lt_of_lt_of_le hx big)] at he
    exact Bool.noConfusion he
  unfold popcount
  exact List.countP_pos_iff.mpr ⟨e, List.mem_range.mpr hlt, he⟩

theorem xor_ne_zero (a b : Nat) (h : a ≠ b) : a ^^^ b ≠ 0 := by
  intro hz
  exact h (Nat.xor_eq_zero.mp hz)

theorem hamming_pos (a b : Block) (ha : a.wf) (hb : b.wf) (hne : a ≠ b) : 1 ≤ hamming a b := by
  obtain ⟨a0, a1, a2, a3⟩ := ha
  obtain ⟨b0, b1, b2, b3⟩ := hb
  simp only [WORD] at a0 a1 a2 a3 b0 b1 b2 b3
  unfold hamming
  by_cases h0 : a.w0 = b.w0
  · by_cases h1 : a.w1 = b.w1
    · by_cases h2 : a.w2 = b.w2
      · by_cases h3 : a.w3 = b.w3
        · exfalso
          apply hne
          cases a; cases b
          simp only [Block.mk.injEq]
          exact ⟨h0, h1, h2, h3⟩
        · have := popcount_pos _ (Nat.xor_lt_two_pow a3 b3) (xor_ne_zero _ _ h3)
          omega
      · have := popcount_pos _ (Nat.xor_lt_two_pow a2 b2) (xor_ne_zero _ _ h2)
        omega
    · have := popcount_pos _ (Nat.xor_lt_two_pow a1 b1) (xor_ne_zero _ _ h1)
      omega
  · have := popcount_pos _ (Nat.xor_lt_two_pow a0 b0) (xor_ne_zero _ _ h0)
    omega

theorem xor_two_pow_ne (x e : Nat) : x ^^^ 2 ^ e ≠ x := by
  intro h
  have h2 : x ^^^ (x ^^^ 2 ^ e) = x ^^^ x := by rw [h]
  rw [← Nat.xor_assoc, Nat.xor_self, Nat.zero_xor] at h2
  exact (Nat.pos_pow_of_pos e (by norm_num)).ne' h2

theorem flip_bit_ne (P : Block) (i : Nat) : flip_bit P i ≠ P := by
  intro h
  unfold flip_bit at h
  split at h
  · exact xor_two_pow_ne _ _ (congrArg Block.w0 h)
  · exact xor_two_pow_ne _ _ (congrArg Block.w1 h)
  · exact xor_two_pow_ne _ _ (congrArg Block.w2 h)
  · exact xor_two_pow_ne _ _ (congrArg Block.w3 h)

theorem feistel_encrypt_injective (sk : scheduled_key) (P Q : Block)
    (h : feistel_encrypt sk P = feistel_encrypt sk Q) : P = Q := by
  have := congrArg (feistel_encrypt sk.reversed) h
  rw [feistel_roundtrip, feistel_roundtrip] at this
  exact this

theorem feistel_encrypt_wf (sk : scheduled_key) (hsk : sk.wf) (P : Block) (hP : P.wf) :
    (feistel_encrypt sk P).wf := by
  obtain ⟨p0, p1, p2, p3⟩ := hP
  simp only [WORD] at p0 p1 p2 p3
  have hp : halves_wf ((P.w0, P.w1), (P.w2, P.w3)) := ⟨⟨p0, p1⟩, ⟨p2, p3⟩⟩
  obtain ⟨⟨l1, l2⟩, ⟨r1, r2⟩⟩ :=
    (feistel_rounds_swap_some false false false false sk hsk 16 _ hp).2
  exact ⟨r1, r2, l1, l2⟩

theorem add64_lt (a b : Nat) : add64 a b < WORD := Nat.mod_lt _ (by decide)

theorem key_schedule_wf (fuel : Nat) (key : Block) (hf : 255 < fuel) (hK : key.wf) :
    ∃ sk, xr30256_key_schedule fuel key = some sk ∧ sk.wf := by
  obtain ⟨k0, k1, k2, k3⟩ := hK
  refine ⟨_, xr30256_key_schedule_spec fuel key hf, ?_, ?_, ?_, ?_⟩
  · exact evolve_wf RULE30 CA256 _ ⟨k0, add64_lt _ _, add64_lt _ _, add64_lt _ _⟩
  · exact evolve_wf RULE30 CA256 _ ⟨add64_lt _ _, k1, add64_lt _ _, add64_lt _ _⟩
  · exact evolve_wf RULE30 CA256 _ ⟨add64_lt _ _, add64_lt _ _, k2, add64_lt _ _⟩
  · exact evolve_wf RULE30 CA256 _ ⟨add64_lt _ _, add64_lt _ _, add64_lt _ _, k3⟩

theorem flip_changes_a_bit (sk : scheduled_key) (hsk : sk.wf) (P : Block) (hP : P.wf)
    (i : Nat) : 1 ≤ hamming (feistel_encrypt sk P) (feistel_encrypt sk (flip_bit P i)) := by
  apply hamming_pos _ _ (feistel_encrypt_wf sk hsk P hP)
    (feistel_encrypt_wf sk hsk _ (flip_bit_wf P hP i))
  intro h
  exact flip_bit_ne P i (feistel_encrypt_injective sk _ _ h).symm

theorem length_le_sum_map (l : List Nat) (f : Nat → Nat) (h : ∀ i, i ∈ l → 1 ≤ f i) :
    l.length ≤ (l.map f).sum := by
  induction l with
  | nil => simp
  | cons a l ih =>
    have h1 := h a (List.mem_cons_self a l)
    have h2 := ih (fun i hi => h i (List.mem_cons_of_mem a hi))
    simp only [List.length_cons, List.map_cons, List.sum_cons]
    omega

theorem whileLoop_short {σ : Type} (cond : σ → Bool) (body : σ → Option σ) (f : σ → σ)
    (P : Nat → σ → Prop) (n : Nat)
    (hstep : ∀ i s, i < n → P i s → cond s = true ∧ body s = some (f s) ∧ P (i + 1) (f s)) :
    ∀ (fuel i : Nat) (s : σ), P i s → i + fuel ≤ n → whileLoop cond body fuel s = none := by
  intro fuel
  induction fuel with
  | zero => intro i s _ _; rfl
  | succ fuel ih =>
    intro i s hP hle
    obtain ⟨hc, hb, hP1⟩ := hstep i s (by omega) hP
    simp only [whileLoop, hc, hb, if_true, Option.some_bind]
    exact ih (i + 1) (f s) hP1 (by omega)

theorem iterate_inv {σ : Type} (cond : σ → Bool) (body : σ → Option σ) (f : σ → σ)
    (P : Nat → σ → Prop) (n : Nat)
    (hstep : ∀ i s, i < n → P i s → cond s = true ∧ body s = some (f s) ∧ P (i + 1) (f s))
    (s : σ) (h0 : P 0 s) : ∀ i, i ≤ n → P i (f^[i] s) := by
  intro i
  induction i with
  | zero => intro _; exact h0
  | succ i ih =>
    intro hi
    rw [Function.iterate_succ_apply']
    exact (hstep i _ (by omega) (ih (by omega))).2.2

/-- A loop that passes through its body exactly `n` times: with more than `n` units of fuel
it returns the `n`-fold iterate of the pass, with `n` units or fewer it does not return (one
unit is used by every evaluation of the condition), and the `i`-th state satisfies the
invariant at `i`. -/
theorem whileLoop_exact {σ : Type} (cond : σ → Bool) (body : σ → Option σ) (f : σ → σ)
    (P : Nat → σ → Prop) (n : Nat)
    (hstep : ∀ i s, i < n → P i s → cond s = true ∧ body s = some (f s) ∧ P (i + 1) (f s))
    (hexit : ∀ s, P n s → cond s = false) (s : σ) (h0 : P 0 s) :
    (∀ fuel, n < fuel → whileLoop cond body fuel s = some (f^[n] s)) ∧
    (∀ fuel, fuel ≤ n → whileLoop cond body fuel s = none) ∧
    (∀ i, i ≤ n → P i (f^[i] s)) :=
  ⟨fun fuel hf => (whileLoop_count cond body f P n hstep hexit n 0 s fuel (by omega) h0 hf).1,
    fun fuel hf => whileLoop_short cond body f P n hstep fuel 0 s h0 (by omega),
    iterate_inv cond body f P n hstep s h0⟩

theorem inner_loop_exact (rule : Nat) (s : Regs) :
    (∀ fuel, 64 < fuel → inner_loop rule fuel s
      = some ((inner_iter rule)^[64] { s with mp := s.mp &&& INNER_ZERO })) ∧
    (∀ fuel, fuel ≤ 64 → inner_loop rule fuel s = none) ∧
    (∀ i, i ≤ 64 →
      mp_inner ((inner_iter rule)^[i] { s with mp := s.mp &&& INNER_ZERO }).mp = i) := by
  have key := whileLoop_exact (fun t : Regs => decide ((t.mp &&& INNER_COUNT) < WORDSIZE))
    (fun t => some (inner_iter rule t)) (inner_iter rule)
    (fun c t => t.mp % 256 = c) 64
    (by
      rintro i t hi h1
      obtain ⟨a1, -⟩ := inner_iter_spec rule t (by omega)
      refine ⟨?_, rfl, ?_⟩
      · simp only [and_INNER_COUNT, WORDSIZE, decide_eq_true_eq]; omega
      · omega)
    (by
      rintro t h1
      simp only [and_INNER_COUNT, WORDSIZE, decide_eq_false_iff_not]; omega)
    { s with mp := s.mp &&& INNER_ZERO }
    (by simp only [and_INNER_ZERO]; omega)
  refine ⟨key.1, key.2.1, ?_⟩
  intro i hi
  rw [mp_inner_eq]
  exact key.2.2 i hi

theorem generation_fuel (rule fuel : Nat) (s : Regs) :
    (64 < fuel → ∃ t, inner_loop rule fuel
        { s with key_out_reg1 := 0, key_out_reg2 := 0, key_out_reg3 := 0, key_out_reg4 := 0 }
          = some t ∧ generation rule fuel s = some (rotate_and_swap t)) ∧
    (fuel ≤ 64 → generation rule fuel s = none) := by
  obtain ⟨h1, h2, -⟩ := inner_loop_exact rule
    { s with key_out_reg1 := 0, key_out_reg2 := 0, key_out_reg3 := 0, key_out_reg4 := 0 }
  constructor
  · intro hf
    exact ⟨_, h1 fuel hf, by simp only [generation, h1 fuel hf, Option.some_bind]⟩
  · intro hf
    simp only [generation, h2 fuel hf, Option.none_bind]

theorem ca_loop_exact (rule bound gfuel : Nat) (s : Regs) (hb : bound ≤ 65535)
    (hg : 64 < gfuel) :
    (∀ fuel, bound < fuel →
      whileLoop (fun t => decide (((t.mp &&& OUTER_COUNT) >>> DELTA_COUNT) < bound))
        (fun t => (generation rule gfuel t).bind
          (fun u => some { u with mp := add64 u.mp OUTER_ONE }))
        fuel { s with mp := s.mp &&& OUTER_ZERO }
        = some ((generation_iter rule gfuel)^[bound] { s with mp := s.mp &&& OUTER_ZERO })) ∧
    (∀ fuel, fuel ≤ bound →
      whileLoop (fun t => decide (((t.mp &&& OUTER_COUNT) >>> DELTA_COUNT) < bound))
        (fun t => (generation rule gfuel t).bind
          (fun u => some { u with mp := add64 u.mp OUTER_ONE }))
        fuel { s with mp := s.mp &&& OUTER_ZERO } = none) ∧
    (∀ i, i ≤ bound →
      mp_outer ((generation_iter rule gfuel)^[i] { s with mp := s.mp &&& OUTER_ZERO }).mp
        = i) := by
  have key := whileLoop_exact
    (fun t : Regs => decide (((t.mp &&& OUTER_COUNT) >>> DELTA_COUNT) < bound))
    (fun t => (generation rule gfuel t).bind
      (fun u => some { u with mp := add64 u.mp OUTER_ONE }))
    (generation_iter rule gfuel)
    (fun i t => t.mp / 256 % 65536 = i ∧ t.mp < 2 ^ 64) bound
    (by
      rintro i t hi ⟨h2, h3⟩
      obtain ⟨u, hu, g1, g2, g3, g4⟩ := generation_spec rule gfuel t hg
      have hit : generation_iter rule gfuel t = { u with mp := add64 u.mp OUTER_ONE } := by
        simp [generation_iter, hu]
      refine ⟨?_, ?_, ?_, ?_⟩
      · simp only [and_OUTER_COUNT, decide_eq_true_eq]; omega
      · simp [hu, hit]
      · rw [hit]; simp only [add64, WORD, OUTER_ONE]; omega
      · rw [hit]; simp only [add64, WORD, OUTER_ONE]; omega)
    (by
      rintro t ⟨h2, -⟩
      simp only [and_OUTER_COUNT, decide_eq_false_iff_not]; omega)
    { s with mp := s.mp &&& OUTER_ZERO }
    (by
      simp only [and_OUTER_ZERO]
      refine ⟨by omega, by omega⟩)
  refine ⟨key.1, key.2.1, ?_⟩
  intro i hi
  rw [mp_outer_eq]
  exact (key.2.2 i hi).1

theorem ca256_loop_exact (rule : Nat) (s : Regs) :
    (∀ fuel, 255 < fuel → ca256_loop rule fuel s
      = some ((generation_iter rule fuel)^[255] { s with mp := s.mp &&& OUTER_ZERO })) ∧
    (∀ fuel, 64 < fuel → fuel ≤ 255 → ca256_loop rule fuel s = none) ∧
    (∀ fuel i, 64 < fuel → i ≤ 255 →
      mp_outer ((generation_iter rule fuel)^[i] { s with mp := s.mp &&& OUTER_ZERO }).mp
        = i) := by
  refine ⟨?_, ?_, ?_⟩
  · intro fuel hf
    exact (ca_loop_exact rule 255 fuel s (by decide) (by omega)).1 fuel hf
  · intro fuel hg hf
    exact (ca_loop_exact rule 255 fuel s (by decide) hg).2.1 fuel hf
  · intro fuel i hg hi
    exact (ca_loop_exact rule 255 fuel s (by decide) hg).2.2 i hi

theorem rounds_loop_exact (body : CipherState → Option CipherState)
    (hbody : ∀ c : CipherState, ∃ c1, body c = some c1 ∧ c1.r.mp < 2 ^ 64 ∧
      c1.r.mp / 16777216 % 549755813888 = c.r.mp / 16777216 % 549755813888)
    (c : CipherState) :
    (∀ fuel, 16 < fuel → rounds_loop body fuel c
      = some ((rounds_iter body)^[16]
          { c with r := { c.r with mp := c.r.mp &&& ROUNDS_ZERO } })) ∧
    (∀ fuel, fuel ≤ 16 → rounds_loop body fuel c = none) ∧
    (∀ i, i ≤ 16 →
      mp_rounds ((rounds_iter body)^[i]
        { c with r := { c.r with mp := c.r.mp &&& ROUNDS_ZERO } }).r.mp = i) := by
  have key := whileLoop_exact
    (fun t : CipherState => decide (((t.r.mp &&& ROUNDS_COUNT) >>> DELTA_ROUNDS) < ROUNDS))
    (fun t => (body t).bind
      (fun u => some { u with r := { u.r with mp := add64 u.r.mp ROUNDS_ONE } }))
    (rounds_iter body)
    (fun i t => t.r.mp / 16777216 % 65536 = i ∧ t.r.mp < 2 ^ 64) 16
    (by
      rintro i t hi ⟨h3, h4⟩
      obtain ⟨u, hu, g3, g4⟩ := hbody t
      have hit : rounds_iter body t
          = { u with r := { u.r with mp := add64 u.r.mp ROUNDS_ONE } } := by
        simp [rounds_iter, hu]
      refine ⟨?_, ?_, ?_, ?_⟩
      · simp only [and_ROUNDS_COUNT, ROUNDS, decide_eq_true_eq]; omega
      · simp [hu, hit]
      · rw [hit]; simp only [add64, WORD, ROUNDS_ONE]; omega
      · rw [hit]; simp only [add64, WORD, ROUNDS_ONE]; omega)
    (by
      rintro t ⟨h3, -⟩
      simp only [and_ROUNDS_COUNT, ROUNDS, decide_eq_false_iff_not]; omega)
    { c with r := { c.r with mp := c.r.mp &&& ROUNDS_ZERO } }
    (by
      refine ⟨?_, ?_⟩
      · simp only [and_ROUNDS_ZERO]; omega
      · simp only [and_ROUNDS_ZERO]; omega)
  refine ⟨key.1, key.2.1, ?_⟩
  intro i hi
  rw [mp_rounds_eq]
  exact (key.2.2 i hi).1

theorem ca256_loop_none (rule fuel : Nat) (s : Regs) (hf : fuel ≤ 255) :
    ca256_loop rule fuel s = none := by
  by_cases hg : 64 < fuel
  · exact (ca256_loop_exact rule s).2.1 fuel hg hf
  · cases fuel with
    | zero => rfl
    | succ g =>
      have hc : decide ((({ s with mp := s.mp &&& OUTER_ZERO } : Regs).mp &&& OUTER_COUNT)
          >>> DELTA_COUNT < CA256) = true := by
        simp only [and_OUTER_COUNT, and_OUTER_ZERO, CA256, decide_eq_true_eq]
        omega
      have hn := (generation_fuel rule (g + 1) { s with mp := s.mp &&& OUTER_ZERO }).2
        (by omega)
      simp only [ca256_loop, ca_loop, whileLoop, hc, if_true, hn, Option.none_bind]

theorem f_step_none (K : Block) (fuel : Nat) (c : CipherState) (hf : fuel ≤ 255) :
    f_step K fuel c = none := by
  simp only [f_step, f_function, ca256_loop_none RULE30 fuel _ hf, Option.none_bind]

theorem rounds_loop_none (body : CipherState → Option CipherState)
    (hbody : ∀ c, body c = none) (fuel : Nat) (c : CipherState) :
    rounds_loop body fuel c = none := by
  cases fuel with
  | zero => rfl
  | succ g =>
    have hc : decide ((({ c with r := { c.r with mp := c.r.mp &&& ROUNDS_ZERO } }
        : CipherState).r.mp &&& ROUNDS_COUNT) >>> DELTA_ROUNDS < ROUNDS) = true := by
      simp only [and_ROUNDS_COUNT, and_ROUNDS_ZERO, ROUNDS, decide_eq_true_eq]
      omega
    simp only [rounds_loop, whileLoop, hc, if_true, hbody, Option.none_bind]

theorem encrypt_none (fuel : Nat) (sk : scheduled_key) (B : Block) (hf : fuel ≤ 255) :
    xr30256_encrypt fuel sk B = none := by
  have hb : ∀ c, encrypt_round sk fuel c = none := by
    intro c
    simp only [encrypt_round, f_step_none sk.key_1 fuel c hf, Option.none_bind]
  simp only [xr30256_encrypt, rounds_loop_none _ hb, Option.none_bind]

theorem decrypt_none (fuel : Nat) (sk : scheduled_key) (B : Block) (hf : fuel ≤ 255) :
    xr30256_decrypt fuel sk B = none := by
  rw [xr30256_decrypt_reversed]
  exact encrypt_none fuel sk.reversed B hf

theorem key_schedule_none (fuel : Nat) (key : Block) (hf : fuel ≤ 255) :
    xr30256_key_schedule fuel key = none := by
  simp only [xr30256_key_schedule, ca256_loop_none RULE30 fuel _ hf, Option.none_bind]

theorem rounds_pass (body : CipherState → Option CipherState) (c u : CipherState)
    (h : body c = some u) :
    rounds_iter body c = { u with r := { u.r with mp := add64 u.r.mp ROUNDS_ONE } } := by
  simp [rounds_iter, h]

theorem generation_pass (rule fuel : Nat) (t u : Regs) (h : generation rule fuel t = some u) :
    generation_iter rule fuel t = { u with mp := add64 u.mp OUTER_ONE } := by
  simp [generation_iter, h]

theorem rounds_work (body : CipherState → Option CipherState)
    (hbody : ∀ c : CipherState, ∃ c1, body c = some c1 ∧ c1.r.mp < 2 ^ 64 ∧
      c1.r.mp / 16777216 % 549755813888 = c.r.mp / 16777216 % 549755813888)
    (fuel : Nat) (hf : 16 < fuel) (B : Block) :
    ∃ c, rounds_loop body fuel (load_block B) = some c ∧
      c = (rounds_iter body)^[16]
        { load_block B with
          r := { (load_block B).r with mp := (load_block B).r.mp &&& ROUNDS_ZERO } } ∧
      (∀ i, i ≤ 16 → mp_rounds ((rounds_iter body)^[i]
        { load_block B with
          r := { (load_block B).r with mp := (load_block B).r.mp &&& ROUNDS_ZERO } }).r.mp
          = i) ∧
      (∀ c1 u, body c1 = some u →
        rounds_iter body c1 = { u with r := { u.r with mp := add64 u.r.mp ROUNDS_ONE } }) ∧
      (∀ g, 16 < g → rounds_loop body g (load_block B) = some c) ∧
      (∀ g, g ≤ 16 → rounds_loop body g (load_block B) = none) := by
  obtain ⟨h1, h2, h3⟩ := rounds_loop_exact body hbody (load_block B)
  exact ⟨_, h1 fuel hf, rfl, h3, rounds_pass body, h1, h2⟩

/-! ## The claims on fixed work, on calls on a memory and on changed bits -/

/-- C13 (totality with fixed work). For every scheduled key, block and master key, with
fuel above 255:
`xr30256_encrypt` returns the stored result of its rounds loop, and that loop passes
through its body exactly 16 times: its result is the 16-fold iterate of one pass, the
rounds counter of `mp` reads `i` after `i` passes, 17 units of loop fuel suffice and 16 do
not; the same for `xr30256_decrypt`.  Every pass of the rounds body is exactly four
F-function blocks, each one CA256 loop; the key schedule is exactly four CA256 loops.
From every register state the CA256 loop passes through its body exactly 255 times (its
result is the 255-fold iterate of one generation pass, the generation counter reads `i`
after `i` passes), every generation runs the inner loop once, and the inner loop passes
through its body exactly 64 times (64-fold iterate, inner counter `i` after `i` passes, 65
units of fuel suffice and 64 do not).  With fuel 255 or less none of the three functions
returns, and no CA256 loop does.  All counts are the same constants for every key and every
data. -/
theorem fixed_work (fuel : Nat) (sk : scheduled_key) (B key : Block) (hf : 255 < fuel) :
    (∃ c, rounds_loop (encrypt_round sk fuel) fuel (load_block B) = some c ∧
      xr30256_encrypt fuel sk B = some (store_block c) ∧
      c = (rounds_iter (encrypt_round sk fuel))^[16]
        { load_block B with
          r := { (load_block B).r with mp := (load_block B).r.mp &&& ROUNDS_ZERO } } ∧
      (∀ i, i ≤ 16 → mp_rounds ((rounds_iter (encrypt_round sk fuel))^[i]
        { load_block B with
          r := { (load_block B).r with mp := (load_block B).r.mp &&& ROUNDS_ZERO } }).r.mp
          = i) ∧
      (∀ c1 u, encrypt_round sk fuel c1 = some u →
        rounds_iter (encrypt_round sk fuel) c1
          = { u with r := { u.r with mp := add64 u.r.mp ROUNDS_ONE } }) ∧
      (∀ g, 16 < g → rounds_loop (encrypt_round sk fuel) g (load_block B) = some c) ∧
      (∀ g, g ≤ 16 → rounds_loop (encrypt_round sk fuel) g (load_block B) = none)) ∧
    (∃ c, rounds_loop (decrypt_round sk fuel) fuel (load_block B) = some c ∧
      xr30256_decrypt fuel sk B = some (store_block c) ∧
      c = (rounds_iter (decrypt_round sk fuel))^[16]
        { load_block B with
          r := { (load_block B).r with mp := (load_block B).r.mp &&& ROUNDS_ZERO } } ∧
      (∀ i, i ≤ 16 → mp_rounds ((rounds_iter (decrypt_round sk fuel))^[i]
        { load_block B with
          r := { (load_block B).r with mp := (load_block B).r.mp &&& ROUNDS_ZERO } }).r.mp
          = i) ∧
      (∀ c1 u, decrypt_round sk fuel c1 = some u →
        rounds_iter (decrypt_round sk fuel) c1
          = { u with r := { u.r with mp := add64 u.r.mp ROUNDS_ONE } }) ∧
      (∀ g, 16 < g → rounds_loop (decrypt_round sk fuel) g (load_block B) = some c) ∧
      (∀ g, g ≤ 16 → rounds_loop (decrypt_round sk fuel) g (load_block B) = none)) ∧
    (∀ c : CipherState, ∃ c1 c2 c3 c4,
      f_step sk.key_1 fuel c = some c1 ∧
      f_step sk.key_2 fuel (feistel_left c1) = some c2 ∧
      f_step sk.key_3 fuel (feistel_right c2) = some c3 ∧
      f_step sk.key_4 fuel (feistel_left c3) = some c4 ∧
      encrypt_round sk fuel c = some (feistel_right c4)) ∧
    (∀ c : CipherState, ∃ c1 c2 c3 c4,
      f_step sk.key_4 fuel c = some c1 ∧
      f_step sk.key_3 fuel (feistel_left c1) = some c2 ∧
      f_step sk.key_2 fuel (feistel_right c2) = some c3 ∧
      f_step sk.key_1 fuel (feistel_left c3) = some c4 ∧
      decrypt_round sk fuel c = some (feistel_right c4)) ∧
    (∀ (K : Block) (c : CipherState), ∃ u,
      ca256_loop RULE30 fuel (load_subkey K c.r) = some u ∧
      f_step K fuel c = some { c with r := fold_halves u }) ∧
    (∃ s1 s2 s3 s4,
      ca256_loop RULE30 fuel (load_segment_1 key Regs.init) = some s1 ∧
      ca256_loop RULE30 fuel (load_segment_2 key s1) = some s2 ∧
      ca256_loop RULE30 fuel (load_segment_3 key s2) = some s3 ∧
      ca256_loop RULE30 fuel (load_segment_4 key s3) = some s4 ∧
      xr30256_key_schedule fuel key = some
        { key_1 := s1.input, key_2 := s2.input, key_3 := s3.input, key_4 := s4.input }) ∧
    (∀ s : Regs, ∃ t, ca256_loop RULE30 fuel s = some t ∧
      t = (generation_iter RULE30 fuel)^[255] { s with mp := s.mp &&& OUTER_ZERO } ∧
      (∀ i, i ≤ 255 → mp_outer ((generation_iter RULE30 fuel)^[i]
        { s with mp := s.mp &&& OUTER_ZERO }).mp = i) ∧
      (∀ t1 u, generation RULE30 fuel t1 = some u →
        generation_iter RULE30 fuel t1 = { u with mp := add64 u.mp OUTER_ONE })) ∧
    (∀ s : Regs, ∃ t,
      inner_loop RULE30 fuel
        { s with key_out_reg1 := 0, key_out_reg2 := 0, key_out_reg3 := 0, key_out_reg4 := 0 }
        = some t ∧
      generation RULE30 fuel s = some (rotate_and_swap t)) ∧
    (∀ s : Regs, ∃ t, inner_loop RULE30 fuel s = some t ∧
      t = (inner_iter RULE30)^[64] { s with mp := s.mp &&& INNER_ZERO } ∧
      (∀ i, i ≤ 64 →
        mp_inner ((inner_iter RULE30)^[i] { s with mp := s.mp &&& INNER_ZERO }).mp = i) ∧
      (∀ g, 64 < g → inner_loop RULE30 g s = some t) ∧
      (∀ g, g ≤ 64 → inner_loop RULE30 g s = none)) ∧
    (∀ g, g ≤ 255 →
      xr30256_encrypt g sk B = none ∧ xr30256_decrypt g sk B = none ∧
      xr30256_key_schedule g key = none ∧ ∀ s : Regs, ca256_loop RULE30 g s = none) := by
  have four : ∀ (k : scheduled_key) (c : CipherState), ∃ c1 c2 c3 c4,
      f_step k.key_1 fuel c = some c1 ∧
      f_step k.key_2 fuel (feistel_left c1) = some c2 ∧
      f_step k.key_3 fuel (feistel_right c2) = some c3 ∧
      f_step k.key_4 fuel (feistel_left c3) = some c4 ∧
      encrypt_round k fuel c = some (feistel_right c4) := by
    intro k c
    obtain ⟨a1, e1, -⟩ := f_step_total k.key_1 fuel c hf
    obtain ⟨a2, e2, -⟩ := f_step_total k.key_2 fuel (feistel_left a1) hf
    obtain ⟨a3, e3, -⟩ := f_step_total k.key_3 fuel (feistel_right a2) hf
    obtain ⟨a4, e4, -⟩ := f_step_total k.key_4 fuel (feistel_left a3) hf
    exact ⟨a1, a2, a3, a4, e1, e2, e3, e4, by simp [encrypt_round, e1, e2, e3, e4]⟩
  refine ⟨?_, ?_, four sk, four sk.reversed, ?_, ?_, ?_, ?_, ?_, ?_⟩
  · obtain ⟨c, h1, h2, h3, h4, h5, h6⟩ := rounds_work (encrypt_round sk fuel)
      (fun c => encrypt_round_total sk fuel c hf) fuel (by omega) B
    exact ⟨c, h1, by simp only [xr30256_encrypt, h1, Option.some_bind], h2, h3, h4, h5, h6⟩
  · obtain ⟨c, h1, h2, h3, h4, h5, h6⟩ := rounds_work (decrypt_round sk fuel)
      (fun c => decrypt_round_total sk fuel c hf) fuel (by omega) B
    exact ⟨c, h1, by simp only [xr30256_decrypt, h1, Option.some_bind], h2, h3, h4, h5, h6⟩
  · intro K c
    obtain ⟨u, hu, -⟩ := ca256_loop_spec RULE30 fuel (load_subkey K c.r) hf
    exact ⟨u, hu, by simp [f_step, f_function, hu]⟩
  · obtain ⟨s1, e1, -⟩ := ca256_loop_spec RULE30 fuel (load_segment_1 key Regs.init) hf
    obtain ⟨s2, e2, -⟩ := ca256_loop_spec RULE30 fuel (load_segment_2 key s1) hf
    obtain ⟨s3, e3, -⟩ := ca256_loop_spec RULE30 fuel (load_segment_3 key s2) hf
    obtain ⟨s4, e4, -⟩ := ca256_loop_spec RULE30 fuel (load_segment_4 key s3) hf
    exact ⟨s1, s2, s3, s4, e1, e2, e3, e4, by simp [xr30256_key_schedule, e1, e2, e3, e4]⟩
  · intro s
    obtain ⟨h1, -, h3⟩ := ca256_loop_exact RULE30 s
    exact ⟨_, h1 fuel hf, rfl, fun i hi => h3 fuel i (by omega) hi,
      generation_pass RULE30 fuel⟩
  · intro s
    exact (generation_fuel RULE30 fuel s).1 (by omega)
  · intro s
    obtain ⟨h1, h2, h3⟩ := inner_loop_exact RULE30 s
    exact ⟨_, h1 fuel (by omega), rfl, h3, h1, h2⟩
  · intro g hg
    exact ⟨encrypt_none g sk B hg, decrypt_none g sk B hg, key_schedule_none g key hg,
      fun s => ca256_loop_none RULE30 g s hg⟩

/-- Witness of C13 at the key and the plaintext of `main`, with fuel 256. -/
theorem fixed_work_main :
    255 < 256 ∧
    ((∃ c, rounds_loop (encrypt_round (⟨main_key, main_plaintext, main_key, main_plaintext⟩ : scheduled_key) 256) 256 (load_block main_plaintext) = some c ∧
      xr30256_encrypt 256 (⟨main_key, main_plaintext, main_key, main_plaintext⟩ : scheduled_key) main_plaintext = some (store_block c) ∧
      c = (rounds_iter (encrypt_round (⟨main_key, main_plaintext, main_key, main_plaintext⟩ : scheduled_key) 256))^[16]
        { load_block main_plaintext with
          r := { (load_block main_plaintext).r with mp := (load_block main_plaintext).r.mp &&& ROUNDS_ZERO } } ∧
      (∀ i, i ≤ 16 → mp_rounds ((rounds_iter (encrypt_round (⟨main_key, main_plaintext, main_key, main_plaintext⟩ : scheduled_key) 256))^[i]
        { load_block main_plaintext with
          r := { (load_block main_plaintext).r with mp := (load_block main_plaintext).r.mp &&& ROUNDS_ZERO } }).r.mp
          = i) ∧
      (∀ c1 u, encrypt_round (⟨main_key, main_plaintext, main_key, main_plaintext⟩ : scheduled_key) 256 c1 = some u →
        rounds_iter (encrypt_round (⟨main_key, main_plaintext, main_key, main_plaintext⟩ : scheduled_key) 256) c1
          = { u with r := { u.r with mp := add64 u.r.mp ROUNDS_ONE } }) ∧
      (∀ g, 16 < g → rounds_loop (encrypt_round (⟨main_key, main_plaintext, main_key, main_plaintext⟩ : scheduled_key) 256) g (load_block main_plaintext) = some c) ∧
      (∀ g, g ≤ 16 → rounds_loop (encrypt_round (⟨main_key, main_plaintext, main_key, main_plaintext⟩ : scheduled_key) 256) g (load_block main_plaintext) = none)) ∧
    (∃ c, rounds_loop (decrypt_round (⟨main_key, main_plaintext, main_key, main_plaintext⟩ : scheduled_key) 256) 256 (load_block main_plaintext) = some c ∧
      xr30256_decrypt 256 (⟨main_key, main_plaintext, main_key, main_plaintext⟩ : scheduled_key) main_plaintext = some (store_block c) ∧
      c = (rounds_iter (decrypt_round (⟨main_key, main_plaintext, main_key, main_plaintext⟩ : scheduled_key) 256))^[16]
        { load_block main_plaintext with
          r := { (load_block main_plaintext).r with mp := (load_block main_plaintext).r.mp &&& ROUNDS_ZERO } } ∧
      (∀ i, i ≤ 16 → mp_rounds ((rounds_iter (decrypt_round (⟨main_key, main_plaintext, main_key, main_plaintext⟩ : scheduled_key) 256))^[i]
        { load_block main_plaintext with
          r := { (load_block main_plaintext).r with mp := (load_block main_plaintext).r.mp &&& ROUNDS_ZERO } }).r.mp
          = i) ∧
      (∀ c1 u, decrypt_round (⟨main_key, main_plaintext, main_key, main_plaintext⟩ : scheduled_key) 256 c1 = some u →
        rounds_iter (decrypt_round (⟨main_key, main_plaintext, main_key, main_plaintext⟩ : scheduled_key) 256) c1
          = { u with r := { u.r with mp := add64 u.r.mp ROUNDS_ONE } }) ∧
      (∀ g, 16 < g → rounds_loop (decrypt_round (⟨main_key, main_plaintext, main_key, main_plaintext⟩ : scheduled_key) 256) g (load_block main_plaintext) = some c) ∧
      (∀ g, g ≤ 16 → rounds_loop (decrypt_round (⟨main_key, main_plaintext, main_key, main_plaintext⟩ : scheduled_key) 256) g (load_block main_plaintext) = none)) ∧
    (∀ c : CipherState, ∃ c1 c2 c3 c4,
      f_step (⟨main_key, main_plaintext, main_key, main_plaintext⟩ : scheduled_key).key_1 256 c = some c1 ∧
      f_step (⟨main_key, main_plaintext, main_key, main_plaintext⟩ : scheduled_key).key_2 256 (feistel_left c1) = some c2 ∧
      f_step (⟨main_key, main_plaintext, main_key, main_plaintext⟩ : scheduled_key).key_3 256 (feistel_right c2) = some c3 ∧
      f_step (⟨main_key, main_plaintext, main_key, main_plaintext⟩ : scheduled_key).key_4 256 (feistel_left c3) = some c4 ∧
      encrypt_round (⟨main_key, main_plaintext, main_key, main_plaintext⟩ : scheduled_key) 256 c = some (feistel_right c4)) ∧
    (∀ c : CipherState, ∃ c1 c2 c3 c4,
      f_step (⟨main_key, main_plaintext, main_key, main_plaintext⟩ : scheduled_key).key_4 256 c = some c1 ∧
      f_step (⟨main_key, main_plaintext, main_key, main_plaintext⟩ : scheduled_key).key_3 256 (feistel_left c1) = some c2 ∧
      f_step (⟨main_key, main_plaintext, main_key, main_plaintext⟩ : scheduled_key).key_2 256 (feistel_right c2) = some c3 ∧
      f_step (⟨main_key, main_plaintext, main_key, main_plaintext⟩ : scheduled_key).key_1 256 (feistel_left c3) = some c4 ∧
      decrypt_round (⟨main_key, main_plaintext, main_key, main_plaintext⟩ : scheduled_key) 256 c = some (feistel_right c4)) ∧
    (∀ (K : Block) (c : CipherState), ∃ u,
      ca256_loop RULE30 256 (load_subkey K c.r) = some u ∧
      f_step K 256 c = some { c with r := fold_halves u }) ∧
    (∃ s1 s2 s3 s4,
      ca256_loop RULE30 256 (load_segment_1 main_key Regs.init) = some s1 ∧
      ca256_loop RULE30 256 (load_segment_2 main_key s1) = some s2 ∧
      ca256_loop RULE30 256 (load_segment_3 main_key s2) = some s3 ∧
      ca256_loop RULE30 256 (load_segment_4 main_key s3) = some s4 ∧
      xr30256_key_schedule 256 main_key = some
        { key_1 := s1.input, key_2 := s2.input, key_3 := s3.input, key_4 := s4.input }) ∧
    (∀ s : Regs, ∃ t, ca256_loop RULE30 256 s = some t ∧
      t = (generation_iter RULE30 256)^[255] { s with mp := s.mp &&& OUTER_ZERO } ∧
      (∀ i, i ≤ 255 → mp_outer ((generation_iter RULE30 256)^[i]
        { s with mp := s.mp &&& OUTER_ZERO }).mp = i) ∧
      (∀ t1 u, generation RULE30 256 t1 = some u →
        generation_iter RULE30 256 t1 = { u with mp := add64 u.mp OUTER_ONE })) ∧
    (∀ s : Regs, ∃ t,
      inner_loop RULE30 256
        { s with key_out_reg1 := 0, key_out_reg2 := 0, key_out_reg3 := 0, key_out_reg4 := 0 }
        = some t ∧
      generation RULE30 256 s = some (rotate_and_swap t)) ∧
    (∀ s : Regs, ∃ t, inner_loop RULE30 256 s = some t ∧
      t = (inner_iter RULE30)^[64] { s with mp := s.mp &&& INNER_ZERO } ∧
      (∀ i, i ≤ 64 →
        mp_inner ((inner_iter RULE30)^[i] { s with mp := s.mp &&& INNER_ZERO }).mp = i) ∧
      (∀ g, 64 < g → inner_loop RULE30 g s = some t) ∧
      (∀ g, g ≤ 64 → inner_loop RULE30 g s = none)) ∧
    (∀ g, g ≤ 255 →
      xr30256_encrypt g (⟨main_key, main_plaintext, main_key, main_plaintext⟩ : scheduled_key) main_plaintext = none ∧ xr30256_decrypt g (⟨main_key, main_plaintext, main_key, main_plaintext⟩ : scheduled_key) main_plaintext = none ∧
      xr30256_key_schedule g main_key = none ∧ ∀ s : Regs, ca256_loop RULE30 g s = none)) :=
  ⟨by decide, fixed_work 256 ⟨main_key, main_plaintext, main_key, main_plaintext⟩
    main_plaintext main_key (by decide)⟩

/-- Counterexample to C15: a memory with an all-zero scheduled key at addresses 0..15 and
the block `(1,2,3,4)` at addresses 16..19.  Called in place, `xr30256_encrypt(key, buf, buf)`
returns with the four words of its input block changed; called with the output pointer
equal to the key pointer, it returns with the scheduled key changed. -/
theorem inplace_call_overwrites_input :
    (∃ h1, xr30256_encrypt_call 256 test_heap 0 16 16 = some h1 ∧
      h1.block 16 ≠ test_heap.block 16) ∧
    (∃ h1, xr30256_encrypt_call 256 test_heap 0 16 0 = some h1 ∧
      h1.skey 0 ≠ test_heap.skey 0) := by
  have hk : test_heap.skey 0 = ⟨⟨0, 0, 0, 0⟩, ⟨0, 0, 0, 0⟩, ⟨0, 0, 0, 0⟩, ⟨0, 0, 0, 0⟩⟩ := by
    decide
  have hb : test_heap.block 16 = ⟨1, 2, 3, 4⟩ := by decide
  have he := encrypt_zero_subkeys 256 (by decide) ⟨1, 2, 3, 4⟩ (by decide)
  constructor
  · obtain ⟨C, hC, hcall⟩ := encrypt_call_spec 256 test_heap 0 16 16 (by decide)
    rw [hk, hb, he] at hC
    cases hC
    refine ⟨_, hcall, ?_⟩
    rw [Heap.four_stores_block, hb]
    decide
  · obtain ⟨C, hC, hcall⟩ := encrypt_call_spec 256 test_heap 0 16 0 (by decide)
    rw [hk, hb, he] at hC
    cases hC
    refine ⟨_, hcall, ?_⟩
    intro hcon
    have h2 := congrArg scheduled_key.key_1 hcon
    simp only [Heap.skey] at h2
    rw [Heap.four_stores_block] at h2
    have h3 : (test_heap.skey 0).key_1 = ⟨0, 0, 0, 0⟩ := by rw [hk]
    simp only [Heap.skey] at h3
    rw [h3] at h2
    revert h2
    decide

/-- C15 as amended (read-only inputs when the output does not overlap them). For every
memory and every three pointers, a call of `xr30256_encrypt` returns, stores the
ciphertext of the block at `plaintext` under the scheduled key at `key` in the four words
at `ciphertext`, and leaves every other word of the memory as it was; so the sixteen words
of the scheduled key are unchanged when the four output words do not overlap them, and the
four words of the input block are unchanged when the four output words do not overlap
them.  The same holds for `xr30256_decrypt`, its output being the four words at
`plaintext`. -/
theorem calls_frame (fuel : Nat) (h : Heap) (key plaintext ciphertext : Nat)
    (hf : 255 < fuel) :
    (∃ h1 C, xr30256_encrypt_call fuel h key plaintext ciphertext = some h1 ∧
      xr30256_encrypt fuel (h.skey key) (h.block plaintext) = some C ∧
      h1.block ciphertext = C ∧
      (∀ a, (a < ciphertext ∨ ciphertext + 4 ≤ a) → h1.word a = h.word a) ∧
      ((ciphertext + 4 ≤ key ∨ key + 16 ≤ ciphertext) → h1.skey key = h.skey key) ∧
      ((ciphertext + 4 ≤ plaintext ∨ plaintext + 4 ≤ ciphertext) →
        h1.block plaintext = h.block plaintext)) ∧
    (∃ h1 P, xr30256_decrypt_call fuel h key ciphertext plaintext = some h1 ∧
      xr30256_decrypt fuel (h.skey key) (h.block ciphertext) = some P ∧
      h1.block plaintext = P ∧
      (∀ a, (a < plaintext ∨ plaintext + 4 ≤ a) → h1.word a = h.word a) ∧
      ((plaintext + 4 ≤ key ∨ key + 16 ≤ plaintext) → h1.skey key = h.skey key) ∧
      ((plaintext + 4 ≤ ciphertext ∨ ciphertext + 4 ≤ plaintext) →
        h1.block ciphertext = h.block ciphertext)) := by
  constructor
  · obtain ⟨C, hC, hcall⟩ := encrypt_call_spec fuel h key plaintext ciphertext hf
    have hfr := Heap.four_stores_frame h ciphertext C.w0 C.w1 C.w2 C.w3
    exact ⟨_, C, hcall, hC, Heap.four_stores_block h ciphertext C.w0 C.w1 C.w2 C.w3, hfr,
      fun hd => Heap.skey_frame h _ ciphertext key hfr hd,
      fun hd => Heap.block_frame h _ ciphertext plaintext hfr hd⟩
  · obtain ⟨P, hP, hcall⟩ := decrypt_call_spec fuel h key ciphertext plaintext hf
    have hfr := Heap.four_stores_frame h plaintext P.w0 P.w1 P.w2 P.w3
    exact ⟨_, P, hcall, hP, Heap.four_stores_block h plaintext P.w0 P.w1 P.w2 P.w3, hfr,
      fun hd => Heap.skey_frame h _ plaintext key hfr hd,
      fun hd => Heap.block_frame h _ plaintext ciphertext hfr hd⟩

/-- Witness of the amended C15: the scheduled key at addresses 0..15; encryption reads its
block at 16..19 and writes at 20..23, decryption reads at 20..23 and writes at 16..19, so
the output overlaps neither the key nor the input. -/
theorem calls_frame_main :
    255 < 256 ∧
    (∃ h1 C, xr30256_encrypt_call 256 test_heap 0 16 20 = some h1 ∧
      xr30256_encrypt 256 (test_heap.skey 0) (test_heap.block 16) = some C ∧
      h1.block 20 = C ∧ h1.skey 0 = test_heap.skey 0 ∧
      h1.block 16 = test_heap.block 16) ∧
    (∃ h1 P, xr30256_decrypt_call 256 test_heap 0 20 16 = some h1 ∧
      xr30256_decrypt 256 (test_heap.skey 0) (test_heap.block 20) = some P ∧
      h1.block 16 = P ∧ h1.skey 0 = test_heap.skey 0 ∧
      h1.block 20 = test_heap.block 20) := by
  obtain ⟨⟨h1, C, a1, a2, a3, -, a5, a6⟩, ⟨h2, P, b1, b2, b3, -, b5, b6⟩⟩ :=
    calls_frame 256 test_heap 0 16 20 (by decide)
  exact ⟨by decide, ⟨h1, C, a1, a2, a3, a5 (by decide), a6 (by decide)⟩,
    ⟨h2, P, b1, b2, b3, b5 (by decide), b6 (by decide)⟩⟩

/-- C16 as amended (the avalanche bound that holds for every key). For every master key of
64-bit words the key schedule returns a scheduled key under which, for every plaintext of
64-bit words and each of the 256 bit positions, encryption of the plaintext and of the
plaintext with that bit flipped both return and the two ciphertexts differ in at least 1 of
their 256 bits; so the number of changed bits summed over the 256 positions is at least
256, an average of at least 1.  The bound 1 is attained: under the all-zero master key
exactly 1 bit changes for every plaintext and position. -/
theorem avalanche_lower_bound (fuel : Nat) (K P : Block) (hf : 255 < fuel) (hK : K.wf)
    (hP : P.wf) :
    (∃ sk, xr30256_key_schedule fuel K = some sk ∧
      (∀ i, i < 256 → ∃ C D, xr30256_encrypt fuel sk P = some C ∧
        xr30256_encrypt fuel sk (flip_bit P i) = some D ∧ 1 ≤ hamming C D) ∧
      (∀ X, xr30256_encrypt fuel sk X = some (feistel_encrypt sk X)) ∧
      256 ≤ ((List.range 256).map (fun i =>
        hamming (feistel_encrypt sk P) (feistel_encrypt sk (flip_bit P i)))).sum) ∧
    (∃ sk0, xr30256_key_schedule fuel ⟨0, 0, 0, 0⟩ = some sk0 ∧
      ∀ i, i < 256 → ∃ C D, xr30256_encrypt fuel sk0 P = some C ∧
        xr30256_encrypt fuel sk0 (flip_bit P i) = some D ∧ hamming C D = 1) := by
  constructor
  · obtain ⟨sk, h1, hsk⟩ := key_schedule_wf fuel K hf hK
    refine ⟨sk, h1, ?_, fun X => xr30256_encrypt_spec fuel sk X hf, ?_⟩
    · intro i _
      exact ⟨_, _, xr30256_encrypt_spec fuel sk P hf,
        xr30256_encrypt_spec fuel sk (flip_bit P i) hf, flip_changes_a_bit sk hsk P hP i⟩
    · have := length_le_sum_map (List.range 256)
        (fun i => hamming (feistel_encrypt sk P) (feistel_encrypt sk (flip_bit P i)))
        (fun i _ => flip_changes_a_bit sk hsk P hP i)
      rw [List.length_range] at this
      exact this
  · obtain ⟨sk0, h1, h2⟩ := zero_key_degenerate fuel hf
    exact ⟨sk0, h1, fun i hi => degenerate_flip fuel sk0 P i hf h2 hP hi⟩

/-- Witness of the amended C16 at the key and the plaintext of `main`. -/
theorem avalanche_lower_bound_main :
    255 < 256 ∧ main_key.wf ∧ main_plaintext.wf ∧
    (∃ sk, xr30256_key_schedule 256 main_key = some sk ∧
      (∀ i, i < 256 → ∃ C D, xr30256_encrypt 256 sk main_plaintext = some C ∧
        xr30256_encrypt 256 sk (flip_bit main_plaintext i) = some D ∧ 1 ≤ hamming C D) ∧
      (∀ X, xr30256_encrypt 256 sk X = some (feistel_encrypt sk X)) ∧
      256 ≤ ((List.range 256).map (fun i =>
        hamming (feistel_encrypt sk main_plaintext)
          (feistel_encrypt sk (flip_bit main_plaintext i)))).sum) ∧
    (∃ sk0, xr30256_key_schedule 256 ⟨0, 0, 0, 0⟩ = some sk0 ∧
      ∀ i, i < 256 → ∃ C D, xr30256_encrypt 256 sk0 main_plaintext = some C ∧
        xr30256_encrypt 256 sk0 (flip_bit main_plaintext i) = some D ∧ hamming C D = 1) :=
  ⟨by decide, by decide, by decide,
    avalanche_lower_bound 256 main_key main_plaintext (by decide) (by decide) (by decide)⟩

end XR30256
